import Mathlib

/-! A verification development for `spf_analyzer`.

A shallow embedding of `src/a1/spf_analyzer.c` and theorems about it.

Conventions of the embedding.

* A file is the list of its bytes, each byte a `Char`.  A C string is the list of
  the characters that stand before its terminating NUL.
* An `int` is an `Int`.  The program does no arithmetic on record fields, so
  the only place where the width of `int` matters is the conversion of decimal
  text (`atoi`, `%d` of `sscanf`), modelled by `toCInt`.
* An array of records is a function from indices to records, so that the
  content the array had before a call (the stack arrays of `main` are not
  initialised) is an explicit argument of every reader.
* A pointer into an array, as returned by `find_extracurricular`, is the index
  of the element; `NULL` is `none`.
* Loops that read a stream carry a fuel argument and return `none` when the
  fuel runs out; the entry points supply more fuel than the stream has bytes.
-/

namespace SpfAnalyzer

/-! ## Data model -/

/-- `MAX_RECORDS`: the capacity of both record arrays. -/
def MAX_RECORDS : Nat := 6608

/-- `CurricularData`: one data line of the tabular file. -/
structure CurricularData where
  record_id : Int
  hours_studied : Int
  attendance : Int
  tutoring_sessions : Int
  exam_score : Int
deriving DecidableEq, Repr

/-- `ExtracurricularData`: one block of the nested file; the activity flag is a
C boolean kept in an `int` (1 for Yes, 0 for No). -/
structure ExtracurricularData where
  extracurricular_activities : Int
  physical_activity : Int
  record_ID : Int
  sleep_hours : Int
deriving DecidableEq, Repr

/-- The first `n` elements of an array, as a sequence (empty when `n ≤ 0`). -/
def records {α : Type} (data : Nat → α) (n : Int) : List α :=
  (List.range n.toNat).map data

/-- Assignment to one element of an array: `data[i] = r`. -/
def setAt {α : Type} (data : Nat → α) (i : Nat) (r : α) : Nat → α :=
  fun j => if j = i then r else data j

/-! ## The C library, as far as the program uses it -/

/-- The NUL character, terminator of C strings. -/
def NUL : Char := Char.ofNat 0

/-- The newline character. -/
def NL : Char := Char.ofNat 10

/-- The single quote character. -/
def QUOTE : Char := Char.ofNat 39

/-- `isspace` in the C locale: space, `\t`, `\n`, `\v`, `\f`, `\r`. -/
def isspace (c : Char) : Bool :=
  c = Char.ofNat 32 || c = Char.ofNat 9 || c = Char.ofNat 10 || c = Char.ofNat 11
    || c = Char.ofNat 12 || c = Char.ofNat 13

/-- `isdigit`: the ten decimal digits. -/
def isdigit (c : Char) : Bool :=
  48 ≤ c.toNat && c.toNat ≤ 57

/-- The C string held in a buffer: the characters before the first NUL. -/
def cstr (buffer : List Char) : List Char :=
  buffer.takeWhile (fun c => c ≠ NUL)

/-- The text `%d` prints for an `int`. -/
def showInt (v : Int) : List Char :=
  if v < 0 then '-' :: Nat.toDigits 10 v.natAbs else Nat.toDigits 10 v.natAbs

/-- An argument of `printf`. -/
inductive PrintfArg where
  | int (v : Int)
  | str (s : List Char)

/-- The text `printf`/`fprintf` produce for a format and its arguments; the
program only uses the directives `%d` and `%s`. -/
def format : List Char → List PrintfArg → List Char
  | c :: d :: fmt, args =>
    if c = '%' ∧ d = 'd' then
      match args with
      | PrintfArg.int v :: rest => showInt v ++ format fmt rest
      | _ => format fmt args
    else if c = '%' ∧ d = 's' then
      match args with
      | PrintfArg.str s :: rest => s ++ format fmt rest
      | _ => format fmt args
    else c :: format (d :: fmt) args
  | fmt, _ => fmt

/-- `fprintf(output, fmt, args...)`: the stream with the formatted text appended. -/
def fprintf (output : List Char) (fmt : String) (args : List PrintfArg) : List Char :=
  output ++ format fmt.toList args

/-- `fgets` proper: at most `room` bytes are taken from the stream, and none
after a newline.  The result is the bytes stored and the rest of the stream. -/
def fgets_chars : (room : Nat) → (stream : List Char) → List Char × List Char
  | 0, stream => ([], stream)
  | _, [] => ([], [])
  | room + 1, c :: stream =>
    if c = NL then ([c], stream)
    else ((c :: (fgets_chars room stream).1), (fgets_chars room stream).2)

/-- `fgets(buffer, size, file)`: `none` is `NULL` (end of file before any byte);
otherwise the bytes stored in the buffer (at most `size - 1`) and the rest of
the stream. -/
def fgets (size : Nat) (stream : List Char) : Option (List Char × List Char) :=
  match stream with
  | [] => none
  | _ :: _ => some (fgets_chars (size - 1) stream)

/-- The value of the run of decimal digits a string starts with (0 if none). -/
def digitsValue (s : List Char) : Nat :=
  (s.takeWhile isdigit).foldl (fun acc c => 10 * acc + (c.toNat - 48)) 0

/-- The `int` that `atoi` and the `%d` of `sscanf` deliver for a sign and a
magnitude: `strtol` saturates at the bounds of a 64-bit `long`, and the
conversion to `int` keeps the low 32 bits (two's complement).  A magnitude
that fits an `int` is delivered as it is. -/
def toCInt (negative : Bool) (magnitude : Nat) : Int :=
  let l : Int :=
    if negative then max (-(magnitude : Int)) (-(2 ^ 63)) else min (magnitude : Int) (2 ^ 63 - 1)
  (l + 2 ^ 31) % 2 ^ 32 - 2 ^ 31

/-- The optional sign a number starts with: whether it is a minus, and the
text after the sign. -/
def scan_sign (s : List Char) : Bool × List Char :=
  match s with
  | c :: rest => if c = '-' then (true, rest) else if c = '+' then (false, rest) else (false, s)
  | [] => (false, s)

/-- `atoi(s)`: leading white space is skipped, then an optional sign and the
decimal digits that follow are converted; 0 when there is no digit. -/
def atoi (s : List Char) : Int :=
  let body := scan_sign (s.dropWhile isspace)
  toCInt body.1 (digitsValue body.2)

/-- The conversion of a number whose sign has been read: it fails when the
text does not start with a digit; on success the value and the text after
the digits. -/
def scan_number (negative : Bool) (s : List Char) : Option (Int × List Char) :=
  match s with
  | c :: _ =>
    if isdigit c then some (toCInt negative (digitsValue s), s.dropWhile isdigit)
    else none
  | [] => none

/-- The directive `%d` of `sscanf`: like `atoi`, except that the conversion
fails when no digit follows the optional sign. -/
def scan_d (s : List Char) : Option (Int × List Char) :=
  let body := scan_sign (s.dropWhile isspace)
  scan_number body.1 body.2

/-- An ordinary character `c` of a `sscanf` format: the input has to continue with `c`. -/
def scan_char (c : Char) (s : List Char) : Option (List Char) :=
  match s with
  | x :: rest => if x = c then some rest else none
  | [] => none

/-- The directives `,%d` of the format of `read_csv_file`. -/
def scan_comma_d (s : List Char) : Option (Int × List Char) :=
  match scan_char ',' s with
  | some rest => scan_d rest
  | none => none

/-! ## Text trimming -/

/-- `trim_whitespace(str)`.  The first component is the string the returned
pointer refers to.  The second is the string `str` itself refers to after the
call: the function only writes one NUL behind the last character that is not
white space, so the leading white space stays there, and a string of white
space alone is not written to at all. -/
def trim_whitespace (str : List Char) : List Char × List Char :=
  match str.dropWhile isspace with
  | [] => ([], str)
  | c :: rest =>
    (c :: rest.rdropWhile isspace, str.takeWhile isspace ++ c :: rest.rdropWhile isspace)

/-! ## Tabular parser -/

/-- The call `sscanf(buffer, "%d,%d,%d,%d,%d", &r.record_id, ..., &r.exam_score)`:
the fields are converted and stored from left to right, and the call returns
at the first directive that does not match, leaving the remaining fields of
`r` as they were. -/
def sscanf_record (buffer : List Char) (r : CurricularData) : CurricularData :=
  match scan_d buffer with
  | none => r
  | some (v1, s1) =>
    let r1 := { r with record_id := v1 }
    match scan_comma_d s1 with
    | none => r1
    | some (v2, s2) =>
      let r2 := { r1 with hours_studied := v2 }
      match scan_comma_d s2 with
      | none => r2
      | some (v3, s3) =>
        let r3 := { r2 with attendance := v3 }
        match scan_comma_d s3 with
        | none => r3
        | some (v4, s4) =>
          let r4 := { r3 with tutoring_sessions := v4 }
          match scan_comma_d s4 with
          | none => r4
          | some (v5, _) => { r4 with exam_score := v5 }

/-- The `while` loop of `read_csv_file`; the result is `index` and the array. -/
def read_csv_loop : (fuel : Nat) → (file : List Char) → (data : Nat → CurricularData) →
    (index : Nat) → Option (Nat × (Nat → CurricularData))
  | 0, _, _, _ => none
  | fuel + 1, file, data, index =>
    match fgets 256 file with
    | none => some (index, data)
    | some (buffer, file1) =>
      if index < MAX_RECORDS then
        read_csv_loop fuel file1
          (setAt data index (sscanf_record (cstr buffer) (data index))) (index + 1)
      else some (index, data)

/-- What a reader leaves behind: the value it returns, the array, and the
text it printed on standard output. -/
structure Read (α : Type) where
  count : Int
  data : Nat → α
  stdout : List Char

/-- `read_csv_file(filename, data)`; `file` is the content of the file, `none`
when it cannot be opened. -/
def read_csv_file (filename : String) (file : Option (List Char))
    (data : Nat → CurricularData) : Option (Read CurricularData) :=
  match file with
  | none => some ⟨-1, data, format "Error: Could not open file %s\n".toList
      [PrintfArg.str filename.toList]⟩
  | some content =>
    let file1 :=
      match fgets 256 content with
      | none => content
      | some (_, rest) => rest
    match read_csv_loop (file1.length + 1) file1 data 0 with
    | none => none
    | some (index, data1) => some ⟨index, data1, []⟩

/-! ## Nested-record parser -/

/-- `process_yaml_line(line, record)`: the record after the call. -/
def process_yaml_line (line : List Char) (record : ExtracurricularData) :
    ExtracurricularData :=
  if ':' ∈ line then
    let key := (trim_whitespace (line.takeWhile (fun c => c ≠ ':'))).1
    let value_str := (trim_whitespace ((line.dropWhile (fun c => c ≠ ':')).drop 1)).1
    if key = "Extracurricular_Activities".toList then
      let len := value_str.length
      let value_str :=
        if len ≥ 2 ∧ value_str[0]? = some QUOTE ∧ value_str[len - 1]? = some QUOTE then
          (trim_whitespace ((value_str.drop 1).take (len - 2))).1
        else value_str
      { record with
        extracurricular_activities := if value_str = "Yes".toList then 1 else 0 }
    else
      let value := atoi value_str
      if key = "Record_ID".toList then { record with record_ID := value }
      else if key = "Sleep_Hours".toList then { record with sleep_hours := value }
      else if key = "Physical_Activity".toList then { record with physical_activity := value }
      else record
  else record

/-- The `while` loop of `read_yaml_file`; the result is the value returned
(`current_record + 1`) and the array. -/
def read_yaml_loop : (fuel : Nat) → (file : List Char) →
    (data : Nat → ExtracurricularData) → (current_record : Int) →
    Option (Int × (Nat → ExtracurricularData))
  | 0, _, _, _ => none
  | fuel + 1, file, data, current_record =>
    match fgets 256 file with
    | none => some (current_record + 1, data)
    | some (chunk, file1) =>
      let buffer := (trim_whitespace (cstr chunk)).2
      if buffer = [] then read_yaml_loop fuel file1 data current_record
      else if buffer = "records:".toList then read_yaml_loop fuel file1 data current_record
      else if buffer.take 2 = "- ".toList then
        let current := current_record + 1
        if current ≥ MAX_RECORDS then some (current + 1, data)
        else
          let rest := (trim_whitespace (buffer.drop 2)).2
          if rest ≠ [] then
            read_yaml_loop fuel file1
              (setAt data current.toNat (process_yaml_line rest (data current.toNat))) current
          else read_yaml_loop fuel file1 data current
      else if current_record ≥ 0 then
        read_yaml_loop fuel file1
          (setAt data current_record.toNat
            (process_yaml_line buffer (data current_record.toNat))) current_record
      else read_yaml_loop fuel file1 data current_record

/-- `read_yaml_file(filename, data)`; `file` is the content of the file, `none`
when it cannot be opened. -/
def read_yaml_file (filename : String) (file : Option (List Char))
    (data : Nat → ExtracurricularData) : Option (Read ExtracurricularData) :=
  match file with
  | none => some ⟨-1, data, format "Error: Could not open file %s\n".toList
      [PrintfArg.str filename.toList]⟩
  | some content =>
    match read_yaml_loop (content.length + 1) content data (-1) with
    | none => none
    | some (count, data1) => some ⟨count, data1, []⟩

/-! ## Correlation lookup -/

/-- The loop of `find_extracurricular` from index `i` on, with `remaining`
iterations to go (`remaining = num_yaml - i`). -/
def find_extracurricular_from (record_id : Int) (yaml_data : Nat → ExtracurricularData) :
    (remaining : Nat) → (i : Nat) → Option Nat
  | 0, _ => none
  | k + 1, i =>
    if (yaml_data i).record_ID = record_id then some i
    else find_extracurricular_from record_id yaml_data k (i + 1)

/-- `find_extracurricular(record_id, yaml_data, num_yaml)`: the index of the
element the returned pointer refers to, `none` for `NULL`. -/
def find_extracurricular (record_id : Int) (yaml_data : Nat → ExtracurricularData)
    (num_yaml : Int) : Option Nat :=
  find_extracurricular_from record_id yaml_data num_yaml.toNat 0

/-! ## The report dispatcher (the `switch` of `main`) -/

/-- A `for (int i = 0; i < n; i++)` loop from index `i` on, with `remaining`
iterations to go, threading the state `s` through the body. -/
def forFrom {σ : Type} (body : Nat → σ → σ) : (remaining : Nat) → (i : Nat) → σ → σ
  | 0, _, s => s
  | k + 1, i, s => forFrom body k (i + 1) (body i s)

/-- The loop `for (int i = 0; i < n; i++) body`. -/
def forLoop {σ : Type} (n : Int) (body : Nat → σ → σ) (s : σ) : σ :=
  forFrom body n.toNat 0 s

/-- The text chosen by `flag ? "Yes" : "No"`. -/
def activityText (flag : Int) : List Char :=
  if flag ≠ 0 then "Yes".toList else "No".toList

/-- Body of the loop of `case 1`. -/
def task1_body (csv_data : Nat → CurricularData) (i : Nat) (output : List Char) : List Char :=
  if (csv_data i).exam_score > 90 then
    fprintf output "%d,%d\n"
      [PrintfArg.int (csv_data i).record_id, PrintfArg.int (csv_data i).exam_score]
  else output

/-- Body of the loop of `case 2`. -/
def task2_body (yaml_data : Nat → ExtracurricularData) (i : Nat) (output : List Char) :
    List Char :=
  let activity := activityText (yaml_data i).extracurricular_activities
  fprintf output "%s,%d,%d,%d\n"
    [PrintfArg.str activity, PrintfArg.int (yaml_data i).physical_activity,
     PrintfArg.int (yaml_data i).record_ID, PrintfArg.int (yaml_data i).sleep_hours]

/-- Body of the loop of `case 3`. -/
def task3_body (csv_data : Nat → CurricularData) (yaml_data : Nat → ExtracurricularData)
    (num_yaml : Int) (i : Nat) (output : List Char) : List Char :=
  if (csv_data i).exam_score > 90 then
    match find_extracurricular (csv_data i).record_id yaml_data num_yaml with
    | some ext =>
      let activity := activityText (yaml_data ext).extracurricular_activities
      fprintf output "%d,%d,%d,%d,%d,%s,%d,%d\n"
        [PrintfArg.int (csv_data i).record_id, PrintfArg.int (csv_data i).hours_studied,
         PrintfArg.int (csv_data i).attendance, PrintfArg.int (csv_data i).tutoring_sessions,
         PrintfArg.int (csv_data i).exam_score, PrintfArg.str activity,
         PrintfArg.int (yaml_data ext).physical_activity,
         PrintfArg.int (yaml_data ext).sleep_hours]
    | none => output
  else output

/-- Body of the loop of `case 4`. -/
def task4_body (csv_data : Nat → CurricularData) (i : Nat) (output : List Char) : List Char :=
  if (csv_data i).attendance = 100 then
    fprintf output "%d,%d\n"
      [PrintfArg.int (csv_data i).record_id, PrintfArg.int (csv_data i).exam_score]
  else output

/-- Body of the loop of `case 5`. -/
def task5_body (csv_data : Nat → CurricularData) (yaml_data : Nat → ExtracurricularData)
    (num_yaml : Int) (i : Nat) (output : List Char) : List Char :=
  match find_extracurricular (csv_data i).record_id yaml_data num_yaml with
  | some ext =>
    if (yaml_data ext).sleep_hours ≥ (csv_data i).hours_studied then
      fprintf output "%d,%d\n"
        [PrintfArg.int (csv_data i).record_id, PrintfArg.int (csv_data i).exam_score]
    else output
  | none => output

/-- Body of the loop of `case 6`. -/
def task6_body (csv_data : Nat → CurricularData) (yaml_data : Nat → ExtracurricularData)
    (num_yaml : Int) (i : Nat) (output : List Char) : List Char :=
  if (csv_data i).exam_score < 60 then
    match find_extracurricular (csv_data i).record_id yaml_data num_yaml with
    | some ext =>
      let activity := activityText (yaml_data ext).extracurricular_activities
      fprintf output "%d,%d,%s\n"
        [PrintfArg.int (csv_data i).record_id, PrintfArg.int (csv_data i).exam_score,
         PrintfArg.str activity]
    | none => output
  else output

/-- What the `switch` of `main` leaves behind: the value `main` returns, the
text printed on standard output and the text written to the output file. -/
structure Dispatched where
  status : Int
  stdout : List Char
  output : List Char
deriving DecidableEq, Repr

/-- The `switch (task)` of `main`, run on the freshly opened (empty) output file. -/
def dispatch (task : Int) (csv_data : Nat → CurricularData) (num_csv : Int)
    (yaml_data : Nat → ExtracurricularData) (num_yaml : Int) : Dispatched :=
  if task = 1 then
    let output := fprintf [] "Record_ID,Exam_Score\n" []
    ⟨0, [], forLoop num_csv (task1_body csv_data) output⟩
  else if task = 2 then
    let output :=
      fprintf [] "Extracurricular_Activities,Physical_Activity,Record_ID,Sleep_Hours\n" []
    ⟨0, [], forLoop num_yaml (task2_body yaml_data) output⟩
  else if task = 3 then
    let output :=
      fprintf []
        ("Record_ID,Hours_Studied,Attendance,Tutoring_Sessions,Exam_Score,"
          ++ "Extracurricular_Activities,Physical_Activity,Sleep_Hours\n") []
    ⟨0, [], forLoop num_csv (task3_body csv_data yaml_data num_yaml) output⟩
  else if task = 4 then
    let output := fprintf [] "Record_ID,Exam_Score\n" []
    ⟨0, [], forLoop num_csv (task4_body csv_data) output⟩
  else if task = 5 then
    let output := fprintf [] "Record_ID,Exam_Score\n" []
    ⟨0, [], forLoop num_csv (task5_body csv_data yaml_data num_yaml) output⟩
  else if task = 6 then
    let output := fprintf [] "Record_ID,Exam_Score,Extracurricular_Activities\n" []
    ⟨0, [], forLoop num_csv (task6_body csv_data yaml_data num_yaml) output⟩
  else
    ⟨1, format "Error: Invalid task number\n".toList [], []⟩

/-! ## Entry point -/

/-- The files of one run: the content of the two input files (`none` for a
file that cannot be opened) and whether `output.csv` can be created. -/
structure Files where
  csv : Option (List Char)
  yaml : Option (List Char)
  output_ok : Bool

/-- What a run of `main` leaves behind: the exit status, the text printed on
standard output, the names `fopen` was called with, in order, and the content
of `output.csv` (`none` when the run did not create it). -/
structure Run where
  status : Int
  stdout : List Char
  opened : List String
  output : Option (List Char)
deriving DecidableEq, Repr

/-- `main(argc, argv)`, with `argv[0] = prog` and `argv[1..] = args`.  The
locals `task`, `csv_data` and `yaml_data` are not initialised by the program;
`task0`, `csv_data0` and `yaml_data0` are what they hold at entry. -/
def main (prog : List Char) (args : List (List Char)) (files : Files) (task0 : Int)
    (csv_data0 : Nat → CurricularData) (yaml_data0 : Nat → ExtracurricularData) :
    Option Run :=
  match args with
  | [arg] =>
    if arg.take 7 ≠ "--TASK=".toList then
      some ⟨1, format "Usage: %s --TASK=\"<task_number>\"\n".toList [PrintfArg.str prog],
        [], none⟩
    else
      let task :=
        match scan_d (arg.drop 7) with
        | some (v, _) => v
        | none => task0
      match read_csv_file "data/a1-data-curricular.csv" files.csv csv_data0 with
      | none => none
      | some csv =>
        if csv.count < 0 then some ⟨1, csv.stdout, ["data/a1-data-curricular.csv"], none⟩
        else
          match read_yaml_file "data/a1-data-extracurricular.yaml" files.yaml yaml_data0 with
          | none => none
          | some yaml =>
            if yaml.count < 0 then
              some ⟨1, csv.stdout ++ yaml.stdout,
                ["data/a1-data-curricular.csv", "data/a1-data-extracurricular.yaml"], none⟩
            else if files.output_ok = false then
              some ⟨1, csv.stdout ++ yaml.stdout
                  ++ format "Error: Could not create output file\n".toList [],
                ["data/a1-data-curricular.csv", "data/a1-data-extracurricular.yaml",
                  "output.csv"], none⟩
            else
              let d := dispatch task csv.data csv.count yaml.data yaml.count
              some ⟨d.status, csv.stdout ++ yaml.stdout ++ d.stdout,
                ["data/a1-data-curricular.csv", "data/a1-data-extracurricular.yaml",
                  "output.csv"], some d.output⟩
  | _ =>
    some ⟨1, format "Usage: %s --TASK=\"<task_number>\"\n".toList [PrintfArg.str prog],
      [], none⟩

/-! ## Specification-side vocabulary -/

/-- The fields of a row, joined by commas. -/
def commaSep : List (List Char) → List Char
  | [] => []
  | [x] => x
  | x :: y :: rest => x ++ ',' :: commaSep (y :: rest)

/-- One line of a comma-separated file: the fields joined by commas, then a newline. -/
def csvLine (fields : List (List Char)) : List Char :=
  commaSep fields ++ [NL]

/-- The data row of task 3 for a curricular record and its correlated record. -/
def task3_row (c : CurricularData) (e : ExtracurricularData) : List Char :=
  csvLine [showInt c.record_id, showInt c.hours_studied, showInt c.attendance,
    showInt c.tutoring_sessions, showInt c.exam_score,
    if e.extracurricular_activities ≠ 0 then "Yes".toList else "No".toList,
    showInt e.physical_activity, showInt e.sleep_hours]

/-- The data row of tasks 1, 4 and 5 for a curricular record. -/
def score_row (c : CurricularData) : List Char :=
  csvLine [showInt c.record_id, showInt c.exam_score]

/-- Removal of the leading and the trailing white space of a string. -/
def trimmed (s : List Char) : List Char :=
  (s.dropWhile isspace).rdropWhile isspace

/-- Removal of one surrounding pair of single quotes from a string that both
starts and ends with a single quote; any other string is left as it is. -/
def stripQuotePair (s : List Char) : List Char :=
  if s.head? = some QUOTE ∧ s.getLast? = some QUOTE then s.tail.dropLast else s

/-- Whether a written activity value reads Yes: trimmed, freed from one
surrounding pair of single quotes and trimmed again, it is the literal `Yes`. -/
def yesValue (value : List Char) : Bool :=
  decide (trimmed (stripQuotePair (trimmed value)) = "Yes".toList)

/-- Whether a text is a decimal integer: an optional sign, then one or more
digits and nothing else. -/
def isIntegerText (s : List Char) : Bool :=
  match s with
  | [] => false
  | c :: rest =>
    if c = '-' ∨ c = '+' then !rest.isEmpty && rest.all isdigit
    else (c :: rest).all isdigit

/-- Whether an argument has the form `--TASK=<integer>`. -/
def isTaskFlag (arg : List Char) : Bool :=
  decide (arg.take 7 = "--TASK=".toList) && isIntegerText (arg.drop 7)

/-- Whether an integer is a value of the type `int` (32 bits, two's complement). -/
def inIntRange (v : Int) : Prop :=
  -2147483648 ≤ v ∧ v ≤ 2147483647

instance (v : Int) : Decidable (inIntRange v) := by
  unfold inIntRange; infer_instance

/-- Whether a text starts with a decimal integer as `%d` accepts it: white
space, then an optional sign, then a digit. -/
def startsInteger (s : List Char) : Bool :=
  match s.dropWhile isspace with
  | [] => false
  | c :: rest =>
    if c = '-' ∨ c = '+' then
      match rest with
      | d :: _ => isdigit d
      | [] => false
    else isdigit c

/-- A record in which the leading fields have been replaced by the values
`vs`, in the order of the tabular file, and the other fields are kept. -/
def storeFields (vs : List Int) (r : CurricularData) : CurricularData :=
  match vs with
  | [] => r
  | [a] => { r with record_id := a }
  | [a, b] => { r with record_id := a, hours_studied := b }
  | [a, b, c] => { r with record_id := a, hours_studied := b, attendance := c }
  | [a, b, c, d] =>
    { r with record_id := a, hours_studied := b, attendance := c, tutoring_sessions := d }
  | a :: b :: c :: d :: e :: _ => ⟨a, b, c, d, e⟩

/-- The text `junk` that follows `k` integer fields of a data line does not
continue them: it does not start with an integer when no field precedes it;
otherwise it does not start with a digit and, when fewer than five fields
precede it, it is not a comma followed by an integer. -/
def stopsConversion (k : Nat) (junk : List Char) : Prop :=
  (k = 0 → startsInteger junk = false) ∧
  (0 < k → ∀ c ∈ junk.head?, isdigit c = false) ∧
  (0 < k → k < 5 → ∀ j, junk = ',' :: j → startsInteger j = false)

/-- A data line without its newline: integer fields separated by commas, then
any text. -/
def fieldLine (line : List Int × List Char) : List Char :=
  commaSep (line.1.map showInt) ++ line.2

/-- The data line, without its newline, that holds the five fields of a record. -/
def recordLine (r : CurricularData) : List Char :=
  commaSep [showInt r.record_id, showInt r.hours_studied, showInt r.attendance,
    showInt r.tutoring_sessions, showInt r.exam_score]

/-- Whether the five fields of a record are values of the type `int`. -/
def intFields (r : CurricularData) : Prop :=
  inIntRange r.record_id ∧ inIntRange r.hours_studied ∧ inIntRange r.attendance ∧
    inIntRange r.tutoring_sessions ∧ inIntRange r.exam_score

/-- A field of an extracurricular block as it is written in the nested file:
the activity with the text of its value, the three others with their integer. -/
inductive Field where
  | activity (text : List Char)
  | physical (v : Int)
  | id (v : Int)
  | sleep (v : Int)
deriving DecidableEq

/-- The key a field is written under. -/
def Field.key : Field → List Char
  | Field.activity _ => "Extracurricular_Activities".toList
  | Field.physical _ => "Physical_Activity".toList
  | Field.id _ => "Record_ID".toList
  | Field.sleep _ => "Sleep_Hours".toList

/-- The text written for the value of a field; integers are written in decimal. -/
def Field.text : Field → List Char
  | Field.activity text => text
  | Field.physical v => showInt v
  | Field.id v => showInt v
  | Field.sleep v => showInt v

/-- The record in which a written field has been stored: the activity flag is
1 when the written value reads Yes and 0 otherwise. -/
def Field.store (f : Field) (r : ExtracurricularData) : ExtracurricularData :=
  match f with
  | Field.activity text =>
    { r with extracurricular_activities := if yesValue text = true then 1 else 0 }
  | Field.physical v => { r with physical_activity := v }
  | Field.id v => { r with record_ID := v }
  | Field.sleep v => { r with sleep_hours := v }

/-- Whether a written field can be stored as it is: an integer has to be a
value of the type `int`, the text of an activity has to be free of newlines
and of NUL. -/
def Field.wellFormed : Field → Prop
  | Field.activity text => NL ∉ text ∧ NUL ∉ text
  | Field.physical v => inIntRange v
  | Field.id v => inIntRange v
  | Field.sleep v => inIntRange v

/-- One `Key: value` line of a block, without its newline, behind an indentation. -/
def yamlLine (indent : List Char) (f : Field) : List Char :=
  indent ++ f.key ++ ": ".toList ++ f.text

/-- The lines of one block, without their newlines: the list-item line `- K: v`
for the first field, then one indented `K: v` line for each other field. -/
def blockLines (fields : List Field) (indents : List (List Char)) : List (List Char) :=
  match fields with
  | [] => []
  | f :: others => ("- ".toList ++ yamlLine [] f) :: List.zipWith yamlLine indents others

/-- The text of one block: its lines, each ended by a newline. -/
def yamlBlock (fields : List Field) (indents : List (List Char)) : List Char :=
  ((blockLines fields indents).map (fun l => l ++ [NL])).flatten

/-- The data row of task 6 for a curricular record and its correlated record. -/
def task6_row (c : CurricularData) (e : ExtracurricularData) : List Char :=
  csvLine [showInt c.record_id, showInt c.exam_score,
    if e.extracurricular_activities ≠ 0 then "Yes".toList else "No".toList]

/-- The data row of task 2 for an extracurricular record. -/
def task2_row (e : ExtracurricularData) : List Char :=
  csvLine [if e.extracurricular_activities ≠ 0 then "Yes".toList else "No".toList,
    showInt e.physical_activity, showInt e.record_ID, showInt e.sleep_hours]

/-- The header of a task, as the table of the report dispatcher gives it,
without its newline. -/
def headerOf (task : Int) : String :=
  if task = 2 then "Extracurricular_Activities,Physical_Activity,Record_ID,Sleep_Hours"
  else if task = 3 then
    "Record_ID,Hours_Studied,Attendance,Tutoring_Sessions,Exam_Score,"
      ++ "Extracurricular_Activities,Physical_Activity,Sleep_Hours"
  else if task = 6 then "Record_ID,Exam_Score,Extracurricular_Activities"
  else "Record_ID,Exam_Score"

/-- The first line of a text, without its newline. -/
def firstLine (text : List Char) : List Char :=
  text.takeWhile (fun c => c ≠ NL)

/-- A nested file made of list-item lines alone: one line `- K: v` for each field. -/
def itemsFile (fields : List Field) : List Char :=
  (fields.map (fun f => ("- ".toList ++ yamlLine [] f) ++ [NL])).flatten

/-- The pieces of a text between the occurrences of a separator (one piece
more than there are separators). -/
def splitAtSep (sep : Char) : List Char → List (List Char)
  | [] => [[]]
  | c :: s =>
    if c = sep then [] :: splitAtSep sep s
    else
      match splitAtSep sep s with
      | piece :: pieces => (c :: piece) :: pieces
      | [] => [[c]]

/-- The data rows of an output file, each as the list of its fields: the
lines of the text (the text ends with a newline, so the last piece is
dropped), without the header line, each split at its commas. -/
def dataRows (output : List Char) : List (List (List Char)) :=
  ((splitAtSep NL output).dropLast.tail).map (splitAtSep ',')

/-- The pair (record_id, exam_score) taken from a data row of task 3: the
first and the fifth field. -/
def task3_pair (row : List (List Char)) : List (List Char) :=
  [row.getD 0 [], row.getD 4 []]

/-- Whether a curricular record has a correlated extracurricular record among
the first `num_yaml` elements of the array. -/
def correlated (c : CurricularData) (yaml_data : Nat → ExtracurricularData)
    (num_yaml : Int) : Prop :=
  ∃ e ∈ records yaml_data num_yaml, e.record_ID = c.record_id

/-- The fields of the data row of task 3 for a curricular record and its
correlated record. -/
def task3_fields (c : CurricularData) (e : ExtracurricularData) : List (List Char) :=
  [showInt c.record_id, showInt c.hours_studied, showInt c.attendance,
    showInt c.tutoring_sessions, showInt c.exam_score,
    if e.extracurricular_activities ≠ 0 then "Yes".toList else "No".toList,
    showInt e.physical_activity, showInt e.sleep_hours]

/-- The fields of the data row of task 1 for a curricular record. -/
def score_fields (c : CurricularData) : List (List Char) :=
  [showInt c.record_id, showInt c.exam_score]

/-- The integer a field of a data line begins with, as `%d` converts it:
white space is skipped, then an optional sign and the digits that follow are
taken; `none` when no digit stands there. -/
def fieldInt (field : List Char) : Option Int :=
  (scan_d field).map Prod.fst

/-- Whether a field is an integer and nothing else: nothing follows the
digits of the integer it begins with. -/
def fieldIsInt (field : List Char) : Bool :=
  match scan_d field with
  | some (_, []) => true
  | _ => false

/-- The integers stored from the first `n` fields of a line, left to right:
a field that begins with an integer gives that integer, and the next field is
looked at only when the field is nothing but the integer; a field that does
not begin with an integer ends the list. -/
def fieldInts : Nat → List (List Char) → List Int
  | 0, _ => []
  | _, [] => []
  | n + 1, field :: fields =>
    match fieldInt field with
    | none => []
    | some v => v :: (if fieldIsInt field then fieldInts n fields else [])

/-- The integers stored from a data line: those of its first five
comma-separated fields. -/
def lineInts (line : List Char) : List Int :=
  fieldInts 5 (splitAtSep ',' line)

/-- The values the first `n` conversions of `%d,%d,...` deliver on a text:
a conversion that fails, or a character other than the comma behind a
converted integer, ends the list. -/
def scan_values : Nat → List Char → List Int
  | 0, _ => []
  | n + 1, s =>
    match scan_d s with
    | none => []
    | some (v, rest) =>
      v :: (match scan_char ',' rest with
        | some rest1 => scan_values n rest1
        | none => [])

/-! ## Lemmas on the loops -/

theorem forFrom_append {body : Nat → List Char → List Char} (g : Nat → List Char)
    (hbody : ∀ i s, body i s = s ++ g i) (k i : Nat) (s : List Char) :
    forFrom body k i s = s ++ ((List.range' i k).map g).flatten := by
  induction k generalizing i s with
  | zero => simp [forFrom]
  | succ k ih => simp [forFrom, ih, hbody, List.range'_succ]

theorem flatten_map_getD {α : Type} (f : α → Option (List Char)) (l : List α) :
    (l.map (fun x => (f x).getD [])).flatten = (l.filterMap f).flatten := by
  induction l with
  | nil => rfl
  | cons a l ih =>
    cases h : f a <;> simp [List.filterMap_cons, h, ih]

/-- A loop whose body appends at most one row per element writes the rows of
the selected elements, in order. -/
theorem forLoop_rows {α : Type} (data : Nat → α) (n : Int) (f : α → Option (List Char))
    {body : Nat → List Char → List Char}
    (hbody : ∀ i s, body i s = s ++ (f (data i)).getD []) (s : List Char) :
    forLoop n body s = s ++ ((records data n).filterMap f).flatten := by
  unfold forLoop records
  rw [forFrom_append (fun i => (f (data i)).getD []) hbody, ← flatten_map_getD,
    List.range_eq_range', List.map_map]
  rfl

theorem find_from_some (id : Int) (data : Nat → ExtracurricularData) (k i r : Nat) :
    find_extracurricular_from id data k i = some r ↔
      (i ≤ r ∧ r < i + k ∧ (data r).record_ID = id ∧
        ∀ j, i ≤ j → j < r → (data j).record_ID ≠ id) := by
  induction k generalizing i with
  | zero =>
    simp only [find_extracurricular_from]
    constructor
    · intro h; cases h
    · rintro ⟨h1, h2, -⟩; omega
  | succ k ih =>
    simp only [find_extracurricular_from]
    by_cases h : (data i).record_ID = id
    · rw [if_pos h]
      constructor
      · intro hr
        obtain rfl : i = r := by simpa using hr
        exact ⟨le_refl _, by omega, h, fun j h1 h2 => by omega⟩
      · rintro ⟨h1, -, -, h4⟩
        rcases Nat.eq_or_lt_of_le h1 with rfl | hlt
        · rfl
        · exact absurd h (h4 i (le_refl _) hlt)
    · rw [if_neg h, ih]
      constructor
      · rintro ⟨h1, h2, h3, h4⟩
        refine ⟨by omega, by omega, h3, fun j hj1 hj2 => ?_⟩
        rcases Nat.eq_or_lt_of_le hj1 with rfl | hlt
        · exact h
        · exact h4 j hlt hj2
      · rintro ⟨h1, h2, h3, h4⟩
        have hne : i ≠ r := fun e => h (e ▸ h3)
        exact ⟨by omega, by omega, h3, fun j hj1 hj2 => h4 j (by omega) hj2⟩

theorem find_from_none (id : Int) (data : Nat → ExtracurricularData) (k i : Nat) :
    find_extracurricular_from id data k i = none ↔
      ∀ j, i ≤ j → j < i + k → (data j).record_ID ≠ id := by
  induction k generalizing i with
  | zero =>
    simp only [find_extracurricular_from, true_iff]
    intro j h1 h2; omega
  | succ k ih =>
    simp only [find_extracurricular_from]
    by_cases h : (data i).record_ID = id
    · rw [if_pos h]
      constructor
      · intro hr; cases hr
      · intro hall; exact absurd h (hall i (le_refl _) (by omega))
    · rw [if_neg h, ih]
      constructor
      · intro hall j hj1 hj2
        rcases Nat.eq_or_lt_of_le hj1 with rfl | hlt
        · exact h
        · exact hall j hlt (by omega)
      · intro hall j hj1 hj2
        exact hall j (by omega) (by omega)

theorem find_from_find? (id : Int) (data : Nat → ExtracurricularData) (k i : Nat) :
    (find_extracurricular_from id data k i).map data =
      ((List.range' i k).map data).find? (fun e => decide (e.record_ID = id)) := by
  induction k generalizing i with
  | zero => rfl
  | succ k ih =>
    simp only [find_extracurricular_from, List.range'_succ, List.map_cons, List.find?_cons]
    by_cases h : (data i).record_ID = id
    · simp [h]
    · simp [h, ih]

/-- The record `find_extracurricular` points to is the first record of the
sequence that has the identifier. -/
theorem find_extracurricular_find? (id : Int) (data : Nat → ExtracurricularData) (n : Int) :
    (find_extracurricular id data n).map data =
      (records data n).find? (fun e => decide (e.record_ID = id)) := by
  unfold find_extracurricular records
  rw [find_from_find?, List.range_eq_range']

set_option maxRecDepth 100000 in
theorem header3_text (args : List PrintfArg) :
    fprintf [] ("Record_ID,Hours_Studied,Attendance,Tutoring_Sessions,Exam_Score,"
      ++ "Extracurricular_Activities,Physical_Activity,Sleep_Hours\n") args =
    ("Record_ID,Hours_Studied,Attendance,Tutoring_Sessions,Exam_Score,"
      ++ "Extracurricular_Activities,Physical_Activity,Sleep_Hours\n").toList := by
  rfl

set_option maxRecDepth 100000 in
theorem score_header_text (args : List PrintfArg) :
    fprintf [] "Record_ID,Exam_Score\n" args = "Record_ID,Exam_Score\n".toList := by
  rfl

theorem score_row_text (s : List Char) (c : CurricularData) :
    fprintf s "%d,%d\n" [PrintfArg.int c.record_id, PrintfArg.int c.exam_score] =
      s ++ score_row c := by
  simp [fprintf, format, score_row, csvLine, commaSep]; rfl

theorem task3_row_text (s : List Char) (c : CurricularData) (e : ExtracurricularData) :
    fprintf s "%d,%d,%d,%d,%d,%s,%d,%d\n"
        [PrintfArg.int c.record_id, PrintfArg.int c.hours_studied,
         PrintfArg.int c.attendance, PrintfArg.int c.tutoring_sessions,
         PrintfArg.int c.exam_score, PrintfArg.str (activityText e.extracurricular_activities),
         PrintfArg.int e.physical_activity, PrintfArg.int e.sleep_hours] =
      s ++ task3_row c e := by
  simp [fprintf, format, task3_row, csvLine, commaSep, activityText]; rfl

theorem task6_row_text (s : List Char) (c : CurricularData) (e : ExtracurricularData) :
    fprintf s "%d,%d,%s\n"
        [PrintfArg.int c.record_id, PrintfArg.int c.exam_score,
         PrintfArg.str (activityText e.extracurricular_activities)] =
      s ++ task6_row c e := by
  simp [fprintf, format, task6_row, csvLine, commaSep, activityText]; rfl

theorem task2_row_text (s : List Char) (e : ExtracurricularData) :
    fprintf s "%s,%d,%d,%d\n"
        [PrintfArg.str (activityText e.extracurricular_activities),
         PrintfArg.int e.physical_activity, PrintfArg.int e.record_ID,
         PrintfArg.int e.sleep_hours] =
      s ++ task2_row e := by
  simp [fprintf, format, task2_row, csvLine, commaSep, activityText]; rfl

set_option maxRecDepth 100000 in
theorem header2_text (args : List PrintfArg) :
    fprintf [] "Extracurricular_Activities,Physical_Activity,Record_ID,Sleep_Hours\n" args =
      "Extracurricular_Activities,Physical_Activity,Record_ID,Sleep_Hours\n".toList := by
  rfl

set_option maxRecDepth 100000 in
theorem header6_text (args : List PrintfArg) :
    fprintf [] "Record_ID,Exam_Score,Extracurricular_Activities\n" args =
      "Record_ID,Exam_Score,Extracurricular_Activities\n".toList := by
  rfl

/-- The body of the loop of `case 1` appends the row of a selected record. -/
theorem task1_body_rows (csv_data : Nat → CurricularData) (i : Nat) (s : List Char) :
    task1_body csv_data i s =
      s ++ (if (csv_data i).exam_score > 90 then some (score_row (csv_data i))
        else none).getD [] := by
  unfold task1_body
  by_cases h : (csv_data i).exam_score > 90
  · simp [h, score_row_text]
  · simp [h]

/-- The body of the loop of `case 2` appends the row of the record. -/
theorem task2_body_rows (yaml_data : Nat → ExtracurricularData) (i : Nat) (s : List Char) :
    task2_body yaml_data i s =
      s ++ (some (task2_row (yaml_data i))).getD [] := by
  unfold task2_body
  simp [task2_row_text]

/-- The body of the loop of `case 3` appends the row of a selected record. -/
theorem task3_body_rows (csv_data : Nat → CurricularData)
    (yaml_data : Nat → ExtracurricularData) (num_yaml : Int) (i : Nat) (s : List Char) :
    task3_body csv_data yaml_data num_yaml i s =
      s ++ (if (csv_data i).exam_score > 90 then
          (find_extracurricular (csv_data i).record_id yaml_data num_yaml).map
            (fun ext => task3_row (csv_data i) (yaml_data ext))
        else none).getD [] := by
  unfold task3_body
  by_cases h : (csv_data i).exam_score > 90
  · simp only [if_pos h]
    cases hf : find_extracurricular (csv_data i).record_id yaml_data num_yaml with
    | none => simp
    | some ext => simp [task3_row_text]
  · simp [h]

/-- The body of the loop of `case 4` appends the row of a selected record. -/
theorem task4_body_rows (csv_data : Nat → CurricularData) (i : Nat) (s : List Char) :
    task4_body csv_data i s =
      s ++ (if (csv_data i).attendance = 100 then some (score_row (csv_data i))
        else none).getD [] := by
  unfold task4_body
  by_cases h : (csv_data i).attendance = 100
  · simp [h, score_row_text]
  · simp [h]

/-- The body of the loop of `case 5` appends the row of a selected record. -/
theorem task5_body_rows (csv_data : Nat → CurricularData)
    (yaml_data : Nat → ExtracurricularData) (num_yaml : Int) (i : Nat) (s : List Char) :
    task5_body csv_data yaml_data num_yaml i s =
      s ++ (match find_extracurricular (csv_data i).record_id yaml_data num_yaml with
        | some ext =>
          if (yaml_data ext).sleep_hours ≥ (csv_data i).hours_studied then
            some (score_row (csv_data i))
          else none
        | none => none).getD [] := by
  unfold task5_body
  cases hf : find_extracurricular (csv_data i).record_id yaml_data num_yaml with
  | none => simp
  | some ext =>
    by_cases h : (yaml_data ext).sleep_hours ≥ (csv_data i).hours_studied
    · simp [h, score_row_text]
    · simp [h]

/-- The body of the loop of `case 6` appends the row of a selected record. -/
theorem task6_body_rows (csv_data : Nat → CurricularData)
    (yaml_data : Nat → ExtracurricularData) (num_yaml : Int) (i : Nat) (s : List Char) :
    task6_body csv_data yaml_data num_yaml i s =
      s ++ (if (csv_data i).exam_score < 60 then
          (find_extracurricular (csv_data i).record_id yaml_data num_yaml).map
            (fun ext => task6_row (csv_data i) (yaml_data ext))
        else none).getD [] := by
  unfold task6_body
  by_cases h : (csv_data i).exam_score < 60
  · simp only [if_pos h]
    cases hf : find_extracurricular (csv_data i).record_id yaml_data num_yaml with
    | none => simp
    | some ext => simp [task6_row_text]
  · simp [h]

theorem filterMap_if {α β : Type} (p : α → Prop) [DecidablePred p] (g : α → β) (l : List α) :
    l.filterMap (fun c => if p c then some (g c) else none) =
      (l.filter (fun c => decide (p c))).map g := by
  induction l with
  | nil => rfl
  | cons c l ih =>
    by_cases h : p c
    · simp [List.filterMap_cons, List.filter_cons, h, ih]
    · simp [List.filterMap_cons, List.filter_cons, h, ih]

/-! ## Lemmas on lists and on trimming -/

theorem dropWhile_append_all {α : Type} (p : α → Bool) (a b : List α)
    (h : ∀ c ∈ a, p c = true) :
    (a ++ b).dropWhile p = b.dropWhile p := by
  induction a with
  | nil => rfl
  | cons x a ih =>
    have hx : p x = true := h x (List.mem_cons_self _ _)
    simp only [List.cons_append, List.dropWhile_cons, hx, if_true]
    exact ih (fun c hc => h c (List.mem_cons_of_mem _ hc))

theorem takeWhile_append_all {α : Type} (p : α → Bool) (a b : List α)
    (h : ∀ c ∈ a, p c = true) :
    (a ++ b).takeWhile p = a ++ b.takeWhile p := by
  induction a with
  | nil => rfl
  | cons x a ih =>
    have hx : p x = true := h x (List.mem_cons_self _ _)
    simp only [List.cons_append, List.takeWhile_cons, hx, if_true]
    rw [ih (fun c hc => h c (List.mem_cons_of_mem _ hc))]

theorem rdropWhile_append_all {α : Type} (p : α → Bool) (a b : List α)
    (h : ∀ c ∈ b, p c = true) :
    (a ++ b).rdropWhile p = a.rdropWhile p := by
  unfold List.rdropWhile
  rw [List.reverse_append, dropWhile_append_all p _ _ (fun c hc => h c (List.mem_reverse.1 hc))]

theorem dropWhile_append_stop {α : Type} (p : α → Bool) (a b : List α) (x : α)
    (hx : p x = false) :
    (a ++ x :: b).dropWhile p = a.dropWhile p ++ x :: b := by
  induction a with
  | nil => simp [List.dropWhile_cons, hx]
  | cons y a ih =>
    by_cases hy : p y = true
    · simp only [List.cons_append, List.dropWhile_cons, hy, if_true]; exact ih
    · simp [List.dropWhile_cons, hy]

theorem rdropWhile_append_stop {α : Type} (p : α → Bool) (a b : List α) (x : α)
    (hx : p x = false) :
    (a ++ x :: b).rdropWhile p = a ++ x :: b.rdropWhile p := by
  unfold List.rdropWhile
  rw [List.reverse_append, List.reverse_cons, List.append_assoc, List.singleton_append,
    dropWhile_append_stop p _ _ x hx]
  simp

theorem rdropWhile_cons_stop {α : Type} (p : α → Bool) (b : List α) (x : α)
    (hx : p x = false) :
    (x :: b).rdropWhile p = x :: b.rdropWhile p :=
  rdropWhile_append_stop p [] b x hx

theorem head_dropWhile_not {α : Type} (p : α → Bool) (s : List α) (c : α) (rest : List α)
    (h : s.dropWhile p = c :: rest) : p c = false := by
  induction s with
  | nil => simp at h
  | cons x s ih =>
    rw [List.dropWhile_cons] at h
    by_cases hx : p x = true
    · rw [if_pos hx] at h; exact ih h
    · rw [if_neg hx] at h
      simp only [List.cons.injEq] at h
      rw [← h.1]; simpa using hx

/-- The string `trim_whitespace` returns is the argument without its leading
and trailing white space. -/
theorem trim_whitespace_fst (s : List Char) :
    (trim_whitespace s).1 = (s.dropWhile isspace).rdropWhile isspace := by
  unfold trim_whitespace
  cases h : s.dropWhile isspace with
  | nil => simp
  | cons c rest =>
    simp only
    rw [rdropWhile_cons_stop isspace rest c (head_dropWhile_not isspace s c rest h)]

theorem dropWhile_fixed_append {α : Type} (p : α → Bool) (k b : List α) (hne : k ≠ [])
    (hk : k.dropWhile p = k) : (k ++ b).dropWhile p = k ++ b := by
  cases k with
  | nil => exact absurd rfl hne
  | cons c r =>
    have hc : p c = false := head_dropWhile_not p (c :: r) c r hk
    simp [List.dropWhile_cons, hc]

/-- Trimming a text that is padded with white space on both sides gives the text. -/
theorem trim_padded (ws1 ws2 k : List Char) (h1 : ∀ c ∈ ws1, isspace c = true)
    (h2 : ∀ c ∈ ws2, isspace c = true) (hne : k ≠ []) (hk0 : k.dropWhile isspace = k)
    (hk1 : k.rdropWhile isspace = k) :
    (trim_whitespace (ws1 ++ k ++ ws2)).1 = k := by
  rw [trim_whitespace_fst, List.append_assoc, dropWhile_append_all isspace _ _ h1,
    dropWhile_fixed_append isspace k ws2 hne hk0, rdropWhile_append_all isspace _ _ h2, hk1]

theorem takeWhile_ne_stop (x : Char) (a b : List Char) (h : x ∉ a) :
    (a ++ x :: b).takeWhile (fun c => c ≠ x) = a := by
  induction a with
  | nil => simp [List.takeWhile_cons]
  | cons y a ih =>
    have hy : decide (y ≠ x) = true := by
      simpa using fun e : y = x => h (e ▸ List.mem_cons_self _ _)
    have ha : x ∉ a := fun e => h (List.mem_cons_of_mem _ e)
    simp only [List.cons_append, List.takeWhile_cons, hy, if_true]
    rw [ih ha]

theorem dropWhile_ne_stop (x : Char) (a b : List Char) (h : x ∉ a) :
    (a ++ x :: b).dropWhile (fun c => c ≠ x) = x :: b := by
  induction a with
  | nil => simp [List.dropWhile_cons]
  | cons y a ih =>
    have hy : decide (y ≠ x) = true := by
      simpa using fun e : y = x => h (e ▸ List.mem_cons_self _ _)
    have ha : x ∉ a := fun e => h (List.mem_cons_of_mem _ e)
    simp only [List.cons_append, List.dropWhile_cons, hy, if_true]
    exact ih ha

theorem colon_not_space (ws : List Char) (h : ∀ c ∈ ws, isspace c = true) : ':' ∉ ws := by
  intro hc
  have := h _ hc
  revert this
  decide

/-- The quote test of `process_yaml_line` and the removal that follows it agree
with `stripQuotePair`, except on the string made of one quote alone, which
the program keeps and `stripQuotePair` empties. -/
theorem strip_quotes_eq (t : List Char) (ht : t ≠ [QUOTE]) :
    (if t.length ≥ 2 ∧ t[0]? = some QUOTE ∧ t[t.length - 1]? = some QUOTE then
        (trim_whitespace ((t.drop 1).take (t.length - 2))).1 else t) =
      if t.head? = some QUOTE ∧ t.getLast? = some QUOTE then trimmed t.tail.dropLast else t := by
  have e1 : t[0]? = t.head? := by cases t <;> simp
  have e2 : t[t.length - 1]? = t.getLast? := (List.getLast?_eq_getElem? t).symm
  rw [e1, e2]
  by_cases hq : t.head? = some QUOTE ∧ t.getLast? = some QUOTE
  · have hlen : t.length ≥ 2 := by
      match t, ht, hq with
      | [], _, hq => simp at hq
      | [c], ht, hq =>
        simp at hq
        exact absurd (by rw [hq]) ht
      | _ :: _ :: _, _, _ => simp
    rw [if_pos ⟨hlen, hq⟩, if_pos hq, trim_whitespace_fst]
    unfold trimmed
    congr 2
    rw [List.dropLast_eq_take, List.drop_one]
    congr 1
    simp
    omega
  · rw [if_neg hq, if_neg (fun h => hq h.2)]

theorem trimmed_idem (v : List Char) : trimmed (trimmed v) = trimmed v := by
  unfold trimmed
  cases h : v.dropWhile isspace with
  | nil => simp
  | cons c r =>
    have hc : isspace c = false := head_dropWhile_not isspace v c r h
    rw [rdropWhile_cons_stop isspace r c hc]
    have : (c :: r.rdropWhile isspace).dropWhile isspace = c :: r.rdropWhile isspace := by
      simp [List.dropWhile_cons, hc]
    rw [this, rdropWhile_cons_stop isspace _ c hc, List.rdropWhile_idempotent]

/-- The split of a key:value line at its first colon. -/
theorem split_at_colon (k value : List Char) (hk : ':' ∉ k) :
    ':' ∈ k ++ ':' :: value ∧
      (k ++ ':' :: value).takeWhile (fun c => c ≠ ':') = k ∧
      ((k ++ ':' :: value).dropWhile (fun c => c ≠ ':')).drop 1 = value := by
  refine ⟨by simp, takeWhile_ne_stop ':' k value hk, ?_⟩
  rw [dropWhile_ne_stop ':' k value hk]
  rfl

/-- The value test of the key `Extracurricular_Activities`, in terms of `yesValue`. -/
theorem activity_value_yes (value : List Char) :
    ((if (trim_whitespace value).1.length ≥ 2 ∧ (trim_whitespace value).1[0]? = some QUOTE ∧
          (trim_whitespace value).1[(trim_whitespace value).1.length - 1]? = some QUOTE then
        (trim_whitespace (((trim_whitespace value).1.drop 1).take
          ((trim_whitespace value).1.length - 2))).1
      else (trim_whitespace value).1) = "Yes".toList) ↔ yesValue value = true := by
  rw [trim_whitespace_fst]
  change _ ↔ decide (trimmed (stripQuotePair (trimmed value)) = "Yes".toList) = true
  rw [decide_eq_true_iff]
  change ((if (trimmed value).length ≥ 2 ∧ (trimmed value)[0]? = some QUOTE ∧
          (trimmed value)[(trimmed value).length - 1]? = some QUOTE then
        (trim_whitespace (((trimmed value).drop 1).take ((trimmed value).length - 2))).1
      else trimmed value) = "Yes".toList) ↔ _
  by_cases ht : trimmed value = [QUOTE]
  · rw [ht]
    constructor
    · intro h; revert h; decide
    · intro h; revert h; decide
  · rw [strip_quotes_eq _ ht]
    unfold stripQuotePair
    by_cases hq : (trimmed value).head? = some QUOTE ∧ (trimmed value).getLast? = some QUOTE
    · rw [if_pos hq, if_pos hq]
    · rw [if_neg hq, if_neg hq, trimmed_idem]

/-! ## Lemmas on decimal text -/

theorem toDigitsCore_eq (n : Nat) : ∀ fuel ds, n < fuel →
    Nat.toDigitsCore 10 fuel n ds =
      (if n < 10 then [Nat.digitChar n]
        else Nat.toDigits 10 (n / 10) ++ [Nat.digitChar (n % 10)]) ++ ds := by
  induction n using Nat.strong_induction_on with
  | _ n ih =>
    intro fuel ds hfuel
    obtain ⟨f, rfl⟩ : ∃ f, fuel = f + 1 := ⟨fuel - 1, by omega⟩
    simp only [Nat.toDigitsCore]
    by_cases h10 : n < 10
    · have h0 : n / 10 = 0 := by omega
      have hm : n % 10 = n := by omega
      simp [h0, hm, h10]
    · have hne : n / 10 ≠ 0 := by omega
      have hlt : n / 10 < n := by omega
      rw [if_neg hne, if_neg h10]
      rw [ih (n / 10) hlt f _ (by omega)]
      have hT : Nat.toDigits 10 (n / 10) =
          (if n / 10 < 10 then [Nat.digitChar (n / 10)]
            else Nat.toDigits 10 (n / 10 / 10) ++ [Nat.digitChar (n / 10 % 10)]) := by
        have := ih (n / 10) hlt (n / 10 + 1) [] (by omega)
        simpa [Nat.toDigits] using this
      rw [← hT]
      simp

/-- The decimal digits of a number: the digits of `n / 10`, then the last digit. -/
theorem toDigits_rec (n : Nat) :
    Nat.toDigits 10 n =
      if n < 10 then [Nat.digitChar n]
      else Nat.toDigits 10 (n / 10) ++ [Nat.digitChar (n % 10)] := by
  have := toDigitsCore_eq n (n + 1) [] (by omega)
  simpa [Nat.toDigits] using this

theorem digitChar_isdigit : ∀ d, d < 10 → isdigit (Nat.digitChar d) = true := by decide

theorem digitChar_value : ∀ d, d < 10 → (Nat.digitChar d).toNat - 48 = d := by decide

theorem toDigits_all_digits (n : Nat) : ∀ c ∈ Nat.toDigits 10 n, isdigit c = true := by
  induction n using Nat.strong_induction_on with
  | _ n ih =>
    intro c hc
    rw [toDigits_rec] at hc
    by_cases h10 : n < 10
    · rw [if_pos h10] at hc
      simp only [List.mem_singleton] at hc
      rw [hc]; exact digitChar_isdigit n h10
    · rw [if_neg h10] at hc
      rcases List.mem_append.1 hc with h | h
      · exact ih (n / 10) (by omega) c h
      · simp only [List.mem_singleton] at h
        rw [h]; exact digitChar_isdigit _ (by omega)

theorem toDigits_ne_nil (n : Nat) : Nat.toDigits 10 n ≠ [] := by
  rw [toDigits_rec]
  by_cases h10 : n < 10
  · simp [h10]
  · simp [h10]

theorem toDigits_value (n : Nat) :
    (Nat.toDigits 10 n).foldl (fun acc c => 10 * acc + (c.toNat - 48)) 0 = n := by
  induction n using Nat.strong_induction_on with
  | _ n ih =>
    rw [toDigits_rec]
    by_cases h10 : n < 10
    · rw [if_pos h10]
      simp only [List.foldl_cons, List.foldl_nil]
      rw [digitChar_value n h10]; omega
    · rw [if_neg h10, List.foldl_append, ih (n / 10) (by omega)]
      simp only [List.foldl_cons, List.foldl_nil]
      rw [digitChar_value _ (by omega)]; omega

theorem toDigits_length (k : Nat) :
    ∀ n, n < 10 ^ (k + 1) → (Nat.toDigits 10 n).length ≤ k + 1 := by
  induction k with
  | zero =>
    intro n hn
    rw [toDigits_rec, if_pos (by simpa using hn)]
    simp
  | succ k ih =>
    intro n hn
    rw [toDigits_rec]
    by_cases h10 : n < 10
    · rw [if_pos h10]; simp
    · rw [if_neg h10, List.length_append]
      have : n / 10 < 10 ^ (k + 1) := by
        rw [Nat.div_lt_iff_lt_mul (by decide)]
        rw [pow_succ] at hn
        exact hn
      have := ih (n / 10) this
      simp
      omega

theorem toCInt_pos (n : Nat) (h : (n : Int) ≤ 2147483647) : toCInt false n = n := by
  unfold toCInt
  simp only [Bool.false_eq_true, if_false]
  rw [min_eq_left (by norm_num; omega)]
  norm_num
  omega

theorem toCInt_neg (n : Nat) (h : (n : Int) ≤ 2147483648) : toCInt true n = -(n : Int) := by
  unfold toCInt
  simp only [if_true]
  rw [max_eq_left (by norm_num; omega)]
  norm_num
  omega

theorem digit_ne (c x : Char) (h : isdigit c = true) (hx : x.toNat < 48 ∨ 57 < x.toNat) :
    c ≠ x := by
  intro e
  subst e
  simp only [isdigit, Bool.and_eq_true, decide_eq_true_eq] at h
  omega

theorem digit_not_space (c : Char) (h : isdigit c = true) : isspace c = false := by
  have h1 := digit_ne c (Char.ofNat 32) h (by decide)
  have h2 := digit_ne c (Char.ofNat 9) h (by decide)
  have h3 := digit_ne c (Char.ofNat 10) h (by decide)
  have h4 := digit_ne c (Char.ofNat 11) h (by decide)
  have h5 := digit_ne c (Char.ofNat 12) h (by decide)
  have h6 := digit_ne c (Char.ofNat 13) h (by decide)
  simp [isspace, h1, h2, h3, h4, h5, h6]

theorem takeWhile_digits (n : Nat) (rest : List Char) (hrest : ∀ c ∈ rest.head?, isdigit c = false) :
    (Nat.toDigits 10 n ++ rest).takeWhile isdigit = Nat.toDigits 10 n
    ∧ (Nat.toDigits 10 n ++ rest).dropWhile isdigit = rest := by
  rw [takeWhile_append_all isdigit _ _ (toDigits_all_digits n),
    dropWhile_append_all isdigit _ _ (toDigits_all_digits n)]
  cases rest with
  | nil => simp
  | cons c r =>
    have hc : isdigit c = false := hrest c (by simp)
    simp [List.takeWhile_cons, List.dropWhile_cons, hc]

theorem scan_number_digits (neg : Bool) (n : Nat) (rest : List Char)
    (hrest : ∀ c ∈ rest.head?, isdigit c = false) :
    scan_number neg (Nat.toDigits 10 n ++ rest) = some (toCInt neg n, rest) := by
  obtain ⟨ht, hd⟩ := takeWhile_digits n rest hrest
  have hv : digitsValue (Nat.toDigits 10 n ++ rest) = n := by
    unfold digitsValue; rw [ht, toDigits_value]
  cases hT : Nat.toDigits 10 n with
  | nil => exact absurd hT (toDigits_ne_nil n)
  | cons c T =>
    have hc : isdigit c = true := toDigits_all_digits n c (by rw [hT]; simp)
    rw [hT] at hv hd
    simp only [List.cons_append] at hv hd ⊢
    simp only [scan_number, hc, if_true, hv, hd]

/-- `%d` reads back the text `%d` prints, for every value of the type `int`. -/
theorem scan_d_showInt (v : Int) (rest : List Char) (hv : inIntRange v)
    (hrest : ∀ c ∈ rest.head?, isdigit c = false) :
    scan_d (showInt v ++ rest) = some (v, rest) := by
  unfold inIntRange at hv
  unfold scan_d showInt
  by_cases hneg : v < 0
  · rw [if_pos hneg]
    have hs : (('-' :: Nat.toDigits 10 v.natAbs) ++ rest).dropWhile isspace =
        '-' :: (Nat.toDigits 10 v.natAbs ++ rest) := by
      simp [List.dropWhile_cons, show isspace '-' = false by decide]
    simp only [hs, scan_sign, if_true]
    rw [scan_number_digits true _ rest hrest, toCInt_neg _ (by omega)]
    congr 2
    omega
  · rw [if_neg hneg]
    cases hT : Nat.toDigits 10 v.natAbs with
    | nil => exact absurd hT (toDigits_ne_nil _)
    | cons c T =>
      have hc : isdigit c = true := toDigits_all_digits _ c (by rw [hT]; simp)
      have hsp : isspace c = false := digit_not_space c hc
      have h1 : c ≠ '-' := digit_ne c _ hc (by decide)
      have h2 : c ≠ '+' := digit_ne c _ hc (by decide)
      simp only [List.cons_append, List.dropWhile_cons, hsp, scan_sign, h1, h2, if_false,
        Bool.false_eq_true]
      rw [← List.cons_append, ← hT, scan_number_digits false _ rest hrest,
        toCInt_pos _ (by omega)]
      congr 2
      omega

theorem atoi_showInt (v : Int) (hv : inIntRange v) : atoi (showInt v) = v := by
  have h := scan_d_showInt v [] hv (by simp)
  rw [List.append_nil] at h
  unfold scan_d at h
  unfold atoi
  simp only [] at h ⊢
  cases hb : (scan_sign (List.dropWhile isspace (showInt v))).2 with
  | nil => rw [hb] at h; simp [scan_number] at h
  | cons c r =>
    rw [hb] at h
    simp only [scan_number] at h
    split at h
    · simp only [Option.some.injEq, Prod.mk.injEq] at h
      exact h.1
    · cases h

theorem fgets_chars_line (l rest : List Char) (hnl : NL ∉ l) :
    ∀ room, l.length < room → fgets_chars room (l ++ NL :: rest) = (l ++ [NL], rest) := by
  induction l with
  | nil =>
    intro room h
    obtain ⟨k, rfl⟩ : ∃ k, room = k + 1 := ⟨room - 1, by simp at h; omega⟩
    simp [fgets_chars]
  | cons c l ih =>
    intro room h
    obtain ⟨k, rfl⟩ : ∃ k, room = k + 1 := ⟨room - 1, by simp at h; omega⟩
    have hc : c ≠ NL := fun e => hnl (e ▸ List.mem_cons_self _ _)
    have hl : NL ∉ l := fun e => hnl (List.mem_cons_of_mem _ e)
    have hrec := ih hl k (by simp at h; omega)
    rw [List.cons_append, fgets_chars, if_neg hc, hrec]
    rfl

/-- A line of at most 254 bytes is read whole, with its newline, by one `fgets`. -/
theorem fgets_line (l rest : List Char) (hnl : NL ∉ l) (hlen : l.length ≤ 254) :
    fgets 256 (l ++ NL :: rest) = some (l ++ [NL], rest) := by
  have h := fgets_chars_line l rest hnl 255 (by omega)
  cases l with
  | nil => simpa [fgets] using h
  | cons c l => simpa [fgets] using h

theorem cstr_no_nul (l : List Char) (h : NUL ∉ l) : cstr l = l := by
  unfold cstr
  rw [List.takeWhile_eq_self_iff]
  intro c hc
  simpa using fun e : c = NUL => h (e ▸ hc)

theorem read_csv_loop_full (file : List Char) (data : Nat → CurricularData) (index fuel : Nat)
    (h : MAX_RECORDS ≤ index) :
    read_csv_loop (fuel + 1) file data index = some (index, data) := by
  unfold read_csv_loop
  cases fgets 256 file with
  | none => rfl
  | some p => simp only []; rw [if_neg (by omega)]

/-- The loop of `read_csv_file` on a run of lines that fit the buffer: every
line uses one iteration and fills the next element of the array from what the
element held and the text of the line. -/
theorem read_csv_loop_lines (lines : List (List Char)) (tail : List Char)
    (hl : ∀ l ∈ lines, NL ∉ l ∧ l.length ≤ 254) :
    ∀ (data : Nat → CurricularData) (index : Nat), index + lines.length ≤ MAX_RECORDS →
    ∃ data1 : Nat → CurricularData,
      (∀ fuel, read_csv_loop (fuel + lines.length)
          ((lines.map (fun l => l ++ [NL])).flatten ++ tail) data index =
        read_csv_loop fuel tail data1 (index + lines.length))
      ∧ (∀ j, j < index → data1 j = data j)
      ∧ (∀ j, index + lines.length ≤ j → data1 j = data j)
      ∧ ∀ i (hi : i < lines.length),
          data1 (index + i) = sscanf_record (cstr (lines[i] ++ [NL])) (data (index + i)) := by
  induction lines with
  | nil =>
    intro data index _
    exact ⟨data, fun fuel => by simp, fun j _ => rfl, fun j _ => rfl,
      fun i hi => absurd hi (by simp)⟩
  | cons l lines ih =>
    intro data index hidx
    simp only [List.length_cons] at hidx
    obtain ⟨hnl, hlen⟩ := hl l (List.mem_cons_self _ _)
    obtain ⟨data1, h1, h2, h3, h4⟩ :=
      ih (fun x hx => hl x (List.mem_cons_of_mem _ hx))
        (setAt data index (sscanf_record (cstr (l ++ [NL])) (data index))) (index + 1)
        (by omega)
    refine ⟨data1, ?_, ?_, ?_, ?_⟩
    · intro fuel
      have hfile : ((l :: lines).map (fun l => l ++ [NL])).flatten ++ tail =
          l ++ NL :: ((lines.map (fun l => l ++ [NL])).flatten ++ tail) := by simp
      rw [hfile, List.length_cons, ← Nat.add_assoc]
      rw [read_csv_loop, fgets_line l _ hnl hlen]
      simp only []
      rw [if_pos (by omega), h1 fuel]
      congr 1
      omega
    · intro j hj
      rw [h2 j (by omega)]
      simp [setAt, Nat.ne_of_lt hj]
    · intro j hj
      simp only [List.length_cons] at hj
      rw [h3 j (by omega)]
      have : j ≠ index := by omega
      simp [setAt, this]
    · intro i hi
      cases i with
      | zero =>
        rw [Nat.add_zero, h2 index (by omega)]
        simp [setAt]
      | succ i =>
        have hi2 : i < lines.length := by simpa using hi
        have := h4 i hi2
        rw [show index + (i + 1) = index + 1 + i by omega, this]
        have hne : index + 1 + i ≠ index := by omega
        simp [setAt, hne]

/-! ## Lemmas on the tabular parser -/

theorem scan_d_none (s : List Char) (h : startsInteger s = false) : scan_d s = none := by
  unfold startsInteger at h
  unfold scan_d
  cases hd : s.dropWhile isspace with
  | nil => rfl
  | cons c rest =>
    rw [hd] at h
    simp only [] at h ⊢
    unfold scan_sign
    by_cases hm : c = '-'
    · rw [if_pos (Or.inl hm)] at h
      simp only [hm, if_true]
      cases rest with
      | nil => rfl
      | cons d r => simp only [] at h; simp [scan_number, h]
    · by_cases hp : c = '+'
      · rw [if_pos (Or.inr hp)] at h
        simp only [hp, if_true, show ¬ ('+' = '-') by decide, if_false]
        cases rest with
        | nil => rfl
        | cons d r => simp only [] at h; simp [scan_number, h]
      · rw [if_neg (by simp [hm, hp])] at h
        simp [hm, hp, scan_number, h]

theorem startsInteger_nl (j : List Char) : startsInteger (j ++ [NL]) = startsInteger j := by
  unfold startsInteger
  cases hd : j.dropWhile isspace with
  | nil =>
    have hall : ∀ c ∈ j, isspace c = true := by
      simpa [List.dropWhile_eq_nil_iff] using hd
    rw [dropWhile_append_all isspace j [NL] hall]
    rfl
  | cons c rest =>
    have hc : isspace c = false := head_dropWhile_not isspace j c rest hd
    have hj : j = j.takeWhile isspace ++ c :: rest := by
      rw [← hd, List.takeWhile_append_dropWhile]
    have : (j ++ [NL]).dropWhile isspace = c :: (rest ++ [NL]) := by
      conv_lhs => rw [hj]
      rw [List.append_assoc, dropWhile_append_all isspace _ _ (fun x hx => List.mem_takeWhile_imp hx)]
      simp [List.dropWhile_cons, hc]
    rw [this]
    cases rest with
    | nil =>
      simp only [List.nil_append]
      by_cases hs : c = '-' ∨ c = '+'
      · rw [if_pos hs, if_pos hs]; rfl
      · rw [if_neg hs, if_neg hs]
    | cons d r => rfl

theorem stopsConversion_nl (k : Nat) (junk : List Char) (h : stopsConversion k junk) :
    stopsConversion k (junk ++ [NL]) := by
  obtain ⟨h0, h1, h2⟩ := h
  refine ⟨fun hk => by rw [startsInteger_nl]; exact h0 hk, fun hk c hc => ?_, fun hk hk5 j hj => ?_⟩
  · cases junk with
    | nil =>
      simp at hc
      rw [← hc]; decide
    | cons x r => simp at hc; exact h1 hk c (by simp [hc])
  · cases junk with
    | nil =>
      simp at hj
      exact absurd hj.1 (by decide)
    | cons x r =>
      simp only [List.cons_append, List.cons.injEq] at hj
      obtain ⟨hx, hr⟩ := hj
      rw [← hr, startsInteger_nl]
      exact h2 hk hk5 r (by rw [hx])

theorem scan_comma_d_none (tail : List Char)
    (h : ∀ j, tail = ',' :: j → startsInteger j = false) : scan_comma_d tail = none := by
  unfold scan_comma_d scan_char
  cases tail with
  | nil => rfl
  | cons c j =>
    by_cases hc : c = ','
    · simp only [hc, if_true]
      exact scan_d_none j (h j (by rw [hc]))
    · simp [hc]

theorem scan_comma_d_showInt (v : Int) (rest : List Char) (hv : inIntRange v)
    (hrest : ∀ c ∈ rest.head?, isdigit c = false) :
    scan_comma_d (',' :: (showInt v ++ rest)) = some (v, rest) := by
  simp only [scan_comma_d, scan_char, if_true]
  exact scan_d_showInt v rest hv hrest

theorem comma_not_digit (x : List Char) : ∀ c ∈ (',' :: x).head?, isdigit c = false := by
  intro c hc
  simp at hc
  rw [← hc]; decide

/-- The `sscanf` call of `read_csv_file` on a line that starts with `k ≤ 5`
integer fields: the `k` fields are stored, the others are left alone. -/
theorem sscanf_record_fields (vs : List Int) (tail : List Char) (r : CurricularData)
    (hvs : ∀ v ∈ vs, inIntRange v) (hlen : vs.length ≤ 5)
    (hstop : stopsConversion vs.length tail) :
    sscanf_record (commaSep (vs.map showInt) ++ tail) r = storeFields vs r := by
  obtain ⟨h0, h1, h2⟩ := hstop
  match vs, hvs, hlen, h0, h1, h2 with
  | [], _, _, h0, _, _ =>
    simp only [List.map_nil, commaSep, List.nil_append, sscanf_record, storeFields,
      scan_d_none tail (h0 rfl)]
  | [a], hvs, _, _, h1, h2 =>
    have ha := hvs a (by simp)
    simp only [List.map_cons, List.map_nil, commaSep, sscanf_record, storeFields,
      scan_d_showInt a tail ha (h1 (by simp)),
      scan_comma_d_none tail (h2 (by simp) (by simp))]
  | [a, b], hvs, _, _, h1, h2 =>
    have ha := hvs a (by simp)
    have hb := hvs b (by simp)
    simp only [List.map_cons, List.map_nil, commaSep, sscanf_record, storeFields,
      List.append_assoc, List.cons_append,
      scan_d_showInt a _ ha (comma_not_digit _),
      scan_comma_d_showInt b tail hb (h1 (by simp)),
      scan_comma_d_none tail (h2 (by simp) (by simp))]
  | [a, b, c], hvs, _, _, h1, h2 =>
    have ha := hvs a (by simp)
    have hb := hvs b (by simp)
    have hc := hvs c (by simp)
    simp only [List.map_cons, List.map_nil, commaSep, sscanf_record, storeFields,
      List.append_assoc, List.cons_append,
      scan_d_showInt a _ ha (comma_not_digit _),
      scan_comma_d_showInt b _ hb (comma_not_digit _),
      scan_comma_d_showInt c tail hc (h1 (by simp)),
      scan_comma_d_none tail (h2 (by simp) (by simp))]
  | [a, b, c, d], hvs, _, _, h1, h2 =>
    have ha := hvs a (by simp)
    have hb := hvs b (by simp)
    have hc := hvs c (by simp)
    have hd := hvs d (by simp)
    simp only [List.map_cons, List.map_nil, commaSep, sscanf_record, storeFields,
      List.append_assoc, List.cons_append,
      scan_d_showInt a _ ha (comma_not_digit _),
      scan_comma_d_showInt b _ hb (comma_not_digit _),
      scan_comma_d_showInt c _ hc (comma_not_digit _),
      scan_comma_d_showInt d tail hd (h1 (by simp)),
      scan_comma_d_none tail (h2 (by simp) (by simp))]
  | [a, b, c, d, e], hvs, _, _, h1, _ =>
    have ha := hvs a (by simp)
    have hb := hvs b (by simp)
    have hc := hvs c (by simp)
    have hd := hvs d (by simp)
    have he := hvs e (by simp)
    simp only [List.map_cons, List.map_nil, commaSep, sscanf_record, storeFields,
      List.append_assoc, List.cons_append,
      scan_d_showInt a _ ha (comma_not_digit _),
      scan_comma_d_showInt b _ hb (comma_not_digit _),
      scan_comma_d_showInt c _ hc (comma_not_digit _),
      scan_comma_d_showInt d _ hd (comma_not_digit _),
      scan_comma_d_showInt e tail he (h1 (by simp))]
  | _ :: _ :: _ :: _ :: _ :: _ :: _, _, hlen, _, _, _ =>
    simp at hlen

theorem read_csv_loop_end (tail : List Char) (data : Nat → CurricularData) (index fuel : Nat)
    (h : tail = [] ∨ MAX_RECORDS ≤ index) :
    read_csv_loop (fuel + 1) tail data index = some (index, data) := by
  rcases h with h | h
  · subst h; rfl
  · exact read_csv_loop_full tail data index fuel h

theorem length_lines_le (lines : List (List Char)) :
    lines.length ≤ ((lines.map (fun l => l ++ [NL])).flatten).length := by
  induction lines with
  | nil => simp
  | cons l lines ih => simp at ih ⊢; omega

/-- `read_csv_file` on a header and data lines that fit the buffer, when the
lines end the file or fill the array: one record per line, each made from what
the element held before and the text of the line. -/
theorem read_csv_file_lines (filename : String) (header : List Char)
    (lines : List (List Char)) (tail : List Char) (data0 : Nat → CurricularData)
    (hh : NL ∉ header) (hhl : header.length ≤ 254)
    (hl : ∀ l ∈ lines, NL ∉ l ∧ l.length ≤ 254) (hcap : lines.length ≤ MAX_RECORDS)
    (hend : tail = [] ∨ lines.length = MAX_RECORDS) :
    ∃ res, read_csv_file filename
        (some (header ++ NL :: ((lines.map (fun l => l ++ [NL])).flatten ++ tail))) data0 =
          some res
      ∧ res.count = lines.length
      ∧ ∀ i (hi : i < lines.length),
          res.data i = sscanf_record (cstr (lines[i] ++ [NL])) (data0 i) := by
  obtain ⟨data1, h1, -, -, h4⟩ := read_csv_loop_lines lines tail hl data0 0 (by omega)
  have hfuel : ∃ k, ((lines.map (fun l => l ++ [NL])).flatten ++ tail).length + 1 =
      (k + 1) + lines.length := by
    have := length_lines_le lines
    refine ⟨((lines.map (fun l => l ++ [NL])).flatten ++ tail).length - lines.length, ?_⟩
    rw [List.length_append]
    omega
  obtain ⟨k, hk⟩ := hfuel
  refine ⟨⟨lines.length, data1, []⟩, ?_, rfl, ?_⟩
  · unfold read_csv_file
    simp only [fgets_line header _ hh hhl]
    rw [hk, h1 (k + 1), read_csv_loop_end tail data1 _ k (by
      rcases hend with h | h
      · exact Or.inl h
      · exact Or.inr (by omega))]
    simp
  · intro i hi
    have := h4 i hi
    simpa using this

theorem showInt_chars (v : Int) : ∀ c ∈ showInt v, c = '-' ∨ isdigit c = true := by
  intro c hc
  unfold showInt at hc
  split at hc
  · rcases List.mem_cons.1 hc with h | h
    · exact Or.inl h
    · exact Or.inr (toDigits_all_digits _ c h)
  · exact Or.inr (toDigits_all_digits _ c hc)

theorem showInt_length (v : Int) (hv : inIntRange v) : (showInt v).length ≤ 11 := by
  unfold inIntRange at hv
  have h := toDigits_length 9 v.natAbs (by norm_num; omega)
  unfold showInt
  split
  · simp only [List.length_cons]; omega
  · omega

theorem commaSep_cons (x : List Char) (xs : List (List Char)) (h : xs ≠ []) :
    commaSep (x :: xs) = x ++ ',' :: commaSep xs := by
  cases xs with
  | nil => exact absurd rfl h
  | cons y r => rfl

theorem commaSep_chars (vs : List Int) :
    ∀ c ∈ commaSep (vs.map showInt), c = ',' ∨ c = '-' ∨ isdigit c = true := by
  induction vs with
  | nil => intro c hc; simp [commaSep] at hc
  | cons v vs ih =>
    intro c hc
    cases vs with
    | nil =>
      simp only [List.map_cons, List.map_nil, commaSep] at hc
      exact Or.inr (showInt_chars v c hc)
    | cons w ws =>
      rw [List.map_cons, commaSep_cons _ _ (by simp)] at hc
      rcases List.mem_append.1 hc with h | h
      · exact Or.inr (showInt_chars v c h)
      · rcases List.mem_cons.1 h with h | h
        · exact Or.inl h
        · exact ih c h

theorem commaSep_length (vs : List Int) (hvs : ∀ v ∈ vs, inIntRange v) :
    (commaSep (vs.map showInt)).length ≤ 12 * vs.length := by
  induction vs with
  | nil => simp [commaSep]
  | cons v vs ih =>
    have hv := showInt_length v (hvs v (List.mem_cons_self _ _))
    have ih1 := ih (fun x hx => hvs x (List.mem_cons_of_mem _ hx))
    cases vs with
    | nil => simp only [List.map_cons, List.map_nil, commaSep, List.length_cons,
        List.length_nil]; omega
    | cons w ws =>
      rw [List.map_cons, commaSep_cons _ _ (by simp), List.length_append, List.length_cons]
      have e : (v :: w :: ws).length = (w :: ws).length + 1 := rfl
      rw [e]
      omega

/-- A data line made of integer fields and a text free of newlines and of NUL
is free of them as well. -/
theorem fieldLine_clean (l : List Int × List Char) (hnl : NL ∉ l.2) (hnul : NUL ∉ l.2) :
    NL ∉ fieldLine l ∧ NUL ∉ fieldLine l := by
  have hch := commaSep_chars l.1
  have hnot : ∀ x : Char, x ≠ ',' → x ≠ '-' → isdigit x = false →
      x ∉ commaSep (l.1.map showInt) := by
    intro x h1 h2 h3 hx
    rcases hch x hx with h | h | h
    · exact h1 h
    · exact h2 h
    · rw [h3] at h; cases h
  constructor
  · unfold fieldLine
    rw [List.mem_append, not_or]
    exact ⟨hnot NL (by decide) (by decide) (by decide), hnl⟩
  · unfold fieldLine
    rw [List.mem_append, not_or]
    exact ⟨hnot NUL (by decide) (by decide) (by decide), hnul⟩

theorem cstr_line (l : List Char) (hnl : NUL ∉ l) : cstr (l ++ [NL]) = l ++ [NL] := by
  apply cstr_no_nul
  rw [List.mem_append, not_or]
  exact ⟨hnl, by decide⟩

theorem sscanf_recordLine (r x : CurricularData) (hr : intFields r) :
    NL ∉ recordLine r ∧ (recordLine r).length ≤ 254 ∧
      sscanf_record (cstr (recordLine r ++ [NL])) x = r := by
  obtain ⟨h1, h2, h3, h4, h5⟩ := hr
  have hvs : ∀ v ∈ [r.record_id, r.hours_studied, r.attendance, r.tutoring_sessions,
      r.exam_score], inIntRange v := by
    intro v hv
    simp only [List.mem_cons, List.mem_singleton, List.not_mem_nil, or_false] at hv
    rcases hv with h | h | h | h | h <;> rw [h] <;> assumption
  have hfit := fieldLine_clean ([r.record_id, r.hours_studied, r.attendance,
    r.tutoring_sessions, r.exam_score], []) (by simp) (by simp)
  have hlen := commaSep_length [r.record_id, r.hours_studied, r.attendance,
    r.tutoring_sessions, r.exam_score] hvs
  have he : fieldLine ([r.record_id, r.hours_studied, r.attendance,
    r.tutoring_sessions, r.exam_score], []) = recordLine r := by
    simp [fieldLine, recordLine]
  rw [he] at hfit
  refine ⟨hfit.1, ?_, ?_⟩
  · unfold recordLine
    simp only [List.map_cons, List.map_nil, List.length_cons, List.length_nil] at hlen
    omega
  rw [cstr_line _ hfit.2]
  have hs := sscanf_record_fields [r.record_id, r.hours_studied, r.attendance,
    r.tutoring_sessions, r.exam_score] [NL] x hvs (by simp)
    ⟨fun h => by simp at h, fun _ c hc => by simp at hc; rw [← hc]; decide,
      fun _ h => by simp at h⟩
  simpa [recordLine, storeFields] using hs

/-! ## Lemmas on the nested-record parser -/

/-- What `trim_whitespace` leaves in its argument when the argument is not
white space alone: the argument without its trailing white space. -/
theorem trim_whitespace_snd (s : List Char) (c : Char) (hc : c ∈ s) (hsp : isspace c = false) :
    (trim_whitespace s).2 = s.rdropWhile isspace := by
  unfold trim_whitespace
  cases hd : s.dropWhile isspace with
  | nil =>
    have hall : ∀ x ∈ s, isspace x = true := by
      simpa [List.dropWhile_eq_nil_iff] using hd
    rw [hall c hc] at hsp
    cases hsp
  | cons x rest =>
    have hx : isspace x = false := head_dropWhile_not isspace s x rest hd
    simp only []
    conv_rhs => rw [← List.takeWhile_append_dropWhile isspace s, hd]
    rw [rdropWhile_append_stop isspace _ _ x hx]

theorem dropWhile_rdropWhile_comm (s : List Char) :
    (s.rdropWhile isspace).dropWhile isspace = (s.dropWhile isspace).rdropWhile isspace := by
  cases hd : s.dropWhile isspace with
  | nil =>
    have hall : ∀ x ∈ s, isspace x = true := by
      simpa [List.dropWhile_eq_nil_iff] using hd
    have : s.rdropWhile isspace = [] := by
      rw [List.rdropWhile_eq_nil_iff]; exact hall
    rw [this]; rfl
  | cons x rest =>
    have hx : isspace x = false := head_dropWhile_not isspace s x rest hd
    conv_lhs => rw [← List.takeWhile_append_dropWhile isspace s, hd]
    rw [rdropWhile_append_stop isspace _ _ x hx,
      dropWhile_append_all isspace _ _ (fun y hy => List.mem_takeWhile_imp hy),
      rdropWhile_cons_stop isspace _ x hx]
    simp [List.dropWhile_cons, hx]

/-- Trimming a text whose trailing white space is gone already gives the
trimmed text. -/
theorem trimmed_rstrip (s : List Char) : trimmed (s.rdropWhile isspace) = trimmed s := by
  unfold trimmed
  rw [dropWhile_rdropWhile_comm, List.rdropWhile_idempotent]

theorem trimmed_space_cons (s : List Char) : trimmed (' ' :: s) = trimmed s := by
  unfold trimmed
  rw [List.dropWhile_cons, if_pos (by decide)]

theorem yesValue_congr (a b : List Char) (h : trimmed a = trimmed b) : yesValue a = yesValue b := by
  unfold yesValue; rw [h]

/-- `process_yaml_line` on a line with the key `Extracurricular_Activities`. -/
theorem process_activity_line (ws1 ws2 value : List Char) (record : ExtracurricularData)
    (h1 : ∀ c ∈ ws1, isspace c = true) (h2 : ∀ c ∈ ws2, isspace c = true) :
    process_yaml_line
        (ws1 ++ "Extracurricular_Activities".toList ++ ws2 ++ ':' :: value) record =
      { record with extracurricular_activities := if yesValue value = true then 1 else 0 } := by
  have hk : ':' ∉ ws1 ++ "Extracurricular_Activities".toList ++ ws2 := by
    simp only [List.mem_append, not_or]
    exact ⟨⟨colon_not_space ws1 h1, by decide⟩, colon_not_space ws2 h2⟩
  obtain ⟨hmem, htake, hdrop⟩ := split_at_colon _ value hk
  unfold process_yaml_line
  rw [if_pos hmem, htake, hdrop,
    trim_padded ws1 ws2 _ h1 h2 (by decide) (by decide) (by decide)]
  simp only [if_true]
  by_cases hy : yesValue value = true
  · rw [if_pos ((activity_value_yes value).2 hy), if_pos hy]
  · rw [if_neg (fun h => hy ((activity_value_yes value).1 h)), if_neg hy]

/-- `process_yaml_line` on a line with the key `Record_ID`. -/
theorem process_id_line (ws1 ws2 value : List Char) (record : ExtracurricularData)
    (h1 : ∀ c ∈ ws1, isspace c = true) (h2 : ∀ c ∈ ws2, isspace c = true) :
    process_yaml_line (ws1 ++ "Record_ID".toList ++ ws2 ++ ':' :: value) record =
      { record with record_ID := atoi (trimmed value) } := by
  have hk : ':' ∉ ws1 ++ "Record_ID".toList ++ ws2 := by
    simp only [List.mem_append, not_or]
    exact ⟨⟨colon_not_space ws1 h1, by decide⟩, colon_not_space ws2 h2⟩
  obtain ⟨hmem, htake, hdrop⟩ := split_at_colon _ value hk
  unfold process_yaml_line
  rw [if_pos hmem, htake, hdrop,
    trim_padded ws1 ws2 _ h1 h2 (by decide) (by decide) (by decide), trim_whitespace_fst]
  rw [if_neg (by decide), if_pos rfl]
  rfl

/-- `process_yaml_line` on a line with the key `Sleep_Hours`. -/
theorem process_sleep_line (ws1 ws2 value : List Char) (record : ExtracurricularData)
    (h1 : ∀ c ∈ ws1, isspace c = true) (h2 : ∀ c ∈ ws2, isspace c = true) :
    process_yaml_line (ws1 ++ "Sleep_Hours".toList ++ ws2 ++ ':' :: value) record =
      { record with sleep_hours := atoi (trimmed value) } := by
  have hk : ':' ∉ ws1 ++ "Sleep_Hours".toList ++ ws2 := by
    simp only [List.mem_append, not_or]
    exact ⟨⟨colon_not_space ws1 h1, by decide⟩, colon_not_space ws2 h2⟩
  obtain ⟨hmem, htake, hdrop⟩ := split_at_colon _ value hk
  unfold process_yaml_line
  rw [if_pos hmem, htake, hdrop,
    trim_padded ws1 ws2 _ h1 h2 (by decide) (by decide) (by decide), trim_whitespace_fst]
  rw [if_neg (by decide), if_neg (by decide), if_pos rfl]
  rfl

/-- `process_yaml_line` on a line with the key `Physical_Activity`. -/
theorem process_physical_line (ws1 ws2 value : List Char) (record : ExtracurricularData)
    (h1 : ∀ c ∈ ws1, isspace c = true) (h2 : ∀ c ∈ ws2, isspace c = true) :
    process_yaml_line (ws1 ++ "Physical_Activity".toList ++ ws2 ++ ':' :: value) record =
      { record with physical_activity := atoi (trimmed value) } := by
  have hk : ':' ∉ ws1 ++ "Physical_Activity".toList ++ ws2 := by
    simp only [List.mem_append, not_or]
    exact ⟨⟨colon_not_space ws1 h1, by decide⟩, colon_not_space ws2 h2⟩
  obtain ⟨hmem, htake, hdrop⟩ := split_at_colon _ value hk
  unfold process_yaml_line
  rw [if_pos hmem, htake, hdrop,
    trim_padded ws1 ws2 _ h1 h2 (by decide) (by decide) (by decide), trim_whitespace_fst]
  rw [if_neg (by decide), if_neg (by decide), if_neg (by decide), if_pos rfl]
  rfl

theorem showInt_no_space (v : Int) : ∀ c ∈ showInt v, isspace c = false := by
  intro c hc
  rcases showInt_chars v c hc with h | h
  · rw [h]; decide
  · exact digit_not_space c h

theorem trimmed_no_space (s : List Char) (h : ∀ c ∈ s, isspace c = false) : trimmed s = s := by
  unfold trimmed
  have h1 : s.dropWhile isspace = s := by
    cases s with
    | nil => rfl
    | cons c r => simp [List.dropWhile_cons, h c (List.mem_cons_self _ _)]
  rw [h1, List.rdropWhile_eq_self_iff]
  intro hne
  rw [h _ (List.getLast_mem hne)]
  simp

/-- The effect of `process_yaml_line` on a line that gives a field: the key
with white space around it, a colon, and a value that trims to the text
written for the field. -/
theorem process_field_line (ws1 ws2 value : List Char) (f : Field)
    (record : ExtracurricularData)
    (h1 : ∀ c ∈ ws1, isspace c = true) (h2 : ∀ c ∈ ws2, isspace c = true)
    (hf : f.wellFormed) (hv : trimmed value = trimmed f.text) :
    process_yaml_line (ws1 ++ f.key ++ ws2 ++ ':' :: value) record = f.store record := by
  cases f with
  | activity text =>
    rw [Field.key, process_activity_line ws1 ws2 value record h1 h2, Field.store,
      yesValue_congr value text hv]
  | physical v =>
    have hval : atoi (trimmed value) = v := by
      rw [hv, Field.text, trimmed_no_space _ (showInt_no_space v)]
      exact atoi_showInt v hf
    rw [Field.key, process_physical_line ws1 ws2 value record h1 h2, hval, Field.store]
  | id v =>
    have hval : atoi (trimmed value) = v := by
      rw [hv, Field.text, trimmed_no_space _ (showInt_no_space v)]
      exact atoi_showInt v hf
    rw [Field.key, process_id_line ws1 ws2 value record h1 h2, hval, Field.store]
  | sleep v =>
    have hval : atoi (trimmed value) = v := by
      rw [hv, Field.text, trimmed_no_space _ (showInt_no_space v)]
      exact atoi_showInt v hf
    rw [Field.key, process_sleep_line ws1 ws2 value record h1 h2, hval, Field.store]

theorem space_ne_nul (c : Char) (h : isspace c = true) : c ≠ NUL := by
  intro e; subst e; revert h; decide

theorem showInt_clean (v : Int) : NL ∉ showInt v ∧ NUL ∉ showInt v := by
  constructor
  · intro h
    have := showInt_no_space v _ h
    revert this; decide
  · intro h
    rcases showInt_chars v _ h with h | h
    · revert h; decide
    · revert h; decide

theorem field_text_clean (f : Field) (hf : f.wellFormed) : NL ∉ f.text ∧ NUL ∉ f.text := by
  cases f with
  | activity text => exact hf
  | physical v => exact showInt_clean v
  | id v => exact showInt_clean v
  | sleep v => exact showInt_clean v

theorem field_key_clean (f : Field) :
    NL ∉ f.key ∧ NUL ∉ f.key ∧ ':' ∉ f.key ∧
      ∃ c rest, f.key = c :: rest ∧ c ≠ 'r' ∧ c ≠ '-' ∧ isspace c = false := by
  cases f <;> simp only [Field.key] <;>
    exact ⟨by decide, by decide, by decide, _, _, rfl, by decide, by decide, by decide⟩

/-- The buffer of `read_yaml_file` after a key:value line has been read and
trimmed in place: the line without the white space behind its value. -/
theorem yaml_buffer (pre post : List Char) (hnul : NUL ∉ pre ++ ':' :: post) :
    (trim_whitespace (cstr ((pre ++ ':' :: post) ++ [NL]))).2 =
      pre ++ ':' :: post.rdropWhile isspace := by
  rw [cstr_line _ hnul, trim_whitespace_snd _ ':' (by simp) (by decide),
    rdropWhile_append_all isspace _ [NL] (by decide),
    rdropWhile_append_stop isspace pre post ':' (by decide)]

theorem yamlLine_shape (ind : List Char) (f : Field) :
    yamlLine ind f = (ind ++ f.key) ++ ':' :: (' ' :: f.text) := by
  simp [yamlLine]

theorem yamlLine_clean (ind : List Char) (f : Field)
    (hind : ∀ c ∈ ind, isspace c = true ∧ c ≠ NL) (hf : f.wellFormed) :
    NL ∉ yamlLine ind f ∧ NUL ∉ yamlLine ind f := by
  obtain ⟨hk1, hk2, -, -⟩ := field_key_clean f
  obtain ⟨ht1, ht2⟩ := field_text_clean f hf
  unfold yamlLine
  constructor
  · simp only [List.mem_append, not_or]
    exact ⟨⟨⟨fun h => (hind _ h).2 rfl, hk1⟩, by decide⟩, ht1⟩
  · simp only [List.mem_append, not_or]
    exact ⟨⟨⟨fun h => space_ne_nul _ (hind _ h).1 rfl, hk2⟩, by decide⟩, ht2⟩

theorem read_yaml_loop_eof (fuel : Nat) (data : Nat → ExtracurricularData) (cur : Int) :
    read_yaml_loop (fuel + 1) [] data cur = some (cur + 1, data) := rfl

/-- One iteration of the loop of `read_yaml_file` on an indented `K: v` line
inside a record: the written field is stored in the current record. -/
theorem yaml_step_field (fuel : Nat) (ind : List Char) (f : Field) (file : List Char)
    (data : Nat → ExtracurricularData) (cur : Int) (hcur : 0 ≤ cur)
    (hind : ∀ c ∈ ind, isspace c = true ∧ c ≠ NL) (hf : f.wellFormed)
    (hlen : (yamlLine ind f).length ≤ 254) :
    read_yaml_loop (fuel + 1) (yamlLine ind f ++ NL :: file) data cur =
      read_yaml_loop fuel file (setAt data cur.toNat (f.store (data cur.toNat))) cur := by
  obtain ⟨hnl, hnul⟩ := yamlLine_clean ind f hind hf
  obtain ⟨-, -, -, k, krest, hkey, hk1, hk2, hk3⟩ := field_key_clean f
  have hbuf := yaml_buffer (ind ++ f.key) (' ' :: f.text) (by rw [← yamlLine_shape]; exact hnul)
  rw [← yamlLine_shape] at hbuf
  have hhead : ∃ c rest, ind ++ f.key ++ ':' :: (' ' :: f.text).rdropWhile isspace = c :: rest ∧
      c ≠ 'r' ∧ c ≠ '-' := by
    cases ind with
    | nil => exact ⟨k, _, by rw [hkey]; rfl, hk1, hk2⟩
    | cons c r =>
      have hc := (hind c (List.mem_cons_self _ _)).1
      refine ⟨c, _, rfl, ?_, ?_⟩
      · intro e; subst e; revert hc; decide
      · intro e; subst e; revert hc; decide
  obtain ⟨c, rest, hshape, hc1, hc2⟩ := hhead
  have hproc := process_field_line ind [] ((' ' :: f.text).rdropWhile isspace) f
    (data cur.toNat) (fun c hc => (hind c hc).1) (by simp) hf
    (by rw [trimmed_rstrip, trimmed_space_cons])
  rw [List.append_nil] at hproc
  rw [read_yaml_loop, fgets_line _ file hnl hlen]
  simp only []
  rw [hbuf, hproc, hshape]
  rw [if_neg (by simp), if_neg (by
    intro e
    have : c = 'r' := by
      have := congrArg List.head? e
      simpa using this
    exact hc1 this), if_neg (by
    intro e
    have : c = '-' := by
      have := congrArg List.head? e
      simpa using this
    exact hc2 this), if_pos hcur]

/-- One iteration of the loop of `read_yaml_file` on a list-item line
`- K: v` below the record cap: a new record is started and the written field
is stored in it. -/
theorem yaml_step_item (fuel : Nat) (f : Field) (file : List Char)
    (data : Nat → ExtracurricularData) (cur : Int) (hcap : cur + 1 < MAX_RECORDS)
    (hf : f.wellFormed) (hlen : ("- ".toList ++ yamlLine [] f).length ≤ 254) :
    read_yaml_loop (fuel + 1) (("- ".toList ++ yamlLine [] f) ++ NL :: file) data cur =
      read_yaml_loop fuel file
        (setAt data (cur + 1).toNat (f.store (data (cur + 1).toNat))) (cur + 1) := by
  obtain ⟨hnl0, hnul0⟩ := yamlLine_clean [] f (by simp) hf
  obtain ⟨-, -, -, k, krest, hkey, hk1, hk2, hk3⟩ := field_key_clean f
  have hshape : "- ".toList ++ yamlLine [] f = ("- ".toList ++ f.key) ++ ':' :: (' ' :: f.text) := by
    simp [yamlLine]
  have hnl : NL ∉ "- ".toList ++ yamlLine [] f := by
    rw [List.mem_append, not_or]; exact ⟨by decide, hnl0⟩
  have hnul : NUL ∉ "- ".toList ++ yamlLine [] f := by
    rw [List.mem_append, not_or]; exact ⟨by decide, hnul0⟩
  have hbuf := yaml_buffer ("- ".toList ++ f.key) (' ' :: f.text) (by rw [← hshape]; exact hnul)
  rw [← hshape] at hbuf
  have hb2 : "- ".toList ++ f.key ++ ':' :: (' ' :: f.text).rdropWhile isspace =
      '-' :: ' ' :: (f.key ++ ':' :: (' ' :: f.text).rdropWhile isspace) := rfl
  have hrest : (trim_whitespace (f.key ++ ':' :: (' ' :: f.text).rdropWhile isspace)).2 =
      f.key ++ ':' :: (' ' :: f.text).rdropWhile isspace := by
    rw [trim_whitespace_snd _ ':' (by simp) (by decide),
      rdropWhile_append_stop isspace _ _ ':' (by decide), List.rdropWhile_idempotent]
  have hproc := process_field_line [] [] ((' ' :: f.text).rdropWhile isspace) f
    (data (cur + 1).toNat) (by simp) (by simp) hf
    (by rw [trimmed_rstrip, trimmed_space_cons])
  rw [List.append_nil, List.nil_append] at hproc
  rw [read_yaml_loop, fgets_line _ file hnl hlen]
  simp only []
  rw [hbuf, hb2]
  rw [if_neg (by simp), if_neg (by simp), if_pos (by rfl)]
  simp only [List.drop_succ_cons, List.drop_zero]
  rw [if_neg (by omega), hrest, if_pos (by simp), hproc]

theorem store_comm (act : List Char) (pa rid sh : Int) :
    ∀ x ∈ [Field.activity act, Field.physical pa, Field.id rid, Field.sleep sh],
    ∀ y ∈ [Field.activity act, Field.physical pa, Field.id rid, Field.sleep sh],
    ∀ z : ExtracurricularData, y.store (x.store z) = x.store (y.store z) := by
  intro x hx y hy z
  simp only [List.mem_cons, List.mem_singleton, List.not_mem_nil, or_false] at hx hy
  rcases hx with rfl | rfl | rfl | rfl <;> rcases hy with rfl | rfl | rfl | rfl <;> rfl

/-- Among the values free of white space, exactly `Yes` and `'Yes'` read Yes. -/
theorem yesValue_token (value : List Char) (hv : ∀ c ∈ value, isspace c = false) :
    yesValue value = true ↔ (value = "Yes".toList ∨ value = "'Yes'".toList) := by
  constructor
  · intro h
    unfold yesValue at h
    rw [decide_eq_true_iff, trimmed_no_space value hv] at h
    unfold stripQuotePair at h
    by_cases hq : value.head? = some QUOTE ∧ value.getLast? = some QUOTE
    · rw [if_pos hq] at h
      have hsub : ∀ c ∈ value.tail.dropLast, isspace c = false := fun c hc =>
        hv c (List.mem_of_mem_tail (List.mem_of_mem_dropLast hc))
      rw [trimmed_no_space _ hsub] at h
      right
      cases value with
      | nil => simp at hq
      | cons c t =>
        simp only [List.head?_cons, Option.some.injEq, List.tail_cons] at hq h
        have htne : t ≠ [] := by
          intro e; rw [e] at h; revert h; decide
        have hlast : t.getLast htne = QUOTE := by
          have := hq.2
          rw [List.getLast?_cons, List.getLast?_eq_getLast _ htne] at this
          simpa using this
        have ht : t = t.dropLast ++ [t.getLast htne] := (List.dropLast_append_getLast htne).symm
        rw [ht, h, hlast, hq.1]
        rfl
    · rw [if_neg hq, trimmed_no_space value hv] at h
      exact Or.inl h
  · rintro (h | h) <;> rw [h] <;> decide

/-! ## Termination of the readers -/

theorem fgets_chars_rest_le (room : Nat) (stream : List Char) :
    (fgets_chars room stream).2.length ≤ stream.length := by
  induction room generalizing stream with
  | zero => simp [fgets_chars]
  | succ k ih =>
    cases stream with
    | nil => simp [fgets_chars]
    | cons c s =>
      simp only [fgets_chars]
      split
      · simp
      · have := ih s
        simp only [List.length_cons]
        omega

/-- A successful `fgets` takes at least one byte from the stream. -/
theorem fgets_consumes (stream buffer rest : List Char)
    (h : fgets 256 stream = some (buffer, rest)) : rest.length < stream.length := by
  cases stream with
  | nil => simp [fgets] at h
  | cons c s =>
    simp only [fgets, Option.some.injEq] at h
    have hr : rest = (fgets_chars 255 (c :: s)).2 := by rw [h]
    rw [hr]
    simp only [fgets_chars]
    split
    · simp
    · have := fgets_chars_rest_le 254 s
      simp only [List.length_cons]
      omega

/-- The loop of `read_csv_file` ends within as many iterations as the stream
has bytes, plus one. -/
theorem read_csv_loop_total (fuel : Nat) : ∀ (file : List Char) (data : Nat → CurricularData)
    (index : Nat), file.length < fuel → ∃ r, read_csv_loop fuel file data index = some r := by
  induction fuel with
  | zero => intro file data index h; omega
  | succ f ih =>
    intro file data index h
    unfold read_csv_loop
    cases hg : fgets 256 file with
    | none => exact ⟨_, rfl⟩
    | some p =>
      obtain ⟨buffer, rest⟩ := p
      have := fgets_consumes file buffer rest hg
      simp only []
      split
      · exact ih rest _ _ (by omega)
      · exact ⟨_, rfl⟩

/-- `read_csv_file` returns on every file. -/
theorem read_csv_file_total (filename : String) (file : Option (List Char))
    (data : Nat → CurricularData) : ∃ res, read_csv_file filename file data = some res := by
  unfold read_csv_file
  cases file with
  | none => exact ⟨_, rfl⟩
  | some content =>
    simp only []
    obtain ⟨r, hr⟩ := read_csv_loop_total _ _ data 0 (Nat.lt_succ_self _)
    rw [hr]
    exact ⟨_, rfl⟩

/-- The loop of `read_yaml_file` ends within as many iterations as the stream
has bytes, plus one. -/
theorem read_yaml_loop_total (fuel : Nat) : ∀ (file : List Char)
    (data : Nat → ExtracurricularData) (cur : Int), file.length < fuel →
    ∃ r, read_yaml_loop fuel file data cur = some r := by
  induction fuel with
  | zero => intro file data cur h; omega
  | succ f ih =>
    intro file data cur h
    unfold read_yaml_loop
    cases hg : fgets 256 file with
    | none => exact ⟨_, rfl⟩
    | some p =>
      obtain ⟨chunk, rest⟩ := p
      have hlt : rest.length < f := by
        have := fgets_consumes file chunk rest hg
        omega
      simp only []
      split
      · exact ih rest _ _ hlt
      · split
        · exact ih rest _ _ hlt
        · split
          · split
            · exact ⟨_, rfl⟩
            · split
              · exact ih rest _ _ hlt
              · exact ih rest _ _ hlt
          · split
            · exact ih rest _ _ hlt
            · exact ih rest _ _ hlt

/-- `read_yaml_file` returns on every file. -/
theorem read_yaml_file_total (filename : String) (file : Option (List Char))
    (data : Nat → ExtracurricularData) : ∃ res, read_yaml_file filename file data = some res := by
  unfold read_yaml_file
  cases file with
  | none => exact ⟨_, rfl⟩
  | some content =>
    simp only []
    obtain ⟨r, hr⟩ := read_yaml_loop_total _ _ data (-1) (Nat.lt_succ_self _)
    rw [hr]
    exact ⟨_, rfl⟩

/-- `main` returns on every command line and every pair of input files. -/
theorem main_total (prog : List Char) (args : List (List Char)) (files : Files) (task0 : Int)
    (csv_data0 : Nat → CurricularData) (yaml_data0 : Nat → ExtracurricularData) :
    ∃ run, main prog args files task0 csv_data0 yaml_data0 = some run := by
  unfold main
  split
  · split
    · exact ⟨_, rfl⟩
    · obtain ⟨csv, hcsv⟩ := read_csv_file_total "data/a1-data-curricular.csv" files.csv csv_data0
      simp only [hcsv]
      split
      · exact ⟨_, rfl⟩
      · obtain ⟨yaml, hyaml⟩ :=
          read_yaml_file_total "data/a1-data-extracurricular.yaml" files.yaml yaml_data0
        simp only [hyaml]
        split
        · exact ⟨_, rfl⟩
        · split
          · exact ⟨_, rfl⟩
          · exact ⟨_, rfl⟩
  · exact ⟨_, rfl⟩

/-! ## Lemmas on the headers -/

theorem forLoop_header (n : Int) (g : Nat → List Char)
    {body : Nat → List Char → List Char}
    (hbody : ∀ i s, body i s = s ++ g i) (header : List Char) :
    ∃ rows, forLoop n body (header ++ [NL]) = header ++ NL :: rows := by
  unfold forLoop
  rw [forFrom_append g hbody]
  refine ⟨((List.range' 0 n.toNat).map g).flatten, ?_⟩
  simp

set_option maxRecDepth 100000 in
theorem header_texts :
    "Record_ID,Exam_Score\n".toList = (headerOf 1).toList ++ [NL]
    ∧ "Extracurricular_Activities,Physical_Activity,Record_ID,Sleep_Hours\n".toList =
        (headerOf 2).toList ++ [NL]
    ∧ ("Record_ID,Hours_Studied,Attendance,Tutoring_Sessions,Exam_Score,"
          ++ "Extracurricular_Activities,Physical_Activity,Sleep_Hours\n").toList =
        (headerOf 3).toList ++ [NL]
    ∧ "Record_ID,Exam_Score\n".toList = (headerOf 4).toList ++ [NL]
    ∧ "Record_ID,Exam_Score\n".toList = (headerOf 5).toList ++ [NL]
    ∧ "Record_ID,Exam_Score,Extracurricular_Activities\n".toList =
        (headerOf 6).toList ++ [NL] := by
  decide

set_option maxRecDepth 100000 in
theorem header_no_newline (task : Int) : NL ∉ (headerOf task).toList := by
  unfold headerOf
  split
  · decide
  · split
    · decide
    · split
      · decide
      · decide

/-- For each task 1..6 the output is the header of the task, a newline, and
what the loop of the task appended. -/
theorem dispatch_header (task : Int) (csv_data : Nat → CurricularData) (num_csv : Int)
    (yaml_data : Nat → ExtracurricularData) (num_yaml : Int) (h : 1 ≤ task ∧ task ≤ 6) :
    ∃ rows, (dispatch task csv_data num_csv yaml_data num_yaml).output =
      (headerOf task).toList ++ NL :: rows := by
  obtain ⟨h1, h2, h3, h4, h5, h6⟩ := header_texts
  have hcases : task = 1 ∨ task = 2 ∨ task = 3 ∨ task = 4 ∨ task = 5 ∨ task = 6 := by omega
  rcases hcases with e | e | e | e | e | e <;> subst e
  · have hd : (dispatch 1 csv_data num_csv yaml_data num_yaml).output =
        forLoop num_csv (task1_body csv_data) (fprintf [] "Record_ID,Exam_Score\n" []) := rfl
    rw [hd, score_header_text, h1]
    exact forLoop_header num_csv _ (task1_body_rows csv_data) _
  · have hd : (dispatch 2 csv_data num_csv yaml_data num_yaml).output =
        forLoop num_yaml (task2_body yaml_data)
          (fprintf [] "Extracurricular_Activities,Physical_Activity,Record_ID,Sleep_Hours\n"
            []) := rfl
    rw [hd, header2_text, h2]
    exact forLoop_header num_yaml _ (task2_body_rows yaml_data) _
  · have hd : (dispatch 3 csv_data num_csv yaml_data num_yaml).output =
        forLoop num_csv (task3_body csv_data yaml_data num_yaml)
          (fprintf [] ("Record_ID,Hours_Studied,Attendance,Tutoring_Sessions,Exam_Score,"
          ++ "Extracurricular_Activities,Physical_Activity,Sleep_Hours\n") []) := rfl
    rw [hd, header3_text, h3]
    exact forLoop_header num_csv _ (task3_body_rows csv_data yaml_data num_yaml) _
  · have hd : (dispatch 4 csv_data num_csv yaml_data num_yaml).output =
        forLoop num_csv (task4_body csv_data) (fprintf [] "Record_ID,Exam_Score\n" []) := rfl
    rw [hd, score_header_text, h4]
    exact forLoop_header num_csv _ (task4_body_rows csv_data) _
  · have hd : (dispatch 5 csv_data num_csv yaml_data num_yaml).output =
        forLoop num_csv (task5_body csv_data yaml_data num_yaml)
          (fprintf [] "Record_ID,Exam_Score\n" []) := rfl
    rw [hd, score_header_text, h5]
    exact forLoop_header num_csv _ (task5_body_rows csv_data yaml_data num_yaml) _
  · have hd : (dispatch 6 csv_data num_csv yaml_data num_yaml).output =
        forLoop num_csv (task6_body csv_data yaml_data num_yaml)
          (fprintf [] "Record_ID,Exam_Score,Extracurricular_Activities\n" []) := rfl
    rw [hd, header6_text, h6]
    exact forLoop_header num_csv _ (task6_body_rows csv_data yaml_data num_yaml) _

theorem rdropWhile_append_rtakeWhile' (p : Char → Bool) (l : List Char) :
    l.rdropWhile p ++ l.rtakeWhile p = l := by
  unfold List.rdropWhile List.rtakeWhile
  rw [← List.reverse_append, List.takeWhile_append_dropWhile, List.reverse_reverse]

/-! ## Frame of the nested-record parser -/

theorem setAt_other {α : Type} (data : Nat → α) (i j : Nat) (v : α) (h : j ≠ i) :
    setAt data i v j = data j := by
  simp [setAt, h]

/-- One iteration of the loop of `read_yaml_file` on a list-item line when the
array is full: the loop is left and the function returns `current_record + 1`
with `current_record` already incremented. -/
theorem yaml_step_item_cap (fuel : Nat) (f : Field) (file : List Char)
    (data : Nat → ExtracurricularData) (cur : Int) (hcap : (MAX_RECORDS : Int) ≤ cur + 1)
    (hf : f.wellFormed) (hlen : ("- ".toList ++ yamlLine [] f).length ≤ 254) :
    read_yaml_loop (fuel + 1) (("- ".toList ++ yamlLine [] f) ++ NL :: file) data cur =
      some (cur + 1 + 1, data) := by
  obtain ⟨hnl0, hnul0⟩ := yamlLine_clean [] f (by simp) hf
  have hshape : "- ".toList ++ yamlLine [] f =
      ("- ".toList ++ f.key) ++ ':' :: (' ' :: f.text) := by
    simp [yamlLine]
  have hnl : NL ∉ "- ".toList ++ yamlLine [] f := by
    rw [List.mem_append, not_or]; exact ⟨by decide, hnl0⟩
  have hnul : NUL ∉ "- ".toList ++ yamlLine [] f := by
    rw [List.mem_append, not_or]; exact ⟨by decide, hnul0⟩
  have hbuf := yaml_buffer ("- ".toList ++ f.key) (' ' :: f.text) (by rw [← hshape]; exact hnul)
  rw [← hshape] at hbuf
  have hb2 : "- ".toList ++ f.key ++ ':' :: (' ' :: f.text).rdropWhile isspace =
      '-' :: ' ' :: (f.key ++ ':' :: (' ' :: f.text).rdropWhile isspace) := rfl
  rw [read_yaml_loop, fgets_line _ file hnl hlen]
  simp only []
  rw [hbuf, hb2]
  rw [if_neg (by simp), if_neg (by simp), if_pos (by rfl)]
  rw [if_pos (by omega)]

theorem itemsFile_cons (f : Field) (fs : List Field) :
    itemsFile (f :: fs) = ("- ".toList ++ yamlLine [] f) ++ NL :: itemsFile fs := by
  simp [itemsFile]

/-- The loop of `read_yaml_file` on a run of list-item lines that the array
can hold: every line starts the next record, and the elements behind the last
started record are left alone. -/
theorem yaml_items (fs : List Field) (tail : List Char)
    (hfs : ∀ f ∈ fs, f.wellFormed ∧ ("- ".toList ++ yamlLine [] f).length ≤ 254) :
    ∀ (data : Nat → ExtracurricularData) (cur : Int), -1 ≤ cur →
    cur + 1 + fs.length ≤ MAX_RECORDS →
    ∃ data1 : Nat → ExtracurricularData,
      (∀ fuel, read_yaml_loop (fuel + fs.length) (itemsFile fs ++ tail) data cur =
        read_yaml_loop fuel tail data1 (cur + fs.length))
      ∧ ∀ j : Nat, cur + fs.length < (j : Int) → data1 j = data j := by
  induction fs with
  | nil =>
    intro data cur _ _
    exact ⟨data, fun fuel => by simp [itemsFile], fun _ _ => rfl⟩
  | cons f fs ih =>
    intro data cur hcur hcap
    simp only [List.length_cons, Nat.cast_add, Nat.cast_one] at hcap
    obtain ⟨hwf, hlen⟩ := hfs f (List.mem_cons_self _ _)
    obtain ⟨data1, h1, h2⟩ := ih (fun x hx => hfs x (List.mem_cons_of_mem _ hx))
      (setAt data (cur + 1).toNat (f.store (data (cur + 1).toNat))) (cur + 1)
      (by omega) (by omega)
    refine ⟨data1, ?_, ?_⟩
    · intro fuel
      rw [itemsFile_cons, List.append_assoc, List.cons_append, List.length_cons,
        ← Nat.add_assoc,
        yaml_step_item (fuel + fs.length) f _ data cur (by omega) hwf hlen, h1 fuel]
      congr 1
      simp only [Nat.cast_add, Nat.cast_one]
      omega
    · intro j hj
      simp only [List.length_cons, Nat.cast_add, Nat.cast_one] at hj
      rw [h2 j (by omega)]
      exact setAt_other _ _ _ _ (by omega)

theorem length_itemsFile (fs : List Field) : fs.length ≤ (itemsFile fs).length := by
  induction fs with
  | nil => simp
  | cons f fs ih =>
    rw [itemsFile_cons]
    simp only [List.length_append, List.length_cons]
    omega

/-- `read_yaml_file` on a file of more list-item lines than the array has
elements: the function returns `MAX_RECORDS + 1`, and the element with index
`MAX_RECORDS` of the array it was given is not written. -/
theorem read_yaml_over_cap (filename : String) (fs : List Field)
    (data0 : Nat → ExtracurricularData)
    (hfs : ∀ f ∈ fs, f.wellFormed ∧ ("- ".toList ++ yamlLine [] f).length ≤ 254)
    (hlen : MAX_RECORDS < fs.length) :
    ∃ res, read_yaml_file filename (some (itemsFile fs)) data0 = some res
      ∧ res.count = MAX_RECORDS + 1
      ∧ ∀ j : Nat, MAX_RECORDS ≤ j → res.data j = data0 j := by
  have hsplit : fs = fs.take MAX_RECORDS ++ fs.drop MAX_RECORDS :=
    (List.take_append_drop _ _).symm
  have htake : (fs.take MAX_RECORDS).length = MAX_RECORDS := by
    rw [List.length_take]; omega
  cases hdrop : fs.drop MAX_RECORDS with
  | nil =>
    have := congrArg List.length hdrop
    simp at this
    omega
  | cons g gs =>
    have hg : g ∈ fs := List.mem_of_mem_drop (by rw [hdrop]; exact List.mem_cons_self _ _)
    obtain ⟨data1, h1, h2⟩ := yaml_items (fs.take MAX_RECORDS)
      (itemsFile (g :: gs)) (fun x hx => hfs x (List.mem_of_mem_take hx)) data0 (-1)
      (le_refl _) (by rw [htake]; omega)
    have hfile : itemsFile fs = itemsFile (fs.take MAX_RECORDS) ++ itemsFile (g :: gs) := by
      conv_lhs => rw [hsplit, hdrop]
      simp [itemsFile]
    have hfuel : ∃ k, (itemsFile fs).length + 1 = (k + 1) + (fs.take MAX_RECORDS).length := by
      have := length_itemsFile fs
      exact ⟨(itemsFile fs).length - MAX_RECORDS, by rw [htake]; omega⟩
    obtain ⟨k, hk⟩ := hfuel
    refine ⟨⟨MAX_RECORDS + 1, data1, []⟩, ?_, rfl, ?_⟩
    · unfold read_yaml_file
      simp only []
      rw [hk, hfile, h1 (k + 1), itemsFile_cons,
        yaml_step_item_cap k g _ data1 _ (by rw [htake]; omega) (hfs g hg).1 (hfs g hg).2]
      simp only [htake]
      norm_num
    · intro j hj
      exact h2 j (by rw [htake]; omega)

/-- The count `read_yaml_file` returns never exceeds `MAX_RECORDS + 1`. -/
theorem read_yaml_loop_count_le (fuel : Nat) : ∀ (file : List Char)
    (data : Nat → ExtracurricularData) (cur : Int) (res : Int × (Nat → ExtracurricularData)),
    cur < MAX_RECORDS → read_yaml_loop fuel file data cur = some res →
    res.1 ≤ MAX_RECORDS + 1 := by
  induction fuel with
  | zero => intro file data cur res _ h; simp [read_yaml_loop] at h
  | succ f ih =>
    intro file data cur res hcur h
    unfold read_yaml_loop at h
    cases hg : fgets 256 file with
    | none =>
      rw [hg] at h
      simp only [Option.some.injEq] at h
      subst h
      simp only []
      omega
    | some p =>
      obtain ⟨chunk, rest⟩ := p
      rw [hg] at h
      simp only [] at h
      split_ifs at h with h1 h2 h3 h4 h5 h6
      · exact ih _ _ _ _ hcur h
      · exact ih _ _ _ _ hcur h
      · simp only [Option.some.injEq] at h
        subst h
        simp only []
        omega
      · exact ih _ _ _ _ (by omega) h
      · exact ih _ _ _ _ (by omega) h
      · exact ih _ _ _ _ hcur h
      · exact ih _ _ _ _ hcur h

/-! ## The header line of the tabular file -/

theorem fgets_chars_all (l : List Char) (hnl : NL ∉ l) :
    ∀ room, l.length ≤ room → fgets_chars room l = (l, []) := by
  induction l with
  | nil => intro room _; cases room <;> rfl
  | cons c l ih =>
    intro room h
    obtain ⟨k, rfl⟩ : ∃ k, room = k + 1 := ⟨room - 1, by simp at h; omega⟩
    have hc : c ≠ NL := fun e => hnl (e ▸ List.mem_cons_self _ _)
    have hl : NL ∉ l := fun e => hnl (List.mem_cons_of_mem _ e)
    have hrec := ih hl k (by simp at h; omega)
    rw [fgets_chars, if_neg hc, hrec]

/-! ## Rows and fields of the output -/

theorem splitAtSep_ne_nil (sep : Char) (s : List Char) : splitAtSep sep s ≠ [] := by
  cases s with
  | nil => simp [splitAtSep]
  | cons c s =>
    unfold splitAtSep
    split
    · simp
    · split <;> simp

theorem splitAtSep_none (sep : Char) (a : List Char) (h : sep ∉ a) :
    splitAtSep sep a = [a] := by
  induction a with
  | nil => rfl
  | cons c a ih =>
    have hc : c ≠ sep := fun e => h (e ▸ List.mem_cons_self _ _)
    have ha : sep ∉ a := fun e => h (List.mem_cons_of_mem _ e)
    rw [splitAtSep, if_neg hc, ih ha]

theorem splitAtSep_stop (sep : Char) (a b : List Char) (h : sep ∉ a) :
    splitAtSep sep (a ++ sep :: b) = a :: splitAtSep sep b := by
  induction a with
  | nil => simp [splitAtSep]
  | cons c a ih =>
    have hc : c ≠ sep := fun e => h (e ▸ List.mem_cons_self _ _)
    have ha : sep ∉ a := fun e => h (List.mem_cons_of_mem _ e)
    rw [List.cons_append, splitAtSep, if_neg hc, ih ha]

/-- A text made of lines, each ended by a newline, splits into its lines and
one empty piece. -/
theorem splitAtSep_lines (ls : List (List Char)) (h : ∀ l ∈ ls, NL ∉ l) :
    splitAtSep NL ((ls.map (fun l => l ++ [NL])).flatten) = ls ++ [[]] := by
  induction ls with
  | nil => rfl
  | cons l ls ih =>
    have hl := h l (List.mem_cons_self _ _)
    have ih1 := ih (fun x hx => h x (List.mem_cons_of_mem _ hx))
    simp only [List.map_cons, List.flatten_cons, List.append_assoc, List.singleton_append,
      List.cons_append]
    rw [splitAtSep_stop NL l _ hl, List.nil_append, ih1]

/-- The fields joined by commas split back into the fields, when no field
holds a comma. -/
theorem splitAtSep_commaSep (fs : List (List Char)) (hne : fs ≠ [])
    (h : ∀ f ∈ fs, ',' ∉ f) : splitAtSep ',' (commaSep fs) = fs := by
  induction fs with
  | nil => exact absurd rfl hne
  | cons f fs ih =>
    have hf := h f (List.mem_cons_self _ _)
    cases fs with
    | nil => simp only [commaSep]; exact splitAtSep_none ',' f hf
    | cons g gs =>
      rw [commaSep_cons _ _ (by simp), splitAtSep_stop ',' f _ hf,
        ih (by simp) (fun x hx => h x (List.mem_cons_of_mem _ hx))]

theorem commaSep_no_newline (fs : List (List Char)) (h : ∀ f ∈ fs, NL ∉ f) :
    NL ∉ commaSep fs := by
  induction fs with
  | nil => simp [commaSep]
  | cons f fs ih =>
    have hf := h f (List.mem_cons_self _ _)
    cases fs with
    | nil => simpa [commaSep] using hf
    | cons g gs =>
      rw [commaSep_cons _ _ (by simp), List.mem_append, not_or, List.mem_cons, not_or]
      exact ⟨hf, by decide, ih (fun x hx => h x (List.mem_cons_of_mem _ hx))⟩

/-- The data rows of an output made of a header line and of rows written
field by field are these rows. -/
theorem dataRows_output (header : List Char) (rows : List (List (List Char)))
    (hh : NL ∉ header)
    (hrows : ∀ fs ∈ rows, fs ≠ [] ∧ ∀ f ∈ fs, ',' ∉ f ∧ NL ∉ f) :
    dataRows (header ++ NL :: (rows.map csvLine).flatten) = rows := by
  have hlines : (rows.map csvLine).flatten =
      ((rows.map commaSep).map (fun l => l ++ [NL])).flatten := by
    rw [List.map_map]; rfl
  have hnl : ∀ l ∈ rows.map commaSep, NL ∉ l := by
    intro l hl
    obtain ⟨fs, hfs, rfl⟩ := List.mem_map.1 hl
    exact commaSep_no_newline fs (fun f hf => ((hrows fs hfs).2 f hf).2)
  unfold dataRows
  rw [splitAtSep_stop NL header _ hh, hlines, splitAtSep_lines _ hnl]
  have : (header :: (rows.map commaSep ++ [[]])).dropLast.tail = rows.map commaSep := by
    rw [← List.cons_append, List.dropLast_concat]
    rfl
  rw [this, List.map_map]
  conv_rhs => rw [← List.map_id rows]
  apply List.map_congr_left
  intro fs hfs
  exact splitAtSep_commaSep fs (hrows fs hfs).1 (fun f hf => ((hrows fs hfs).2 f hf).1)

theorem showInt_plain (v : Int) : ',' ∉ showInt v ∧ NL ∉ showInt v := by
  refine ⟨?_, (showInt_clean v).1⟩
  intro h
  rcases showInt_chars v _ h with h | h
  · revert h; decide
  · revert h; decide

theorem activity_plain (flag : Int) :
    ',' ∉ (if flag ≠ 0 then "Yes".toList else "No".toList) ∧
      NL ∉ (if flag ≠ 0 then "Yes".toList else "No".toList) := by
  split <;> exact ⟨by decide, by decide⟩

theorem task3_fields_plain (c : CurricularData) (e : ExtracurricularData) :
    task3_fields c e ≠ [] ∧ ∀ f ∈ task3_fields c e, ',' ∉ f ∧ NL ∉ f := by
  refine ⟨by simp [task3_fields], ?_⟩
  intro f hf
  simp only [task3_fields, List.mem_cons, List.mem_singleton, List.not_mem_nil, or_false] at hf
  rcases hf with h | h | h | h | h | h | h | h <;> rw [h] <;>
    first | exact showInt_plain _ | exact activity_plain _

theorem score_fields_plain (c : CurricularData) :
    score_fields c ≠ [] ∧ ∀ f ∈ score_fields c, ',' ∉ f ∧ NL ∉ f := by
  refine ⟨by simp [score_fields], ?_⟩
  intro f hf
  simp only [score_fields, List.mem_cons, List.mem_singleton, List.not_mem_nil, or_false] at hf
  rcases hf with h | h <;> rw [h] <;> exact showInt_plain _

/-- The data rows of the output of task 1, field by field. -/
theorem task1_dataRows (csv_data : Nat → CurricularData) (num_csv : Int)
    (yaml_data : Nat → ExtracurricularData) (num_yaml : Int) :
    dataRows (dispatch 1 csv_data num_csv yaml_data num_yaml).output =
      ((records csv_data num_csv).filter (fun c => decide (c.exam_score > 90))).map
        score_fields := by
  have hd : (dispatch 1 csv_data num_csv yaml_data num_yaml).output =
      forLoop num_csv (task1_body csv_data) (fprintf [] "Record_ID,Exam_Score\n" []) := rfl
  rw [hd, score_header_text, header_texts.1, forLoop_rows csv_data num_csv
    (fun c => if c.exam_score > 90 then some (score_row c) else none)
    (task1_body_rows csv_data), filterMap_if]
  have hrows : ((records csv_data num_csv).filter (fun c => decide (c.exam_score > 90))).map
      score_row = ((((records csv_data num_csv).filter
        (fun c => decide (c.exam_score > 90))).map score_fields).map csvLine) := by
    rw [List.map_map]; rfl
  rw [hrows, List.append_assoc, List.singleton_append]
  apply dataRows_output _ _ (header_no_newline 1)
  intro fs hfs
  obtain ⟨c, -, rfl⟩ := List.mem_map.1 hfs
  exact score_fields_plain c

/-- The data rows of the output of task 3, field by field. -/
theorem task3_dataRows (csv_data : Nat → CurricularData) (num_csv : Int)
    (yaml_data : Nat → ExtracurricularData) (num_yaml : Int) :
    dataRows (dispatch 3 csv_data num_csv yaml_data num_yaml).output =
      (records csv_data num_csv).filterMap (fun c =>
        if c.exam_score > 90 then
          (find_extracurricular c.record_id yaml_data num_yaml).map
            (fun ext => task3_fields c (yaml_data ext))
        else none) := by
  have hd : (dispatch 3 csv_data num_csv yaml_data num_yaml).output =
      forLoop num_csv (task3_body csv_data yaml_data num_yaml)
        (fprintf [] ("Record_ID,Hours_Studied,Attendance,Tutoring_Sessions,Exam_Score,"
        ++ "Extracurricular_Activities,Physical_Activity,Sleep_Hours\n") []) := rfl
  rw [hd, header3_text, header_texts.2.2.1, forLoop_rows csv_data num_csv
    (fun c => if c.exam_score > 90 then
        (find_extracurricular c.record_id yaml_data num_yaml).map
          (fun ext => task3_row c (yaml_data ext))
      else none) (task3_body_rows csv_data yaml_data num_yaml)]
  have hrows : (records csv_data num_csv).filterMap (fun c =>
      if c.exam_score > 90 then
        (find_extracurricular c.record_id yaml_data num_yaml).map
          (fun ext => task3_row c (yaml_data ext))
      else none) =
      ((records csv_data num_csv).filterMap (fun c =>
        if c.exam_score > 90 then
          (find_extracurricular c.record_id yaml_data num_yaml).map
            (fun ext => task3_fields c (yaml_data ext))
        else none)).map csvLine := by
    rw [List.map_filterMap]
    congr 1
    funext c
    by_cases h : c.exam_score > 90
    · rw [if_pos h, if_pos h, Option.map_map]; rfl
    · rw [if_neg h, if_neg h]; rfl
  rw [hrows, List.append_assoc, List.singleton_append]
  apply dataRows_output _ _ (header_no_newline 3)
  intro fs hfs
  obtain ⟨c, -, hc⟩ := List.mem_filterMap.1 hfs
  by_cases h : c.exam_score > 90
  · rw [if_pos h] at hc
    cases hf : find_extracurricular c.record_id yaml_data num_yaml with
    | none => rw [hf] at hc; simp at hc
    | some ext =>
      rw [hf] at hc
      simp only [Option.map_some', Option.some.injEq] at hc
      rw [← hc]
      exact task3_fields_plain c _
  · rw [if_neg h] at hc; cases hc

theorem correlated_iff (c : CurricularData) (yaml_data : Nat → ExtracurricularData)
    (num_yaml : Int) :
    correlated c yaml_data num_yaml ↔
      find_extracurricular c.record_id yaml_data num_yaml ≠ none := by
  have h := find_extracurricular_find? c.record_id yaml_data num_yaml
  unfold correlated
  constructor
  · rintro ⟨e, he, hid⟩ hnone
    rw [hnone] at h
    have := List.find?_eq_none.1 h.symm e he
    simp [hid] at this
  · intro hne
    cases hf : find_extracurricular c.record_id yaml_data num_yaml with
    | none => exact absurd hf hne
    | some ext =>
      rw [hf] at h
      have hfound := h.symm
      exact ⟨yaml_data ext, List.mem_of_find?_eq_some hfound, by
        have := List.find?_some hfound
        simpa using this⟩

/-- The pairs of the rows of task 3 among the rows of task 1, on the level of
the selected records. -/
theorem task3_pairs_sublist (yaml_data : Nat → ExtracurricularData) (num_yaml : Int)
    (cs : List CurricularData) :
    ((cs.filterMap (fun c =>
        if c.exam_score > 90 then
          (find_extracurricular c.record_id yaml_data num_yaml).map
            (fun ext => task3_fields c (yaml_data ext))
        else none)).map task3_pair).Sublist
      ((cs.filter (fun c => decide (c.exam_score > 90))).map score_fields)
    ∧ ((∀ c ∈ cs, c.exam_score > 90 → correlated c yaml_data num_yaml) →
      (cs.filterMap (fun c =>
        if c.exam_score > 90 then
          (find_extracurricular c.record_id yaml_data num_yaml).map
            (fun ext => task3_fields c (yaml_data ext))
        else none)).map task3_pair =
      (cs.filter (fun c => decide (c.exam_score > 90))).map score_fields) := by
  induction cs with
  | nil => exact ⟨List.Sublist.slnil, fun _ => rfl⟩
  | cons c cs ih =>
    obtain ⟨ih1, ih2⟩ := ih
    by_cases h : c.exam_score > 90
    · cases hf : find_extracurricular c.record_id yaml_data num_yaml with
      | none =>
        simp only [List.filterMap_cons, if_pos h, hf, Option.map_none', List.filter_cons,
          decide_eq_true_eq, List.map_cons]
        refine ⟨List.Sublist.cons _ ih1, fun hall => ?_⟩
        have := (correlated_iff c yaml_data num_yaml).1 (hall c (List.mem_cons_self _ _) h)
        exact absurd hf this
      | some ext =>
        simp only [List.filterMap_cons, if_pos h, hf, Option.map_some', List.filter_cons,
          decide_eq_true_eq, List.map_cons]
        have hp : task3_pair (task3_fields c (yaml_data ext)) = score_fields c := rfl
        rw [hp]
        refine ⟨List.Sublist.cons₂ _ ih1, fun hall => ?_⟩
        rw [ih2 (fun x hx => hall x (List.mem_cons_of_mem _ hx))]
    · simp only [List.filterMap_cons, if_neg h, List.filter_cons, decide_eq_true_eq]
      exact ⟨ih1, fun hall => ih2 (fun x hx => hall x (List.mem_cons_of_mem _ hx))⟩

/-! ## The fields of a data line -/

/-- The leading run of a list is not changed by what follows an element that
ends it. -/
theorem takeWhile_append_stop {α : Type} (p : α → Bool) (a b : List α) (x : α)
    (hx : p x = false) :
    (a ++ x :: b).takeWhile p = a.takeWhile p := by
  induction a with
  | nil => simp [List.takeWhile_cons, hx]
  | cons y a ih =>
    rw [List.cons_append, List.takeWhile_cons, List.takeWhile_cons, ih]

/-- A character of a text has a first occurrence. -/
theorem first_occurrence (c : Char) (s : List Char) (h : c ∈ s) :
    ∃ p u, s = p ++ c :: u ∧ c ∉ p := by
  induction s with
  | nil => simp at h
  | cons x s ih =>
    by_cases hx : x = c
    · exact ⟨[], s, by rw [hx]; rfl, by simp⟩
    · have hs : c ∈ s := by
        rcases List.mem_cons.1 h with h | h
        · exact absurd h.symm hx
        · exact h
      obtain ⟨p, u, hpu, hp⟩ := ih hs
      refine ⟨x :: p, u, by rw [hpu]; rfl, ?_⟩
      intro hm
      rcases List.mem_cons.1 hm with h | h
      · exact hx h.symm
      · exact hp h

/-- The conversion of the digits of a number does not look behind a character
that is not a digit. -/
theorem scan_number_append (negative : Bool) (u : List Char) (c : Char) (t : List Char)
    (hc : isdigit c = false) :
    scan_number negative (u ++ c :: t) =
      (scan_number negative u).map (fun q => (q.1, q.2 ++ c :: t)) := by
  cases u with
  | nil => simp [scan_number, hc]
  | cons d u =>
    by_cases hd : isdigit d = true
    · have h1 : digitsValue ((d :: u) ++ c :: t) = digitsValue (d :: u) := by
        unfold digitsValue
        rw [takeWhile_append_stop isdigit _ _ _ hc]
      have h2 : ((d :: u) ++ c :: t).dropWhile isdigit = (d :: u).dropWhile isdigit ++ c :: t :=
        dropWhile_append_stop isdigit _ _ _ hc
      have e1 : scan_number negative ((d :: u) ++ c :: t) =
          some (toCInt negative (digitsValue ((d :: u) ++ c :: t)),
            ((d :: u) ++ c :: t).dropWhile isdigit) := by
        simp only [List.cons_append, scan_number, if_pos hd]
      have e2 : scan_number negative (d :: u) =
          some (toCInt negative (digitsValue (d :: u)), (d :: u).dropWhile isdigit) := by
        simp only [scan_number, if_pos hd]
      rw [e1, e2, h1, h2]
      rfl
    · simp [scan_number, hd]

/-- The directive `%d` does not look behind a character that cannot belong to
a number: on a text and on the text followed by such a character it converts
the same integer and leaves the same text, followed by the character. -/
theorem scan_d_append (p : List Char) (c : Char) (t : List Char)
    (hd : isdigit c = false) (hm : c ≠ '-') (hp : c ≠ '+')
    (hs : isspace c = false ∨ t = []) :
    scan_d (p ++ c :: t) = (scan_d p).map (fun q => (q.1, q.2 ++ c :: t)) := by
  unfold scan_d
  cases hdw : p.dropWhile isspace with
  | nil =>
    have hall : ∀ x ∈ p, isspace x = true := by
      simpa [List.dropWhile_eq_nil_iff] using hdw
    rw [dropWhile_append_all isspace p _ hall]
    by_cases hsp : isspace c = true
    · have ht : t = [] := by
        rcases hs with h | h
        · rw [h] at hsp; cases hsp
        · exact h
      subst ht
      simp [List.dropWhile_cons, hsp, scan_sign, scan_number]
    · simp [List.dropWhile_cons, hsp, scan_sign, scan_number, hm, hp, hd]
  | cons x q =>
    have hx : isspace x = false := head_dropWhile_not isspace p x q hdw
    have hpq : (p ++ c :: t).dropWhile isspace = x :: (q ++ c :: t) := by
      conv_lhs => rw [← List.takeWhile_append_dropWhile isspace p, hdw, List.append_assoc]
      rw [dropWhile_append_all isspace _ _ (fun y hy => List.mem_takeWhile_imp hy)]
      simp [List.dropWhile_cons, hx]
    rw [hpq]
    by_cases h1 : x = '-'
    · simp only [scan_sign, if_pos h1]
      exact scan_number_append _ _ _ _ hd
    · by_cases h2 : x = '+'
      · simp only [scan_sign, if_neg h1, if_pos h2]
        exact scan_number_append _ _ _ _ hd
      · simp only [scan_sign, if_neg h1, if_neg h2]
        exact scan_number_append _ (x :: q) _ _ hd

/-- The text `%d` leaves is made of characters of the text it was given. -/
theorem scan_d_suffix (s : List Char) (v : Int) (t : List Char)
    (h : scan_d s = some (v, t)) : ∀ c ∈ t, c ∈ s := by
  have hsign : ∀ u : List Char, ∀ c ∈ (scan_sign u).2, c ∈ u := by
    intro u c hc
    cases u with
    | nil => simp [scan_sign] at hc
    | cons x u =>
      unfold scan_sign at hc
      simp only [] at hc
      split_ifs at hc
      · exact List.mem_cons_of_mem _ hc
      · exact List.mem_cons_of_mem _ hc
      · exact hc
  have hnum : ∀ (b : Bool) (u : List Char), scan_number b u = some (v, t) → ∀ c ∈ t, c ∈ u := by
    intro b u hu c hc
    cases u with
    | nil => simp [scan_number] at hu
    | cons x u =>
      unfold scan_number at hu
      simp only [] at hu
      split_ifs at hu
      simp only [Option.some.injEq, Prod.mk.injEq] at hu
      rw [← hu.2] at hc
      exact (List.dropWhile_suffix isdigit).subset hc
  intro c hc
  unfold scan_d at h
  have := hsign _ c (hnum _ _ h c hc)
  exact (List.dropWhile_suffix isspace).subset this

theorem fieldInts_nil (n : Nat) : fieldInts n [] = [] := by
  cases n <;> rfl

/-- The `sscanf` call of `read_csv_file` stores the values its conversions
deliver, in the order of the fields, and leaves the other fields alone. -/
theorem sscanf_record_values (s : List Char) (r : CurricularData) :
    sscanf_record s r = storeFields (scan_values 5 s) r := by
  unfold sscanf_record
  simp only [scan_values, scan_comma_d]
  cases scan_d s with
  | none => rfl
  | some p1 =>
    obtain ⟨v1, s1⟩ := p1
    simp only []
    cases scan_char ',' s1 with
    | none => rfl
    | some t1 =>
      simp only []
      cases scan_d t1 with
      | none => rfl
      | some p2 =>
        obtain ⟨v2, s2⟩ := p2
        simp only []
        cases scan_char ',' s2 with
        | none => rfl
        | some t2 =>
          simp only []
          cases scan_d t2 with
          | none => rfl
          | some p3 =>
            obtain ⟨v3, s3⟩ := p3
            simp only []
            cases scan_char ',' s3 with
            | none => rfl
            | some t3 =>
              simp only []
              cases scan_d t3 with
              | none => rfl
              | some p4 =>
                obtain ⟨v4, s4⟩ := p4
                simp only []
                cases scan_char ',' s4 with
                | none => rfl
                | some t4 =>
                  simp only []
                  cases scan_d t4 with
                  | none => rfl
                  | some p5 =>
                    obtain ⟨v5, s5⟩ := p5
                    simp only []
                    cases scan_char ',' s5 <;> rfl

/-- The conversions of `%d,%d,...` on a text, told by the comma-separated
fields of the text. -/
theorem scan_values_fields (n : Nat) : ∀ s : List Char,
    scan_values n s = fieldInts n (splitAtSep ',' s) := by
  induction n with
  | zero => intro s; simp [scan_values, fieldInts]
  | succ n ih =>
    intro s
    by_cases hc : ',' ∈ s
    · obtain ⟨p, u, rfl, hp⟩ := first_occurrence ',' s hc
      rw [splitAtSep_stop ',' p u hp]
      unfold scan_values fieldInts fieldInt fieldIsInt
      rw [scan_d_append p ',' u (by decide) (by decide) (by decide) (Or.inl (by decide))]
      cases hsd : scan_d p with
      | none => rfl
      | some q =>
        obtain ⟨v, r⟩ := q
        cases r with
        | nil =>
          simp [scan_char, ih]
        | cons x r =>
          have hx : x ≠ ',' := by
            intro hx
            have := scan_d_suffix p v (x :: r) hsd x (by simp)
            rw [hx] at this
            exact hp this
          simp [scan_char, hx]
    · rw [splitAtSep_none ',' s hc]
      unfold scan_values fieldInts fieldInt fieldIsInt
      cases hsd : scan_d s with
      | none => rfl
      | some q =>
        obtain ⟨v, r⟩ := q
        have hr : scan_char ',' r = none := by
          cases r with
          | nil => rfl
          | cons x r =>
            have hx : x ≠ ',' := by
              intro hx
              have := scan_d_suffix s v (x :: r) hsd x (by simp)
              rw [hx] at this
              exact hc this
            simp [scan_char, hx]
        simp [hr, fieldInts_nil]

/-- The newline that ends a line does not change what is converted. -/
theorem scan_values_nl (n : Nat) : ∀ s : List Char,
    scan_values n (s ++ [NL]) = scan_values n s := by
  induction n with
  | zero => intro s; simp [scan_values]
  | succ n ih =>
    intro s
    unfold scan_values
    rw [scan_d_append s NL [] (by decide) (by decide) (by decide) (Or.inr rfl)]
    cases hsd : scan_d s with
    | none => rfl
    | some q =>
      obtain ⟨v, r⟩ := q
      cases r with
      | nil =>
        have hnl : NL ≠ ',' := by decide
        simp [scan_char, hnl]
      | cons x r =>
        by_cases hx : x = ','
        · simp [scan_char, hx, ih]
        · simp [scan_char, hx]

/-- The C string of a line with its newline: the newline is dropped exactly
when the line holds a NUL byte. -/
theorem cstr_append_nl (l : List Char) :
    cstr (l ++ [NL]) = cstr l ∨ cstr (l ++ [NL]) = cstr l ++ [NL] := by
  by_cases h : NUL ∈ l
  · left
    obtain ⟨a, b, rfl, ha⟩ := first_occurrence NUL l h
    unfold cstr
    rw [List.append_assoc, List.cons_append,
      takeWhile_append_stop _ a _ NUL (by simp),
      takeWhile_append_stop _ a _ NUL (by simp)]
  · right
    rw [cstr_line l h, cstr_no_nul l h]

/-- The `sscanf` call of `read_csv_file` on a line read with its newline,
told by the fields of the line. -/
theorem sscanf_record_line (l : List Char) (r : CurricularData) :
    sscanf_record (cstr (l ++ [NL])) r = storeFields (lineInts (cstr l)) r := by
  rw [sscanf_record_values]
  unfold lineInts
  rw [← scan_values_fields]
  rcases cstr_append_nl l with h | h
  · rw [h]
  · rw [h, scan_values_nl]

/-- A field begins with no integer exactly when it does not start with white
space, an optional sign and a digit. -/
theorem fieldInt_none (field : List Char) :
    fieldInt field = none ↔ startsInteger field = false := by
  constructor
  · intro h
    unfold fieldInt scan_d at h
    unfold startsInteger
    cases hd : field.dropWhile isspace with
    | nil => rfl
    | cons c rest =>
      rw [hd] at h
      simp only []
      by_cases h1 : c = '-'
      · rw [if_pos (Or.inl h1)]
        simp only [scan_sign, if_pos h1] at h
        cases rest with
        | nil => rfl
        | cons d rest =>
          simp only []
          by_cases hdg : isdigit d = true
          · simp [scan_number, hdg] at h
          · simpa using hdg
      · by_cases h2 : c = '+'
        · rw [if_pos (Or.inr h2)]
          simp only [scan_sign, if_neg h1, if_pos h2] at h
          cases rest with
          | nil => rfl
          | cons d rest =>
            simp only []
            by_cases hdg : isdigit d = true
            · simp [scan_number, hdg] at h
            · simpa using hdg
        · rw [if_neg (by simp [h1, h2])]
          simp only [scan_sign, if_neg h1, if_neg h2] at h
          by_cases hdg : isdigit c = true
          · simp [scan_number, hdg] at h
          · simpa using hdg
  · intro h
    unfold fieldInt
    rw [scan_d_none field h]
    rfl

/-- A field that starts with the decimal text of an `int`, not followed by a
digit, begins with that integer, and is nothing but the integer exactly when
no text follows. -/
theorem fieldInt_showInt (v : Int) (tail : List Char) (hv : inIntRange v)
    (ht : ∀ c ∈ tail.head?, isdigit c = false) :
    fieldInt (showInt v ++ tail) = some v ∧
      (fieldIsInt (showInt v ++ tail) = true ↔ tail = []) := by
  unfold fieldInt fieldIsInt
  rw [scan_d_showInt v tail hv ht]
  refine ⟨rfl, ?_⟩
  cases tail <;> simp

/-- The `sscanf` call of `read_csv_file` on any text, told by the fields of
the text. -/
theorem sscanf_record_text (s : List Char) (r : CurricularData) :
    sscanf_record s r = storeFields (lineInts s) r := by
  rw [sscanf_record_values]
  unfold lineInts
  rw [scan_values_fields]

/-- `read_csv_file` on a header and data lines that fit the buffer, the last
of which may lack its newline. -/
theorem read_csv_file_text (filename : String) (header : List Char)
    (lines : List (List Char)) (last : List Char) (data0 : Nat → CurricularData)
    (hh : NL ∉ header) (hhl : header.length ≤ 254)
    (hl : ∀ l ∈ lines, NL ∉ l ∧ l.length ≤ 254)
    (hlast : NL ∉ last ∧ last.length ≤ 254)
    (hcap : lines.length + (if last = [] then 0 else 1) ≤ MAX_RECORDS) :
    ∃ res, read_csv_file filename
        (some (header ++ NL :: ((lines.map (fun l => l ++ [NL])).flatten ++ last))) data0 =
          some res
      ∧ res.count = ((lines.length + (if last = [] then 0 else 1) : Nat) : Int)
      ∧ (∀ i (hi : i < lines.length),
          res.data i = sscanf_record (cstr (lines[i] ++ [NL])) (data0 i))
      ∧ (last ≠ [] →
          res.data lines.length = sscanf_record (cstr last) (data0 lines.length)) := by
  by_cases hlst : last = []
  · subst hlst
    obtain ⟨res, h1, h2, h3⟩ := read_csv_file_lines filename header lines [] data0 hh hhl hl
      (by simpa using hcap) (Or.inl rfl)
    exact ⟨res, h1, by simpa using h2, h3, fun h => absurd rfl h⟩
  · rw [if_neg hlst] at hcap
    obtain ⟨data1, h1, -, h3, h4⟩ := read_csv_loop_lines lines last hl data0 0 (by omega)
    have hpos : 0 < last.length := List.length_pos.2 hlst
    have hfuel : ∃ k, ((lines.map (fun l => l ++ [NL])).flatten ++ last).length + 1 =
        (k + 2) + lines.length := by
      have := length_lines_le lines
      refine ⟨((lines.map (fun l => l ++ [NL])).flatten ++ last).length - lines.length - 1, ?_⟩
      rw [List.length_append]
      omega
    obtain ⟨k, hk⟩ := hfuel
    have hget : fgets 256 last = some (last, []) := by
      cases hc : last with
      | nil => exact absurd hc hlst
      | cons c l =>
        have hall := fgets_chars_all (c :: l) (hc ▸ hlast.1) 255 (by rw [← hc]; omega)
        simp only [fgets, hall]
    refine ⟨⟨lines.length + 1, setAt data1 lines.length
      (sscanf_record (cstr last) (data1 lines.length)), []⟩, ?_, ?_, ?_, ?_⟩
    · unfold read_csv_file
      simp only [fgets_line header _ hh hhl]
      rw [hk, h1 (k + 2), read_csv_loop, hget]
      simp only [Nat.zero_add]
      rw [if_pos (by omega), read_csv_loop]
      rfl
    · simp [hlst]
    · intro i hi
      have := h4 i hi
      simp only [Nat.zero_add] at this
      rw [← this]
      exact setAt_other _ _ _ _ (by omega)
    · intro _
      have := h3 lines.length (by omega)
      simp [setAt, this]

/-- Data lines given as their leading integer fields, written in decimal, and
the text that stops the conversion: each line is counted as one record, the
leading integers are stored, and the other fields keep the value the array
element held before the call. -/
theorem read_csv_leading_fields (filename : String) (header : List Char)
    (lines : List (List Int × List Char)) (data0 : Nat → CurricularData)
    (hh : NL ∉ header) (hhl : header.length ≤ 254)
    (hlines : ∀ l ∈ lines, (∀ v ∈ l.1, inIntRange v) ∧ l.1.length ≤ 5 ∧
      stopsConversion l.1.length l.2 ∧ NL ∉ l.2 ∧ NUL ∉ l.2 ∧ (fieldLine l).length ≤ 254)
    (hcap : lines.length ≤ MAX_RECORDS) :
    ∃ res, read_csv_file filename
        (some (header ++ NL :: (lines.map (fun l => fieldLine l ++ [NL])).flatten)) data0 =
          some res
      ∧ res.count = lines.length
      ∧ ∀ i (hi : i < lines.length), res.data i = storeFields lines[i].1 (data0 i) := by
  have hl : ∀ l ∈ lines.map fieldLine, NL ∉ l ∧ l.length ≤ 254 := by
    intro l hl
    obtain ⟨x, hx, rfl⟩ := List.mem_map.1 hl
    obtain ⟨-, -, -, h4, h5, h6⟩ := hlines x hx
    exact ⟨(fieldLine_clean x h4 h5).1, h6⟩
  obtain ⟨res, hres, hcount, hdata⟩ :=
    read_csv_file_lines filename header (lines.map fieldLine) [] data0 hh hhl hl
      (by simpa using hcap) (Or.inl rfl)
  refine ⟨res, ?_, by simpa using hcount, ?_⟩
  · rw [← hres]
    simp [List.map_map, Function.comp_def]
  · intro i hi
    have := hdata i (by simpa using hi)
    rw [this]
    obtain ⟨h1, h2, h3, h4, h5, -⟩ := hlines lines[i] (List.getElem_mem _)
    have hfit := fieldLine_clean lines[i] h4 h5
    simp only [List.getElem_map]
    rw [cstr_line _ hfit.2]
    unfold fieldLine
    rw [List.append_assoc]
    exact sscanf_record_fields _ _ _ h1 h2 (stopsConversion_nl _ _ h3)

/-- The data lines `1,2,x,4,5` and `abc` read into an array that holds 7
everywhere. -/
theorem read_csv_leading_fields_example :
    ∃ res, read_csv_file "data/a1-data-curricular.csv"
        (some ("Record_ID,Hours_Studied,Attendance,Tutoring_Sessions,Exam_Score".toList ++
          NL :: (([([1, 2], ",x,4,5".toList), ([], "abc".toList)] :
            List (List Int × List Char)).map (fun l => fieldLine l ++ [NL])).flatten))
        (fun _ => ⟨7, 7, 7, 7, 7⟩) = some res
      ∧ res.count = ([([1, 2], ",x,4,5".toList), ([], "abc".toList)] :
            List (List Int × List Char)).length
      ∧ ∀ i (hi : i < ([([1, 2], ",x,4,5".toList), ([], "abc".toList)] :
            List (List Int × List Char)).length),
          res.data i = storeFields ([([1, 2], ",x,4,5".toList), ([], "abc".toList)] :
            List (List Int × List Char))[i].1
              ((fun _ => ⟨7, 7, 7, 7, 7⟩ : Nat → CurricularData) i) :=
  read_csv_leading_fields _ _ _ _ (by decide) (by decide)
    (by
      intro l hl
      simp only [List.mem_cons, List.mem_singleton, List.not_mem_nil, or_false] at hl
      rcases hl with rfl | rfl
      · refine ⟨by decide, by decide, ⟨by decide, fun _ => by decide, fun _ _ j hj => ?_⟩,
          by decide, by decide, by decide⟩
        cases hj
        decide
      · refine ⟨by decide, by decide, ⟨fun _ => by decide, fun h => absurd h (by decide),
          fun h => absurd h (by decide)⟩, by decide, by decide, by decide⟩)
    (by decide)

/-! ## The line behind the header -/

/-- The frame of the loop of `read_csv_file`: the index never goes down and
the elements below the starting index are left alone. -/
theorem read_csv_loop_frame (fuel : Nat) : ∀ (file : List Char) (data : Nat → CurricularData)
    (index : Nat) (res : Nat × (Nat → CurricularData)),
    read_csv_loop fuel file data index = some res →
    index ≤ res.1 ∧ ∀ j, j < index → res.2 j = data j := by
  induction fuel with
  | zero => intro file data index res h; simp [read_csv_loop] at h
  | succ f ih =>
    intro file data index res h
    rw [read_csv_loop] at h
    cases hg : fgets 256 file with
    | none =>
      rw [hg] at h
      simp only [Option.some.injEq] at h
      subst h
      exact ⟨le_refl _, fun _ _ => rfl⟩
    | some p =>
      obtain ⟨chunk, rest⟩ := p
      rw [hg] at h
      simp only [] at h
      split_ifs at h with h1
      · obtain ⟨hle, hfr⟩ := ih _ _ _ _ h
        refine ⟨by omega, fun j hj => ?_⟩
        rw [hfr j (by omega)]
        exact setAt_other _ _ _ _ (by omega)
      · simp only [Option.some.injEq] at h
        subst h
        exact ⟨le_refl _, fun _ _ => rfl⟩

/-- `read_csv_file` on a first line that fits the buffer: the records are
those the loop reads from the text behind the newline of the first line. -/
theorem read_csv_file_header (filename : String) (header rest : List Char)
    (data0 : Nat → CurricularData) (hh : NL ∉ header) (hhl : header.length ≤ 254) :
    read_csv_file filename (some (header ++ NL :: rest)) data0 =
      (read_csv_loop (rest.length + 1) rest data0 0).map
        (fun p => (⟨(p.1 : Int), p.2, []⟩ : Read CurricularData)) := by
  unfold read_csv_file
  simp only [fgets_line header rest hh hhl]
  cases read_csv_loop (rest.length + 1) rest data0 0 with
  | none => rfl
  | some p => rfl

/-- The line behind the first line, when it fits the buffer, makes record 0. -/
theorem read_csv_first_line (filename : String) (header line more : List Char)
    (data0 : Nat → CurricularData) (hh : NL ∉ header) (hhl : header.length ≤ 254)
    (hl : NL ∉ line) (hll : line.length ≤ 254) :
    ∃ res, read_csv_file filename (some (header ++ NL :: (line ++ NL :: more))) data0 = some res
      ∧ 1 ≤ res.count
      ∧ res.data 0 = sscanf_record (cstr (line ++ [NL])) (data0 0) := by
  rw [read_csv_file_header filename header _ data0 hh hhl, read_csv_loop,
    fgets_line line more hl hll]
  simp only []
  rw [if_pos (by decide)]
  obtain ⟨r, hr⟩ := read_csv_loop_total ((line ++ NL :: more).length) more
    (setAt data0 0 (sscanf_record (cstr (line ++ [NL])) (data0 0))) (0 + 1) (by simp; omega)
  obtain ⟨hle, hfr⟩ := read_csv_loop_frame _ _ _ _ _ hr
  rw [hr]
  refine ⟨_, rfl, ?_, ?_⟩
  · simp only [Option.map_some']
    exact_mod_cast hle
  · simp only [Option.map_some']
    rw [hfr 0 (by omega)]
    simp [setAt]

/-! ## Claims -/

/-- C1. Task 3 writes its header and then, in curricular read order, exactly one
row for each curricular record with `exam_score > 90` for which
`find_extracurricular` finds a record, and no other row: the five curricular
fields, then Yes or No after the found record's activity flag, then the found
record's `physical_activity` and `sleep_hours`; a found record has the id that
was looked up. -/
theorem task3_rows (csv_data : Nat → CurricularData) (num_csv : Int)
    (yaml_data : Nat → ExtracurricularData) (num_yaml : Int) :
    (dispatch 3 csv_data num_csv yaml_data num_yaml).output =
        ("Record_ID,Hours_Studied,Attendance,Tutoring_Sessions,Exam_Score,"
          ++ "Extracurricular_Activities,Physical_Activity,Sleep_Hours\n").toList ++
        ((records csv_data num_csv).filterMap (fun c =>
          if c.exam_score > 90 then
            (find_extracurricular c.record_id yaml_data num_yaml).map
              (fun ext => task3_row c (yaml_data ext))
          else none)).flatten
      ∧ ∀ id ext, find_extracurricular id yaml_data num_yaml = some ext →
          (yaml_data ext).record_ID = id := by
  constructor
  · have hd : (dispatch 3 csv_data num_csv yaml_data num_yaml).output =
        forLoop num_csv (task3_body csv_data yaml_data num_yaml)
          (fprintf [] ("Record_ID,Hours_Studied,Attendance,Tutoring_Sessions,Exam_Score,"
          ++ "Extracurricular_Activities,Physical_Activity,Sleep_Hours\n") []) := rfl
    rw [hd, header3_text, forLoop_rows csv_data num_csv (fun c =>
          if c.exam_score > 90 then
            (find_extracurricular c.record_id yaml_data num_yaml).map
              (fun ext => task3_row c (yaml_data ext))
          else none)]
    intro i s
    unfold task3_body
    by_cases h : (csv_data i).exam_score > 90
    · rw [if_pos h, if_pos h]
      cases hf : find_extracurricular (csv_data i).record_id yaml_data num_yaml with
      | none => simp
      | some ext => simp [task3_row_text]
    · rw [if_neg h, if_neg h]; simp
  · intro c ext h
    exact ((find_from_some c yaml_data _ 0 ext).1 h).2.2.1

/-- C2. Task 5 writes its header and then, in curricular read order, exactly the
rows (record_id, exam_score) of the curricular records for which the first
extracurricular record with that id exists and has `sleep_hours` at least the
curricular record's `hours_studied`; a record with `hours_studied` 4 is
written when its correlated `sleep_hours` is 6 and left out when it is 3. -/
theorem task5_rows (csv_data : Nat → CurricularData) (num_csv : Int)
    (yaml_data : Nat → ExtracurricularData) (num_yaml : Int) :
    (dispatch 5 csv_data num_csv yaml_data num_yaml).output =
        "Record_ID,Exam_Score\n".toList ++
        ((records csv_data num_csv).filterMap (fun c =>
          match (records yaml_data num_yaml).find?
              (fun e => decide (e.record_ID = c.record_id)) with
          | some e => if e.sleep_hours ≥ c.hours_studied then some (score_row c) else none
          | none => none)).flatten
      ∧ (dispatch 5 (fun _ => ⟨3, 4, 80, 1, 70⟩) 1 (fun _ => ⟨1, 2, 3, 6⟩) 1).output =
          "Record_ID,Exam_Score\n3,70\n".toList
      ∧ (dispatch 5 (fun _ => ⟨3, 4, 80, 1, 70⟩) 1 (fun _ => ⟨1, 2, 3, 3⟩) 1).output =
          "Record_ID,Exam_Score\n".toList := by
  refine ⟨?_, by decide, by decide⟩
  have hd : (dispatch 5 csv_data num_csv yaml_data num_yaml).output =
      forLoop num_csv (task5_body csv_data yaml_data num_yaml)
        (fprintf [] "Record_ID,Exam_Score\n" []) := rfl
  rw [hd, score_header_text, forLoop_rows csv_data num_csv (fun c =>
          match (records yaml_data num_yaml).find?
              (fun e => decide (e.record_ID = c.record_id)) with
          | some e => if e.sleep_hours ≥ c.hours_studied then some (score_row c) else none
          | none => none)]
  intro i s
  unfold task5_body
  rw [← find_extracurricular_find?]
  cases hf : find_extracurricular (csv_data i).record_id yaml_data num_yaml with
  | none => simp
  | some ext =>
    by_cases h : (yaml_data ext).sleep_hours ≥ (csv_data i).hours_studied
    · simp [h, score_row_text]
    · simp [h]

/-- C3. `find_extracurricular(id, data, n)` returns the element at index `i`
exactly when `i` is the least index below `n` whose `record_ID` is `id`, and
returns `NULL` exactly when no index below `n` has that `record_ID`. -/
theorem find_extracurricular_first (id : Int) (data : Nat → ExtracurricularData) (n : Int) :
    (∀ i : Nat, find_extracurricular id data n = some i ↔
        ((i : Int) < n ∧ (data i).record_ID = id ∧
          ∀ j : Nat, j < i → (data j).record_ID ≠ id))
      ∧ (find_extracurricular id data n = none ↔
          ∀ i : Nat, (i : Int) < n → (data i).record_ID ≠ id) := by
  unfold find_extracurricular
  constructor
  · intro i
    rw [find_from_some]
    constructor
    · rintro ⟨-, h2, h3, h4⟩
      exact ⟨by omega, h3, fun j hj => h4 j (Nat.zero_le _) hj⟩
    · rintro ⟨h1, h2, h3⟩
      exact ⟨Nat.zero_le _, by omega, h2, fun j _ hj => h3 j hj⟩
  · rw [find_from_none]
    constructor
    · intro h i hi
      exact h i (Nat.zero_le _) (by omega)
    · intro h i _ hi
      exact h i (by omega)

/-- C4, amended. For every input made of one list-item line `- K: v`
followed by three indented `K: v` lines that between them give
Extracurricular_Activities, Physical_Activity, Record_ID and Sleep_Hours, in
any order, with `int` values written in decimal and every line at most 254
characters long (so that the line and its newline fit the 256-byte buffer),
`read_yaml_file` returns 1 and the single record has `record_ID`,
`physical_activity` and `sleep_hours` equal to the written integers and its
activity flag 1 if the written activity value reads Yes and 0 otherwise. -/
theorem read_yaml_one_block (filename : String) (act : List Char) (pa rid sh : Int)
    (fields : List Field) (ind1 ind2 ind3 : List Char) (data0 : Nat → ExtracurricularData)
    (hperm : fields.Perm [Field.activity act, Field.physical pa, Field.id rid, Field.sleep sh])
    (hind : ∀ ind ∈ [ind1, ind2, ind3], ∀ c ∈ ind, isspace c = true ∧ c ≠ NL)
    (hwf : ∀ f ∈ fields, f.wellFormed)
    (hfit : ∀ l ∈ blockLines fields [ind1, ind2, ind3], l.length ≤ 254) :
    ∃ res, read_yaml_file filename (some (yamlBlock fields [ind1, ind2, ind3])) data0 = some res
      ∧ res.count = 1
      ∧ res.data 0 = ⟨if yesValue act = true then 1 else 0, pa, rid, sh⟩ := by
  have hlen4 : fields.length = 4 := by rw [hperm.length_eq]; rfl
  match fields, hlen4, hperm, hwf, hfit with
  | [f0, f1, f2, f3], _, hperm, hwf, hfit =>
    have hfile : yamlBlock [f0, f1, f2, f3] [ind1, ind2, ind3] =
        ("- ".toList ++ yamlLine [] f0) ++ NL :: (yamlLine ind1 f1 ++ NL ::
          (yamlLine ind2 f2 ++ NL :: (yamlLine ind3 f3 ++ NL :: []))) := by
      simp [yamlBlock, blockLines]
    have hfuel : ∃ k, (yamlBlock [f0, f1, f2, f3] [ind1, ind2, ind3]).length + 1 = k + 1 + 4 := by
      have := length_lines_le (blockLines [f0, f1, f2, f3] [ind1, ind2, ind3])
      refine ⟨(yamlBlock [f0, f1, f2, f3] [ind1, ind2, ind3]).length - 4, ?_⟩
      unfold yamlBlock
      simp only [blockLines, List.zipWith, List.length_cons, List.length_nil] at this ⊢
      omega
    obtain ⟨k, hk⟩ := hfuel
    have hfold := hperm.foldl_eq' (f := fun r (f : Field) => f.store r) (by
      intro x hx y hy z
      exact store_comm act pa rid sh x (hperm.mem_iff.1 hx) y (hperm.mem_iff.1 hy) z)
      (data0 0)
    have hrun : ∃ d, read_yaml_loop (k + 1 + 4)
          (yamlBlock [f0, f1, f2, f3] [ind1, ind2, ind3]) data0 (-1) = some (1, d)
        ∧ d 0 = f3.store (f2.store (f1.store (f0.store (data0 0)))) := by
      rw [hfile]
      rw [yaml_step_item (k + 1 + 3) f0 _ data0 (-1) (by decide) (hwf f0 (by simp))
        (hfit _ (by simp [blockLines]))]
      rw [yaml_step_field (k + 1 + 2) ind1 f1 _ _ (-1 + 1) (by decide) (hind ind1 (by simp))
        (hwf f1 (by simp)) (hfit _ (by simp [blockLines]))]
      rw [yaml_step_field (k + 1 + 1) ind2 f2 _ _ (-1 + 1) (by decide) (hind ind2 (by simp))
        (hwf f2 (by simp)) (hfit _ (by simp [blockLines]))]
      rw [yaml_step_field (k + 1) ind3 f3 _ _ (-1 + 1) (by decide) (hind ind3 (by simp))
        (hwf f3 (by simp)) (hfit _ (by simp [blockLines]))]
      rw [read_yaml_loop_eof]
      exact ⟨_, rfl, by simp [setAt]⟩
    obtain ⟨d, hd, hd0⟩ := hrun
    refine ⟨⟨1, d, []⟩, ?_, rfl, ?_⟩
    · unfold read_yaml_file
      simp only []
      rw [hk, hd]
    · simp only [List.foldl_cons, List.foldl_nil] at hfold
      show d 0 = _
      rw [hd0, hfold]
      rfl

/-- Witness of C4, amended: a block that gives the four keys in the order
Record_ID, Sleep_Hours, Extracurricular_Activities, Physical_Activity. -/
theorem read_yaml_one_block_witness :
    ∃ res, read_yaml_file "data/a1-data-extracurricular.yaml"
        (some (yamlBlock [Field.id 1, Field.sleep 7, Field.activity "'Yes'".toList,
          Field.physical 3] ["  ".toList, "  ".toList, "  ".toList]))
        (fun _ => ⟨5, 5, 5, 5⟩) = some res
      ∧ res.count = 1
      ∧ res.data 0 = ⟨if yesValue "'Yes'".toList = true then 1 else 0, 3, 1, 7⟩ :=
  read_yaml_one_block _ "'Yes'".toList 3 1 7 _ _ _ _ _ (by decide) (by decide)
    (by
      intro f hf
      simp only [List.mem_cons, List.mem_singleton, List.not_mem_nil, or_false] at hf
      rcases hf with rfl | rfl | rfl | rfl <;> simp only [Field.wellFormed] <;> decide)
    (by decide)

set_option maxRecDepth 100000 in
/-- C4 as stated fails: in the block `- Record_ID: 7`,
`Extracurricular_Activities: Yes`, `Physical_Activity: 3`, `Sleep_Hours: 8`, with
the last line indented by 250
spaces, the last line does not fit the 256-byte buffer; `fgets` splits it
after `Sleep`, neither part is a known key, and `sleep_hours` keeps the value
the array held (0 here) instead of the written 8. -/
theorem read_yaml_one_block_long_line :
    (read_yaml_file "data/a1-data-extracurricular.yaml"
        (some (yamlBlock [Field.id 7, Field.activity "Yes".toList, Field.physical 3,
          Field.sleep 8] ["  ".toList, "  ".toList, List.replicate 250 ' ']))
        (fun _ => ⟨0, 0, 0, 0⟩)).map (fun r => (r.count, r.data 0)) =
      some (1, ⟨1, 3, 7, 0⟩) := by
  decide

set_option maxRecDepth 100000 in
/-- C5, the code at the claim's own example: on `records:`, then the line
`  - Record_ID: 7` with two spaces before the dash, `read_yaml_file` returns 0
and stores nothing, because the pointer `trim_whitespace` returns is dropped
and the buffer keeps its leading spaces; with the dash in the first column it
returns 1 and stores `record_ID` 7. -/
theorem indented_list_item_not_started :
    (read_yaml_file "data/a1-data-extracurricular.yaml"
        (some "records:\n  - Record_ID: 7\n".toList)
        (fun _ => ⟨0, 0, 0, 0⟩)).map (fun r => (r.count, r.data 0)) =
      some (0, ⟨0, 0, 0, 0⟩)
    ∧ (read_yaml_file "data/a1-data-extracurricular.yaml"
        (some "records:\n- Record_ID: 7\n".toList)
        (fun _ => ⟨0, 0, 0, 0⟩)).map (fun r => (r.count, r.data 0)) =
      some (1, ⟨0, 0, 7, 0⟩) := by
  decide

/-- C6. For every key:value line with the key `Extracurricular_Activities`
(white space allowed around the key), `process_yaml_line` sets the activity
flag to 1 if the value, trimmed, freed from one surrounding pair of single
quotes and trimmed again, is the literal `Yes`, and to 0 otherwise, and it
leaves the other fields alone; `'Yes'` and `Yes` give 1, `'No'`, `No`, `yes`
and `''Yes''` give 0, and so does every other token: among the values free of
white space only `Yes` and `'Yes'` read Yes. -/
theorem activity_flag_quote_stripping (ws1 ws2 value : List Char)
    (record : ExtracurricularData)
    (h1 : ∀ c ∈ ws1, isspace c = true) (h2 : ∀ c ∈ ws2, isspace c = true) :
    process_yaml_line
        (ws1 ++ "Extracurricular_Activities".toList ++ ws2 ++ ':' :: value) record =
      { record with extracurricular_activities := if yesValue value = true then 1 else 0 }
    ∧ process_yaml_line "Extracurricular_Activities: 'Yes'".toList ⟨5, 1, 2, 3⟩ = ⟨1, 1, 2, 3⟩
    ∧ process_yaml_line "Extracurricular_Activities: Yes".toList ⟨5, 1, 2, 3⟩ = ⟨1, 1, 2, 3⟩
    ∧ process_yaml_line "Extracurricular_Activities: 'No'".toList ⟨5, 1, 2, 3⟩ = ⟨0, 1, 2, 3⟩
    ∧ process_yaml_line "Extracurricular_Activities: No".toList ⟨5, 1, 2, 3⟩ = ⟨0, 1, 2, 3⟩
    ∧ process_yaml_line "Extracurricular_Activities: yes".toList ⟨5, 1, 2, 3⟩ = ⟨0, 1, 2, 3⟩
    ∧ process_yaml_line "Extracurricular_Activities: ''Yes''".toList ⟨5, 1, 2, 3⟩ =
        ⟨0, 1, 2, 3⟩
    ∧ ((∀ c ∈ value, isspace c = false) →
        (yesValue value = true ↔ (value = "Yes".toList ∨ value = "'Yes'".toList))) := by
  exact ⟨process_activity_line ws1 ws2 value record h1 h2,
    by decide, by decide, by decide, by decide, by decide, by decide,
    yesValue_token value⟩

/-- Witness of C6: the line `  Extracurricular_Activities : ' Yes '`, with
white space around the key and inside the quotes. -/
theorem activity_flag_quote_stripping_witness :
    process_yaml_line "  Extracurricular_Activities : ' Yes '".toList ⟨5, 1, 2, 3⟩ =
      ⟨1, 1, 2, 3⟩ :=
  (activity_flag_quote_stripping "  ".toList " ".toList " ' Yes '".toList ⟨5, 1, 2, 3⟩
    (by decide) (by decide)).1

/-- C7, amended. For every file made of a header line of at most 254
characters (so that the line and its newline fit the 256-byte buffer)
followed by N data lines that hold five `int` values each, written in
decimal and separated by commas, `read_csv_file` returns N when N <= 6608 and
6608 otherwise, and record `i` holds the five integers of data line `i` in the
order record_id, hours_studied, attendance, tutoring_sessions, exam_score. -/
theorem read_csv_round_trip (filename : String) (header : List Char)
    (rows : List CurricularData) (data0 : Nat → CurricularData)
    (hh : NL ∉ header) (hhl : header.length ≤ 254)
    (hrows : ∀ r ∈ rows, intFields r) :
    ∃ res, read_csv_file filename
        (some (header ++ NL :: (rows.map (fun r => recordLine r ++ [NL])).flatten)) data0 =
          some res
      ∧ res.count = min rows.length MAX_RECORDS
      ∧ ∀ i (hi : i < rows.length), i < MAX_RECORDS → res.data i = rows[i] := by
  have hl : ∀ l ∈ (rows.take MAX_RECORDS).map recordLine, NL ∉ l ∧ l.length ≤ 254 := by
    intro l hl
    obtain ⟨x, hx, rfl⟩ := List.mem_map.1 hl
    have := sscanf_recordLine x x (hrows x (List.mem_of_mem_take hx))
    exact ⟨this.1, this.2.1⟩
  have hend : ((rows.drop MAX_RECORDS).map (fun r => recordLine r ++ [NL])).flatten = [] ∨
      ((rows.take MAX_RECORDS).map recordLine).length = MAX_RECORDS := by
    by_cases h : rows.length ≤ MAX_RECORDS
    · left; rw [List.drop_of_length_le h]; rfl
    · right; simp; omega
  obtain ⟨res, hres, hcount, hdata⟩ :=
    read_csv_file_lines filename header ((rows.take MAX_RECORDS).map recordLine)
      (((rows.drop MAX_RECORDS).map (fun r => recordLine r ++ [NL])).flatten) data0 hh hhl hl
      (by simp) hend
  refine ⟨res, ?_, ?_, ?_⟩
  · rw [← hres]
    have hsplit : (rows.map (fun r => recordLine r ++ [NL])).flatten =
        ((rows.take MAX_RECORDS).map (fun r => recordLine r ++ [NL])).flatten ++
          ((rows.drop MAX_RECORDS).map (fun r => recordLine r ++ [NL])).flatten := by
      rw [← List.flatten_append, ← List.map_append, List.take_append_drop]
    rw [hsplit, List.map_map]
    rfl
  · rw [hcount]
    simp
    omega
  · intro i hi hcap
    have hi2 : i < ((rows.take MAX_RECORDS).map recordLine).length := by simp; omega
    rw [hdata i hi2]
    simp only [List.getElem_map, List.getElem_take]
    exact (sscanf_recordLine rows[i] (data0 i) (hrows _ (List.getElem_mem _))).2.2

/-- Witness of C7, amended: a header and the two data lines `1,5,90,2,95` and
`2,3,80,1,85`. -/
theorem read_csv_round_trip_witness :
    ∃ res, read_csv_file "data/a1-data-curricular.csv"
        (some ("Record_ID,Hours_Studied,Attendance,Tutoring_Sessions,Exam_Score".toList ++
          NL :: (([⟨1, 5, 90, 2, 95⟩, ⟨2, 3, 80, 1, 85⟩] : List CurricularData).map
            (fun r => recordLine r ++ [NL])).flatten))
        (fun _ => ⟨7, 7, 7, 7, 7⟩) = some res
      ∧ res.count = min ([⟨1, 5, 90, 2, 95⟩, ⟨2, 3, 80, 1, 85⟩] : List CurricularData).length
          MAX_RECORDS
      ∧ ∀ i (hi : i < ([⟨1, 5, 90, 2, 95⟩, ⟨2, 3, 80, 1, 85⟩] : List CurricularData).length),
          i < MAX_RECORDS →
          res.data i = ([⟨1, 5, 90, 2, 95⟩, ⟨2, 3, 80, 1, 85⟩] : List CurricularData)[i] :=
  read_csv_round_trip _ _ _ _ (by decide) (by decide)
    (by
      intro r hr
      simp only [List.mem_cons, List.mem_singleton, List.not_mem_nil, or_false] at hr
      rcases hr with rfl | rfl <;> simp only [intFields] <;> decide)

set_option maxRecDepth 100000 in
/-- C7 as stated fails: for a header line of 255 characters followed by the
one data line `1,2,3,4,5`, the first `fgets` takes the 255 characters and
leaves the newline of the header, which is then counted as a data line:
`read_csv_file` returns 2, not 1, record 0 is what the array held, and the
data line lands in record 1. -/
theorem read_csv_long_header :
    (read_csv_file "data/a1-data-curricular.csv"
        (some (List.replicate 255 'x' ++
          NL :: (([⟨1, 2, 3, 4, 5⟩] : List CurricularData).map
            (fun r => recordLine r ++ [NL])).flatten))
        (fun _ => ⟨0, 0, 0, 0, 0⟩)).map (fun r => (r.count, r.data 0, r.data 1)) =
      some (2, ⟨0, 0, 0, 0, 0⟩, ⟨1, 2, 3, 4, 5⟩) := by
  decide

/-- C8, amended. In a tabular file whose first line and data lines have at
most 254 characters each before their newline (the last line may lack its
newline), with at most `MAX_RECORDS` data lines, every data line is counted as
one record, whatever its text.  The record is made from the comma-separated
fields of the line (of its text before a NUL byte, if it holds one), taken
from left to right, at most five of them: a field that begins with an integer
as `%d` accepts it (white space, an optional sign, digits) stores that
integer, also when other text follows the digits, as in `2x`, `2.5` or `2 `;
the next field is looked at only when the field is nothing but the integer;
conversion ends at the first field that does not begin with an integer.
Every field of the record that is not stored keeps the value the array element
held before the call: no field is set to 0.  A field begins with no integer
exactly when it does not start with white space, an optional sign and a digit;
a field written as the decimal text of an `int` begins with that `int`. -/
theorem read_csv_malformed (filename : String) (header : List Char)
    (lines : List (List Char)) (last : List Char) (data0 : Nat → CurricularData)
    (hh : NL ∉ header) (hhl : header.length ≤ 254)
    (hlines : ∀ l ∈ lines, NL ∉ l ∧ l.length ≤ 254)
    (hlast : NL ∉ last ∧ last.length ≤ 254)
    (hcap : lines.length + (if last = [] then 0 else 1) ≤ MAX_RECORDS) :
    (∃ res, read_csv_file filename
        (some (header ++ NL :: ((lines.map (fun l => l ++ [NL])).flatten ++ last))) data0 =
          some res
      ∧ res.count = ((lines.length + (if last = [] then 0 else 1) : Nat) : Int)
      ∧ (∀ i (hi : i < lines.length),
          res.data i = storeFields (lineInts (cstr lines[i])) (data0 i))
      ∧ (last ≠ [] →
          res.data lines.length = storeFields (lineInts (cstr last)) (data0 lines.length)))
    ∧ (∀ field : List Char, fieldInt field = none ↔ startsInteger field = false)
    ∧ (∀ (v : Int) (tail : List Char), inIntRange v →
        (∀ c ∈ tail.head?, isdigit c = false) →
        fieldInt (showInt v ++ tail) = some v ∧
          (fieldIsInt (showInt v ++ tail) = true ↔ tail = []))
    ∧ (lineInts "1,2,3,4,5".toList = [1, 2, 3, 4, 5]
      ∧ lineInts " 1, +2,-3,04,  5 and more".toList = [1, 2, -3, 4, 5]
      ∧ lineInts "1,2,3,4,5,6".toList = [1, 2, 3, 4, 5]
      ∧ lineInts "1,2x,3,4,5".toList = [1, 2]
      ∧ lineInts "1,2.5,3,4,5".toList = [1, 2]
      ∧ lineInts "1,2 ,3,4,5".toList = [1, 2]
      ∧ lineInts "1,2,x,4,5".toList = [1, 2]
      ∧ lineInts "1,,3,4,5".toList = [1]
      ∧ lineInts "abc,1,2,3,4".toList = []
      ∧ lineInts [] = []) := by
  refine ⟨?_, fieldInt_none, fieldInt_showInt, by decide⟩
  obtain ⟨res, h1, h2, h3, h4⟩ :=
    read_csv_file_text filename header lines last data0 hh hhl hlines hlast hcap
  refine ⟨res, h1, h2, fun i hi => ?_, fun h => ?_⟩
  · rw [h3 i hi, sscanf_record_line]
  · rw [h4 h, sscanf_record_text]

set_option maxRecDepth 100000 in
/-- Witness of C8, amended: the data lines `1,2x,3,4,5`, ` 1,2,3,4,5`,
`abc,1,2,3,4` and a last line `1,2 ,3,4,5` without newline, read into an array
that holds 7 everywhere, give four records: (1,2,7,7,7), (1,2,3,4,5),
(7,7,7,7,7) and (1,2,7,7,7). -/
theorem read_csv_malformed_witness :
    (∃ res, read_csv_file "data/a1-data-curricular.csv"
        (some ("Record_ID,Hours_Studied,Attendance,Tutoring_Sessions,Exam_Score".toList ++
          NL :: ((["1,2x,3,4,5".toList, " 1,2,3,4,5".toList, "abc,1,2,3,4".toList].map
            (fun l => l ++ [NL])).flatten ++ "1,2 ,3,4,5".toList)))
        (fun _ => ⟨7, 7, 7, 7, 7⟩) = some res
      ∧ res.count = 4
      ∧ res.data 0 = ⟨1, 2, 7, 7, 7⟩ ∧ res.data 1 = ⟨1, 2, 3, 4, 5⟩
      ∧ res.data 2 = ⟨7, 7, 7, 7, 7⟩ ∧ res.data 3 = ⟨1, 2, 7, 7, 7⟩) := by
  obtain ⟨res, h1, h2, h3, h4⟩ :=
    (read_csv_malformed "data/a1-data-curricular.csv"
      "Record_ID,Hours_Studied,Attendance,Tutoring_Sessions,Exam_Score".toList
      ["1,2x,3,4,5".toList, " 1,2,3,4,5".toList, "abc,1,2,3,4".toList]
      "1,2 ,3,4,5".toList (fun _ => ⟨7, 7, 7, 7, 7⟩)
      (by decide) (by decide) (by decide) (by decide) (by decide)).1
  refine ⟨res, h1, h2, ?_, ?_, ?_, ?_⟩
  · rw [h3 0 (by decide)]; decide
  · rw [h3 1 (by decide)]; decide
  · rw [h3 2 (by decide)]; decide
  · exact (h4 (by decide)).trans (by decide)

set_option maxRecDepth 100000 in
/-- C8 as stated fails: the data line `abc,1,2,3,4`, read into an array that
holds 7 in every field, is counted as one record, but `record_id`, which fails
to parse, is left at 7 and not set to 0, and so are the four fields behind it. -/
theorem read_csv_unparsed_field_kept :
    (read_csv_file "data/a1-data-curricular.csv"
        (some ("Record_ID,Hours_Studied,Attendance,Tutoring_Sessions,Exam_Score\n"
          ++ "abc,1,2,3,4\n").toList)
        (fun _ => ⟨7, 7, 7, 7, 7⟩)).map (fun r => (r.count, r.data 0)) =
      some (1, ⟨7, 7, 7, 7, 7⟩) := by
  decide

/-- C9, amended. For every argument list that is not exactly one argument
starting with the seven characters `--TASK=` (a wrong argument count, or
another flag such as `-t=1`), `main` prints the usage message and exits with
status 1 without opening either input file or the output file. -/
theorem usage_check (prog : List Char) (args : List (List Char)) (files : Files)
    (task0 : Int) (csv_data0 : Nat → CurricularData) (yaml_data0 : Nat → ExtracurricularData)
    (h : ∀ arg, args = [arg] → arg.take 7 ≠ "--TASK=".toList) :
    main prog args files task0 csv_data0 yaml_data0 =
      some ⟨1, "Usage: ".toList ++ prog ++ " --TASK=\"<task_number>\"\n".toList,
        [], none⟩ := by
  have hfmt : format "Usage: %s --TASK=\"<task_number>\"\n".toList [PrintfArg.str prog] =
      "Usage: ".toList ++ prog ++ " --TASK=\"<task_number>\"\n".toList := by
    simp [format]
  unfold main
  match args, h with
  | [], _ => simp only [hfmt]
  | [arg], h => simp only [if_pos (h arg rfl), hfmt]
  | _ :: _ :: _, _ => simp only [hfmt]

/-- Witness of C9, amended: the argument `-t=1`. -/
theorem usage_check_witness :
    main "./spf_analyzer".toList ["-t=1".toList]
        ⟨some "Record_ID,Exam_Score\n1,95\n".toList, some "- Record_ID: 1\n".toList, true⟩ 0
        (fun _ => ⟨0, 0, 0, 0, 0⟩) (fun _ => ⟨0, 0, 0, 0⟩) =
      some ⟨1, "Usage: ".toList ++ "./spf_analyzer".toList ++
        " --TASK=\"<task_number>\"\n".toList, [], none⟩ :=
  usage_check _ _ _ _ _ _ (by
    intro arg h
    cases h
    decide)

set_option maxRecDepth 100000 in
/-- C9 as stated fails: the single argument `--TASK=1abc` is not of the form
`--TASK=<integer>`, yet `main` does not print the usage message: it opens the
two input files and the output file, runs task 1 and exits with status 0. -/
theorem usage_check_trailing_text :
    isTaskFlag "--TASK=1abc".toList = false
    ∧ main "./spf_analyzer".toList ["--TASK=1abc".toList]
        ⟨some ("Record_ID,Hours_Studied,Attendance,Tutoring_Sessions,Exam_Score\n"
            ++ "1,5,90,2,95\n").toList,
          some "records:\n- Record_ID: 1\n".toList, true⟩ 0
        (fun _ => ⟨0, 0, 0, 0, 0⟩) (fun _ => ⟨0, 0, 0, 0⟩) =
      some ⟨0, [],
        ["data/a1-data-curricular.csv", "data/a1-data-extracurricular.yaml", "output.csv"],
        some "Record_ID,Exam_Score\n1,95\n".toList⟩ := by
  decide

/-- C10. For every task outside 1..6 the dispatcher prints the invalid-task
error, returns status 1 and writes nothing to the output, whatever the record
sequences; for every task in 1..6 it returns status 0. -/
theorem dispatch_invalid_task (task : Int) (csv_data : Nat → CurricularData)
    (num_csv : Int) (yaml_data : Nat → ExtracurricularData) (num_yaml : Int) :
    ((task < 1 ∨ 6 < task) →
        dispatch task csv_data num_csv yaml_data num_yaml =
          ⟨1, "Error: Invalid task number\n".toList, []⟩)
      ∧ ((1 ≤ task ∧ task ≤ 6) →
        (dispatch task csv_data num_csv yaml_data num_yaml).status = 0) := by
  constructor
  · intro h
    unfold dispatch
    rw [if_neg (by omega), if_neg (by omega), if_neg (by omega), if_neg (by omega),
      if_neg (by omega), if_neg (by omega)]
    rfl
  · rintro ⟨h1, h2⟩
    have hcases : task = 1 ∨ task = 2 ∨ task = 3 ∨ task = 4 ∨ task = 5 ∨ task = 6 := by omega
    rcases hcases with h | h | h | h | h | h <;> subst h <;> rfl

/-- Witness of C10: the tasks 7, 0 and -1 on one record of each kind are
refused with nothing written, task 3 on the same records returns 0. -/
theorem dispatch_invalid_task_witness :
    dispatch 7 (fun _ => ⟨1, 5, 90, 2, 95⟩) 1 (fun _ => ⟨1, 3, 1, 7⟩) 1 =
        ⟨1, "Error: Invalid task number\n".toList, []⟩
      ∧ dispatch 0 (fun _ => ⟨1, 5, 90, 2, 95⟩) 1 (fun _ => ⟨1, 3, 1, 7⟩) 1 =
        ⟨1, "Error: Invalid task number\n".toList, []⟩
      ∧ dispatch (-1) (fun _ => ⟨1, 5, 90, 2, 95⟩) 1 (fun _ => ⟨1, 3, 1, 7⟩) 1 =
        ⟨1, "Error: Invalid task number\n".toList, []⟩
      ∧ (dispatch 3 (fun _ => ⟨1, 5, 90, 2, 95⟩) 1 (fun _ => ⟨1, 3, 1, 7⟩) 1).status = 0 :=
  ⟨(dispatch_invalid_task 7 _ 1 _ 1).1 (Or.inr (by decide)),
   (dispatch_invalid_task 0 _ 1 _ 1).1 (Or.inl (by decide)),
   (dispatch_invalid_task (-1) _ 1 _ 1).1 (Or.inl (by decide)),
   (dispatch_invalid_task 3 _ 1 _ 1).2 ⟨by decide, by decide⟩⟩

/-- C11. Task 1 writes its header and then exactly the rows (record_id,
exam_score) of the curricular records with `exam_score > 90`, in read order
and nothing else; for the records (1,5,90,2,95), (2,3,80,1,85) the only data
row is `1,95`. -/
theorem task1_rows (csv_data : Nat → CurricularData) (num_csv : Int)
    (yaml_data : Nat → ExtracurricularData) (num_yaml : Int) :
    (dispatch 1 csv_data num_csv yaml_data num_yaml).output =
        "Record_ID,Exam_Score\n".toList ++
        (((records csv_data num_csv).filter (fun c => decide (c.exam_score > 90))).map
          score_row).flatten
      ∧ (dispatch 1 (fun i => if i = 0 then ⟨1, 5, 90, 2, 95⟩ else ⟨2, 3, 80, 1, 85⟩) 2
          yaml_data num_yaml).output = "Record_ID,Exam_Score\n1,95\n".toList := by
  have hgen : ∀ (cd : Nat → CurricularData) (n : Int),
      (dispatch 1 cd n yaml_data num_yaml).output =
        "Record_ID,Exam_Score\n".toList ++
        (((records cd n).filter (fun c => decide (c.exam_score > 90))).map
          score_row).flatten := by
    intro cd n
    have hd : (dispatch 1 cd n yaml_data num_yaml).output =
        forLoop n (task1_body cd) (fprintf [] "Record_ID,Exam_Score\n" []) := rfl
    rw [hd, score_header_text, forLoop_rows cd n
      (fun c => if c.exam_score > 90 then some (score_row c) else none) (task1_body_rows cd),
      filterMap_if]
  refine ⟨hgen _ _, ?_⟩
  rw [hgen]
  decide

/-- C12. Task 4 writes its header and then exactly the rows (record_id,
exam_score) of the curricular records with `attendance` equal to 100, in read
order and nothing else; for the records (1,5,100,2,75), (2,3,90,1,85) the only
data row is `1,75`. -/
theorem task4_rows (csv_data : Nat → CurricularData) (num_csv : Int)
    (yaml_data : Nat → ExtracurricularData) (num_yaml : Int) :
    (dispatch 4 csv_data num_csv yaml_data num_yaml).output =
        "Record_ID,Exam_Score\n".toList ++
        (((records csv_data num_csv).filter (fun c => decide (c.attendance = 100))).map
          score_row).flatten
      ∧ (dispatch 4 (fun i => if i = 0 then ⟨1, 5, 100, 2, 75⟩ else ⟨2, 3, 90, 1, 85⟩) 2
          yaml_data num_yaml).output = "Record_ID,Exam_Score\n1,75\n".toList := by
  have hgen : ∀ (cd : Nat → CurricularData) (n : Int),
      (dispatch 4 cd n yaml_data num_yaml).output =
        "Record_ID,Exam_Score\n".toList ++
        (((records cd n).filter (fun c => decide (c.attendance = 100))).map
          score_row).flatten := by
    intro cd n
    have hd : (dispatch 4 cd n yaml_data num_yaml).output =
        forLoop n (task4_body cd) (fprintf [] "Record_ID,Exam_Score\n" []) := rfl
    rw [hd, score_header_text, forLoop_rows cd n
      (fun c => if c.attendance = 100 then some (score_row c) else none) (task4_body_rows cd),
      filterMap_if]
  refine ⟨hgen _ _, ?_⟩
  rw [hgen]
  decide

/-- C13. Task 6 writes its header and then, in curricular read order, exactly
one row (record_id, exam_score, Yes or No) for each curricular record with
`exam_score < 60` that has an extracurricular record with its id; the third
field is Yes exactly when the activity flag of the first such record is set.
A record with `exam_score` exactly 60 is not written: of the records
(1,5,90,2,60) and (2,3,80,1,59), both correlated, only `2,59,No` is. -/
theorem task6_rows (csv_data : Nat → CurricularData) (num_csv : Int)
    (yaml_data : Nat → ExtracurricularData) (num_yaml : Int) :
    (dispatch 6 csv_data num_csv yaml_data num_yaml).output =
        "Record_ID,Exam_Score,Extracurricular_Activities\n".toList ++
        ((records csv_data num_csv).filterMap (fun c =>
          if c.exam_score < 60 then
            ((records yaml_data num_yaml).find?
              (fun e => decide (e.record_ID = c.record_id))).map (fun e => task6_row c e)
          else none)).flatten
      ∧ (∀ c e, task6_row c e = csvLine [showInt c.record_id, showInt c.exam_score,
          if e.extracurricular_activities ≠ 0 then "Yes".toList else "No".toList])
      ∧ (dispatch 6 (fun i => if i = 0 then ⟨1, 5, 90, 2, 60⟩ else ⟨2, 3, 80, 1, 59⟩) 2
          (fun i => if i = 0 then ⟨1, 3, 1, 7⟩ else ⟨0, 2, 2, 8⟩) 2).output =
          "Record_ID,Exam_Score,Extracurricular_Activities\n2,59,No\n".toList := by
  refine ⟨?_, fun _ _ => rfl, by decide⟩
  have hd : (dispatch 6 csv_data num_csv yaml_data num_yaml).output =
      forLoop num_csv (task6_body csv_data yaml_data num_yaml)
        (fprintf [] "Record_ID,Exam_Score,Extracurricular_Activities\n" []) := rfl
  rw [hd, header6_text, forLoop_rows csv_data num_csv
    (fun c => if c.exam_score < 60 then
        (find_extracurricular c.record_id yaml_data num_yaml).map
          (fun ext => task6_row c (yaml_data ext))
      else none) (task6_body_rows csv_data yaml_data num_yaml)]
  congr 3
  funext c
  by_cases h : c.exam_score < 60
  · rw [if_pos h, if_pos h, ← find_extracurricular_find?, Option.map_map]
    rfl
  · rw [if_neg h, if_neg h]

/-- C14. Task 2 writes its header and then exactly one row per extracurricular
record, in the order of the extracurricular sequence, with the fields activity
(Yes if the flag is set, else No), physical_activity, record_id, sleep_hours;
the output is the same for every curricular sequence. -/
theorem task2_rows (csv_data : Nat → CurricularData) (num_csv : Int)
    (yaml_data : Nat → ExtracurricularData) (num_yaml : Int) :
    (dispatch 2 csv_data num_csv yaml_data num_yaml).output =
        "Extracurricular_Activities,Physical_Activity,Record_ID,Sleep_Hours\n".toList ++
        ((records yaml_data num_yaml).map task2_row).flatten
      ∧ (∀ e, task2_row e = csvLine
          [if e.extracurricular_activities ≠ 0 then "Yes".toList else "No".toList,
            showInt e.physical_activity, showInt e.record_ID, showInt e.sleep_hours])
      ∧ (∀ (other_csv : Nat → CurricularData) (other_num : Int),
          (dispatch 2 other_csv other_num yaml_data num_yaml).output =
            (dispatch 2 csv_data num_csv yaml_data num_yaml).output) := by
  refine ⟨?_, fun _ => rfl, fun _ _ => rfl⟩
  have hd : (dispatch 2 csv_data num_csv yaml_data num_yaml).output =
      forLoop num_yaml (task2_body yaml_data)
        (fprintf [] "Extracurricular_Activities,Physical_Activity,Record_ID,Sleep_Hours\n"
          []) := rfl
  rw [hd, header2_text, forLoop_rows yaml_data num_yaml (fun e => some (task2_row e))
    (task2_body_rows yaml_data)]
  congr 2
  induction records yaml_data num_yaml with
  | nil => rfl
  | cons e l ih => simp [List.filterMap_cons, ih]

set_option maxRecDepth 100000 in
/-- C15. For every task 1..6 and every pair of record sequences, empty ones
included, the first line of the output is the header of the task: the output
is that header, a newline, and the data rows.  The headers are
`Record_ID,Exam_Score` for the tasks 1, 4 and 5,
`Extracurricular_Activities,Physical_Activity,Record_ID,Sleep_Hours` for task 2,
the eight columns from `Record_ID` to `Sleep_Hours` for task 3 and
`Record_ID,Exam_Score,Extracurricular_Activities` for task 6. -/
theorem header_line (task : Int) (csv_data : Nat → CurricularData) (num_csv : Int)
    (yaml_data : Nat → ExtracurricularData) (num_yaml : Int) (h : 1 ≤ task ∧ task ≤ 6) :
    firstLine (dispatch task csv_data num_csv yaml_data num_yaml).output =
        (headerOf task).toList
      ∧ (∃ rows, (dispatch task csv_data num_csv yaml_data num_yaml).output =
          (headerOf task).toList ++ NL :: rows)
      ∧ headerOf 1 = "Record_ID,Exam_Score"
      ∧ headerOf 4 = "Record_ID,Exam_Score"
      ∧ headerOf 5 = "Record_ID,Exam_Score"
      ∧ headerOf 2 = "Extracurricular_Activities,Physical_Activity,Record_ID,Sleep_Hours"
      ∧ headerOf 3 = "Record_ID,Hours_Studied,Attendance,Tutoring_Sessions,Exam_Score,"
          ++ "Extracurricular_Activities,Physical_Activity,Sleep_Hours"
      ∧ headerOf 6 = "Record_ID,Exam_Score,Extracurricular_Activities" := by
  obtain ⟨rows, hrows⟩ := dispatch_header task csv_data num_csv yaml_data num_yaml h
  refine ⟨?_, ⟨rows, hrows⟩, by decide, by decide, by decide, by decide, by decide, by decide⟩
  rw [hrows]
  exact takeWhile_ne_stop NL _ rows (header_no_newline task)

/-- Witness of C15: task 3 on two empty sequences. -/
theorem header_line_witness :
    firstLine (dispatch 3 (fun _ => ⟨1, 5, 90, 2, 95⟩) 0 (fun _ => ⟨1, 3, 1, 7⟩) 0).output =
      (headerOf 3).toList :=
  (header_line 3 _ 0 _ 0 ⟨by decide, by decide⟩).1

/-- C16, the code on a file of 6609 list-item lines `- Record_ID: 1`:
`read_yaml_file` returns 6609, one more than `MAX_RECORDS`, and the index 6608,
which lies below the returned count, is the index of no stored record: that
element is as it was before the call (and lies outside the arrays of `main`,
which have `MAX_RECORDS` elements). -/
theorem read_yaml_count_exceeds_cap :
    ∃ res, read_yaml_file "data/a1-data-extracurricular.yaml"
        (some (itemsFile (List.replicate 6609 (Field.id 1)))) (fun _ => ⟨0, 0, 0, 0⟩) = some res
      ∧ res.count = 6609
      ∧ res.data 6608 = ⟨0, 0, 0, 0⟩ := by
  obtain ⟨res, h1, h2, h3⟩ := read_yaml_over_cap "data/a1-data-extracurricular.yaml"
    (List.replicate 6609 (Field.id 1)) (fun _ => ⟨0, 0, 0, 0⟩)
    (by
      intro f hf
      rw [List.eq_of_mem_replicate hf]
      exact ⟨by simp only [Field.wellFormed]; decide, by decide⟩)
    (by rw [List.length_replicate]; decide)
  exact ⟨res, h1, by rw [h2]; rfl, h3 6608 (by decide)⟩

/-- C17, amended. `read_csv_file` discards exactly the first line, whatever
its content, when the line is at most 254 characters long before its newline
(so that one `fgets` into the 256-byte buffer takes it whole): two files that
differ only in such a first line give the same result; an empty file, a file
of one such line and a file of one such line without a newline give zero
records; the records are those the reading loop makes, from index 0, of the
text behind the newline of the first line; so the line behind the first line
makes record 0 (a line that holds five `int` values makes the record of these
values), and when the lines behind the first line fit the buffer and the
array, the count is their number and line `i` of them makes record `i`. -/
theorem header_discard (filename : String) (header1 header2 rest : List Char)
    (data0 : Nat → CurricularData)
    (h1 : NL ∉ header1) (hl1 : header1.length ≤ 254)
    (h2 : NL ∉ header2) (hl2 : header2.length ≤ 254) :
    read_csv_file filename (some (header1 ++ NL :: rest)) data0 =
        read_csv_file filename (some (header2 ++ NL :: rest)) data0
      ∧ read_csv_file filename (some []) data0 = some ⟨0, data0, []⟩
      ∧ read_csv_file filename (some (header1 ++ [NL])) data0 = some ⟨0, data0, []⟩
      ∧ read_csv_file filename (some header1) data0 = some ⟨0, data0, []⟩
      ∧ read_csv_file filename (some (header1 ++ NL :: rest)) data0 =
          (read_csv_loop (rest.length + 1) rest data0 0).map
            (fun p => (⟨(p.1 : Int), p.2, []⟩ : Read CurricularData))
      ∧ (∀ line more : List Char, NL ∉ line → line.length ≤ 254 →
          ∃ res, read_csv_file filename (some (header1 ++ NL :: (line ++ NL :: more))) data0 =
              some res
            ∧ 1 ≤ res.count
            ∧ res.data 0 = sscanf_record (cstr (line ++ [NL])) (data0 0))
      ∧ (∀ (r : CurricularData) (more : List Char), intFields r →
          ∃ res, read_csv_file filename
              (some (header1 ++ NL :: (recordLine r ++ NL :: more))) data0 = some res
            ∧ 1 ≤ res.count ∧ res.data 0 = r)
      ∧ (∀ lines : List (List Char), (∀ l ∈ lines, NL ∉ l ∧ l.length ≤ 254) →
          lines.length ≤ MAX_RECORDS →
          ∃ res, read_csv_file filename
              (some (header1 ++ NL :: (lines.map (fun l => l ++ [NL])).flatten)) data0 = some res
            ∧ res.count = lines.length
            ∧ ∀ i (hi : i < lines.length),
                res.data i = sscanf_record (cstr (lines[i] ++ [NL])) (data0 i)) := by
  refine ⟨?_, rfl, ?_, ?_, read_csv_file_header filename header1 rest data0 h1 hl1,
    fun line more hl hll => read_csv_first_line filename header1 line more data0 h1 hl1 hl hll,
    ?_, ?_⟩
  · unfold read_csv_file
    simp only [fgets_line header1 rest h1 hl1, fgets_line header2 rest h2 hl2]
  · unfold read_csv_file
    simp only [fgets_line header1 [] h1 hl1]
    rfl
  · cases hh : header1 with
    | nil => rfl
    | cons c l =>
      have hall := fgets_chars_all (c :: l) (hh ▸ h1) 255 (by rw [← hh]; omega)
      unfold read_csv_file
      simp only [fgets, hall]
      rfl
  · intro r more hr
    obtain ⟨hnl, hlen, hrec⟩ := sscanf_recordLine r (data0 0) hr
    obtain ⟨res, e1, e2, e3⟩ :=
      read_csv_first_line filename header1 (recordLine r) more data0 h1 hl1 hnl hlen
    exact ⟨res, e1, e2, by rw [e3, hrec]⟩
  · intro lines hl hcap
    obtain ⟨res, e1, e2, e3⟩ :=
      read_csv_file_lines filename header1 lines [] data0 h1 hl1 hl hcap (Or.inl rfl)
    exact ⟨res, by simpa using e1, e2, e3⟩

set_option maxRecDepth 100000 in
/-- Witness of C17, amended: the same data line under two different headers,
and the line `1,2,3,4,5` behind the header, which makes record 0. -/
theorem header_discard_witness :
    read_csv_file "data/a1-data-curricular.csv"
        (some ("Record_ID,Hours_Studied,Attendance,Tutoring_Sessions,Exam_Score".toList ++
          NL :: "1,2,3,4,5\n".toList)) (fun _ => ⟨0, 0, 0, 0, 0⟩) =
      read_csv_file "data/a1-data-curricular.csv"
        (some ("id;hours".toList ++ NL :: "1,2,3,4,5\n".toList)) (fun _ => ⟨0, 0, 0, 0, 0⟩)
    ∧ ∃ res, read_csv_file "data/a1-data-curricular.csv"
          (some ("Record_ID,Hours_Studied,Attendance,Tutoring_Sessions,Exam_Score".toList ++
            NL :: (recordLine ⟨1, 2, 3, 4, 5⟩ ++ NL :: "6,7,8,9,10\n".toList)))
          (fun _ => ⟨0, 0, 0, 0, 0⟩) = some res
        ∧ 1 ≤ res.count ∧ res.data 0 = ⟨1, 2, 3, 4, 5⟩ :=
  ⟨(header_discard "data/a1-data-curricular.csv"
      "Record_ID,Hours_Studied,Attendance,Tutoring_Sessions,Exam_Score".toList
      "id;hours".toList "1,2,3,4,5\n".toList (fun _ => ⟨0, 0, 0, 0, 0⟩)
      (by decide) (by decide) (by decide) (by decide)).1,
    (header_discard "data/a1-data-curricular.csv"
      "Record_ID,Hours_Studied,Attendance,Tutoring_Sessions,Exam_Score".toList
      "id;hours".toList "1,2,3,4,5\n".toList (fun _ => ⟨0, 0, 0, 0, 0⟩)
      (by decide) (by decide) (by decide) (by decide)).2.2.2.2.2.2.1
        ⟨1, 2, 3, 4, 5⟩ "6,7,8,9,10\n".toList (by simp only [intFields]; decide)⟩

set_option maxRecDepth 100000 in
/-- C17 as stated fails: the files `h`, `1,2,3,4,5` and (255 times `h`),
`1,2,3,4,5` differ only in their first line, but the first gives 1 record,
(1,2,3,4,5), and the second gives 2 records, the first of them untouched: the
`fgets` that skips the header stops after 255 characters and leaves the
newline of the header as a data line.  Likewise a file of one line of 300
characters gives 1 record, not 0. -/
theorem header_discard_long_line :
    (read_csv_file "data/a1-data-curricular.csv"
        (some ("h".toList ++ NL :: "1,2,3,4,5\n".toList))
        (fun _ => ⟨0, 0, 0, 0, 0⟩)).map (fun r => (r.count, r.data 0)) =
      some (1, ⟨1, 2, 3, 4, 5⟩)
    ∧ (read_csv_file "data/a1-data-curricular.csv"
        (some (List.replicate 255 'h' ++ NL :: "1,2,3,4,5\n".toList))
        (fun _ => ⟨0, 0, 0, 0, 0⟩)).map (fun r => (r.count, r.data 0)) =
      some (2, ⟨0, 0, 0, 0, 0⟩)
    ∧ (read_csv_file "data/a1-data-curricular.csv"
        (some (List.replicate 300 'h'))
        (fun _ => ⟨0, 0, 0, 0, 0⟩)).map (fun r => r.count) = some 1 := by
  decide

/-- C18. For every string `s`, the string `trim_whitespace` returns has no
leading and no trailing white space character, and `s` is that string
between two runs of white space; when `s` is empty or white space alone, the
returned string is empty. -/
theorem trim_whitespace_returns (s : List Char) :
    (∀ c ∈ (trim_whitespace s).1.head?, isspace c = false)
      ∧ (∀ c ∈ (trim_whitespace s).1.getLast?, isspace c = false)
      ∧ (∃ l r, s = l ++ (trim_whitespace s).1 ++ r ∧
          (∀ c ∈ l, isspace c = true) ∧ (∀ c ∈ r, isspace c = true))
      ∧ ((∀ c ∈ s, isspace c = true) → (trim_whitespace s).1 = []) := by
  rw [trim_whitespace_fst]
  refine ⟨?_, ?_, ?_, ?_⟩
  · intro c hc
    cases hd : s.dropWhile isspace with
    | nil => rw [hd] at hc; simp at hc
    | cons x rest =>
      have hx : isspace x = false := head_dropWhile_not isspace s x rest hd
      rw [hd, rdropWhile_cons_stop isspace rest x hx] at hc
      simp at hc
      rw [← hc]; exact hx
  · intro c hc
    by_cases hne : (s.dropWhile isspace).rdropWhile isspace = []
    · rw [hne] at hc; simp at hc
    · rw [List.getLast?_eq_getLast _ hne] at hc
      simp at hc
      have := List.rdropWhile_last_not isspace (s.dropWhile isspace) hne
      rw [← hc]
      simpa using this
  · refine ⟨s.takeWhile isspace, (s.dropWhile isspace).rtakeWhile isspace, ?_,
      fun c hc => List.mem_takeWhile_imp hc, fun c hc => List.mem_rtakeWhile_imp hc⟩
    rw [List.append_assoc, rdropWhile_append_rtakeWhile', List.takeWhile_append_dropWhile]
  · intro hall
    have : s.dropWhile isspace = [] := by
      rw [List.dropWhile_eq_nil_iff]; exact hall
    rw [this]; rfl

/-- Witness of C18: a string of two spaces, a tab and a newline trims to the
empty string. -/
theorem trim_whitespace_returns_witness :
    (trim_whitespace [' ', ' ', Char.ofNat 9, NL]).1 = [] :=
  (trim_whitespace_returns [' ', ' ', Char.ofNat 9, NL]).2.2.2 (by decide)

/-- C20. Task 3 refines task 1: the (record_id, exam_score) pairs taken from
the data rows of the output of task 3 (first and fifth field of each row) form
a sublist, in order, of the data rows of the output of task 1, and the two
lists are equal when every curricular record with `exam_score > 90` has a
correlated extracurricular record. -/
theorem task3_refines_task1 (csv_data : Nat → CurricularData) (num_csv : Int)
    (yaml_data : Nat → ExtracurricularData) (num_yaml : Int) :
    ((dataRows (dispatch 3 csv_data num_csv yaml_data num_yaml).output).map
        task3_pair).Sublist
      (dataRows (dispatch 1 csv_data num_csv yaml_data num_yaml).output)
    ∧ ((∀ c ∈ records csv_data num_csv, c.exam_score > 90 →
          correlated c yaml_data num_yaml) →
      (dataRows (dispatch 3 csv_data num_csv yaml_data num_yaml).output).map task3_pair =
        dataRows (dispatch 1 csv_data num_csv yaml_data num_yaml).output) := by
  rw [task3_dataRows, task1_dataRows]
  exact task3_pairs_sublist yaml_data num_yaml _

set_option maxRecDepth 100000 in
/-- Witness of C20: with the records (1,5,90,2,95), (2,3,80,1,97) and one
extracurricular record of id 1, task 3 gives the pair `1,95` and task 1 the
rows `1,95` and `2,97`; when both curricular records have id 1, the two lists
are equal. -/
theorem task3_refines_task1_witness :
    (dataRows (dispatch 3 (fun i => if i = 0 then ⟨1, 5, 90, 2, 95⟩ else ⟨2, 3, 80, 1, 97⟩) 2
        (fun _ => ⟨1, 3, 1, 7⟩) 1).output).map task3_pair = [["1".toList, "95".toList]]
    ∧ dataRows (dispatch 1 (fun i => if i = 0 then ⟨1, 5, 90, 2, 95⟩ else ⟨2, 3, 80, 1, 97⟩) 2
        (fun _ => ⟨1, 3, 1, 7⟩) 1).output =
      [["1".toList, "95".toList], ["2".toList, "97".toList]]
    ∧ (dataRows (dispatch 3 (fun _ => ⟨1, 5, 90, 2, 95⟩) 2
        (fun _ => ⟨1, 3, 1, 7⟩) 1).output).map task3_pair =
      dataRows (dispatch 1 (fun _ => ⟨1, 5, 90, 2, 95⟩) 2 (fun _ => ⟨1, 3, 1, 7⟩) 1).output :=
  ⟨by decide, by decide,
    (task3_refines_task1 (fun _ => ⟨1, 5, 90, 2, 95⟩) 2 (fun _ => ⟨1, 3, 1, 7⟩) 1).2
      (by
        intro c hc _
        exact ⟨⟨1, 3, 1, 7⟩, by decide, by
          simp only [records, List.mem_map] at hc
          obtain ⟨i, -, rfl⟩ := hc
          rfl⟩)⟩

end SpfAnalyzer
